import Mathlib

/-!
Verification of the purrgram compiler front end and lowering engine
(lexer, automatic semicolon insertion, Pratt parser, environment,
AST-to-IR lowering), shallowly embedded from the Python sources
(`Lexer.py`, `Sanitizer.py`, `Parser.py`, `Environment.py`, `Compiler.py`,
`Token.py`, `AST.py`, `main.py`).
-/

set_option autoImplicit false

namespace Purrgram

/-- Source position. Modelled from the spec: the repository imports a
`Position` module (`Position.py`) that is not present in the source tree.
Spec section 3: a position is `(byte_index, line (1-based), column)`;
advancing over a newline increments `ln` and resets `col` to 0, otherwise
it increments `col`; the byte index always increments.  `idx` is kept as a
natural number (the value `-1` used transiently by the Python lexer before
its initial `advance` never appears on a token). -/
structure Pos where
  idx : Nat
  ln : Nat
  col : Nat
deriving Repr, DecidableEq

/-- `Position.advance(current_char)`: modelled from the spec (section 3). -/
def Pos.advance (c : Option Char) (p : Pos) : Pos :=
  if c = some '\n' then { idx := p.idx + 1, ln := p.ln + 1, col := 0 }
  else { idx := p.idx + 1, ln := p.ln, col := p.col + 1 }

/-- Token kinds, from `Token.py` (`class TokenType`). -/
inductive TokenType where
  | IDENT | INT | FLOAT | BOOL | STRING
  | PLUS | MINUS | ASTERISK | SLASH | POW | MODULUS
  | EQ | PLUS_EQ | MINUS_EQ | MUL_EQ | DIV_EQ | POW_EQ | MOD_EQ
  | LPAREN | RPAREN | COLON | COMMA | SEMICOLON
  | AND | OR | NOT | VAR | DEF | RETURN | IF | ELIF | ELSE
  | TRUE | FALSE | WHILE | CONTINUE | BREAK | IMPORT | END
  | TYPE | ARROW | EOF | ILLEGAL
  | GT | LT | GT_EQ | LT_EQ | NOT_EQ | EQ_EQ
deriving Repr, DecidableEq

/-- A token's `literal` payload: Python stores `None`, a string, an `int`
or a `float` there.  Floats are modelled as exact rationals. -/
inductive Lit where
  | noneL
  | strL (s : List Char)
  | intL (n : Int)
  | floatL (q : ℚ)
deriving Repr, DecidableEq

/-- A token, from `Token.py` (`class Token`): kind, literal payload and the
(inclusive-start, exclusive-end) source range. -/
structure Tok where
  type : TokenType
  lit : Lit
  posStart : Pos
  posEnd : Pos
deriving Repr, DecidableEq

/-! ## Sanitizer (`Sanitizer.py`, `sanitize`) -/

/-- The "expression-closer" set tested on `prev` (`Sanitizer.py` lines 16-20). -/
def closerSet (t : TokenType) : Bool :=
  match t with
  | .RPAREN | .IDENT | .STRING | .INT | .FLOAT | .FALSE | .TRUE => true
  | _ => false

/-- The "statement-starter" set tested on `cur` (`Sanitizer.py` lines 21-29). -/
def starterSet (t : TokenType) : Bool :=
  match t with
  | .LPAREN | .IDENT | .STRING | .INT | .FLOAT | .FALSE | .TRUE
  | .DEF | .RETURN | .IF | .ELIF | .ELSE | .END | .VAR | .WHILE
  | .BREAK | .CONTINUE => true
  | _ => false

/-- The set tested on `cur` when `prev` is `return` (`Sanitizer.py` lines 36-41). -/
def returnFollowSet (t : TokenType) : Bool :=
  match t with
  | .BREAK | .CONTINUE | .DEF | .ELIF | .ELSE | .END | .IF | .RETURN
  | .VAR | .WHILE => true
  | _ => false

/-- The set tested on the last non-EOF token (`Sanitizer.py` lines 45-50). -/
def finalSet (t : TokenType) : Bool :=
  match t with
  | .RPAREN | .IDENT | .STRING | .INT | .FLOAT | .BREAK | .CONTINUE
  | .FALSE | .RETURN | .TRUE => true
  | _ => false

/-- One iteration of the position-collecting loop of `sanitize`
(`Sanitizer.py` lines 15-51), for a pair `(prev, cur)`: the list (empty or
singleton `prev.pos_end.idx`) of byte indices appended to
`insert_positions` at this pair. -/
def stepHits (prev cur : Tok) : List Nat :=
  if cur.type ≠ TokenType.EOF ∧ prev.posEnd.ln ≠ cur.posStart.ln then
    if closerSet prev.type then
      if starterSet cur.type then [prev.posEnd.idx] else []
    else if prev.type = .BREAK ∨ prev.type = .CONTINUE then
      [prev.posEnd.idx]
    else if prev.type = .RETURN then
      if returnFollowSet cur.type then [prev.posEnd.idx] else []
    else []
  else if cur.type = TokenType.EOF then
    if finalSet prev.type then [prev.posEnd.idx] else []
  else []

/-- The collecting loop of `sanitize`: walk the token list carrying `prev`
(initially `None`) and concatenate the hits of every step. -/
def collect : Option Tok → List Tok → List Nat
  | _, [] => []
  | none, cur :: rest => collect (some cur) rest
  | some prev, cur :: rest => stepHits prev cur ++ collect (some cur) rest

/-- The synthetic semicolon token inserted after `t`
(`Sanitizer.py` lines 60-70): `pos_start` is a copy of `t.pos_end`,
`pos_end` is that position advanced once (over no character). -/
def semiAfter (t : Tok) : Tok :=
  { type := .SEMICOLON, lit := .strL [';'],
    posStart := t.posEnd, posEnd := Pos.advance none t.posEnd }

/-- The reconstruction loop of `sanitize` (`Sanitizer.py` lines 56-71):
emit each token, followed by a synthetic semicolon whenever the token's
`pos_end.idx` is in the collected set. -/
def rebuild (S : List Nat) : List Tok → List Tok
  | [] => []
  | t :: rest =>
      if t.posEnd.idx ∈ S then t :: semiAfter t :: rebuild S rest
      else t :: rebuild S rest

/-- `sanitize` (`Sanitizer.py` lines 4-73): automatic semicolon insertion. -/
def sanitize (ts : List Tok) : List Tok :=
  rebuild (collect none ts) ts

/-- The hit list produced by one collecting step, as a function of the
optional `prev` and the optional next token. -/
def stepOpt : Option Tok → Option Tok → List Nat
  | some p, some c => stepHits p c
  | _, _ => []

/-- The claim's pairwise insertion condition: a semicolon goes between
`prev` and `cur` when `cur` is not EOF, `prev` ends on an earlier line
than `cur` starts, and one of the three trigger rules applies; one final
semicolon goes before EOF when the last non-EOF token is in `finalSet`.
This definition follows the words of claim C5 (spec section 4.2), to be
compared with `sanitize` from the source. -/
def specFires (prev cur : Tok) : Bool :=
  if cur.type = TokenType.EOF then finalSet prev.type
  else if prev.posEnd.ln < cur.posStart.ln then
    if closerSet prev.type ∧ starterSet cur.type then true
    else if prev.type = .BREAK ∨ prev.type = .CONTINUE then true
    else if prev.type = .RETURN ∧ returnFollowSet cur.type then true
    else false
  else false

/-- The sanitizer described by the words of claim C5: walk consecutive
pairs, inserting a synthetic semicolon after `prev` exactly when
`specFires prev cur`; nothing else is inserted, removed or reordered. -/
def sanitizeSpec : List Tok → List Tok
  | [] => []
  | [t] => [t]
  | p :: c :: rest =>
      if specFires p c then p :: semiAfter p :: sanitizeSpec (c :: rest)
      else p :: sanitizeSpec (c :: rest)

/-- Invariant relating a collected-position set `S` to the pairwise rule:
along the list, a token's end index is in `S` exactly when the code's rule
fires at its pair, and the final token's end index is not in `S`. -/
def goodS (S : List Nat) : List Tok → Prop
  | [] => True
  | [t] => t.posEnd.idx ∉ S
  | p :: c :: rest => (p.posEnd.idx ∈ S ↔ stepHits p c ≠ []) ∧ goodS S (c :: rest)

/-! ## Error records (`Error.py`) -/

/-- An accumulated diagnostic (`Error.py`, `ErrorHandler.add_error`):
source range and error-name ("Lexical Error", "Syntax Error", ...).  The
human-readable detail string is not modelled; no claim depends on it. -/
structure ErrRec where
  posStart : Pos
  posEnd : Pos
  name : String
deriving Repr, DecidableEq

/-! ## Lexer (`Lexer.py`) -/

/-- Lexer state: source text, cursor position (`Lexer.position`) and the
shared error handler's accumulated errors.  The Python cursor starts at
`idx = -1, ln = 1, col = 0` and is advanced once (over no character)
during `__init__`; the state here is the post-`__init__` one. -/
structure LexState where
  src : List Char
  pos : Pos
  errors : List ErrRec
deriving Repr, DecidableEq

/-- The ways the Python lexer can die with an uncaught exception, plus the
fuel-exhaustion marker of this model (never reached with adequate fuel). -/
inductive LexCrash where
  /-- `NameError`: `_is_invalid_decimal_point` (Lexer.py line 106) reads the
  bare global name `DIGITS`, which is not defined (the class constant is
  `self.DIGITS`). -/
  | nameErrorDIGITS
  /-- `TypeError`: `_process_string` concatenates `self.current_char` when it
  is `None` (backslash as the last character of the source). -/
  | noneConcat
  /-- Model artifact: recursion fuel exhausted. -/
  | outOfFuel
deriving Repr, DecidableEq

/-- State-and-crash monad for the lexer embedding. -/
def LexM (α : Type) : Type := LexState → Except LexCrash (α × LexState)

instance : Monad LexM where
  pure := fun a s => .ok (a, s)
  bind := fun m f s =>
    match m s with
    | .ok (a, s2) => f a s2
    | .error e => .error e

def lthrow {α : Type} (e : LexCrash) : LexM α := fun _ => .error e

def lget : LexM LexState := fun s => .ok (s, s)

def lmodify (f : LexState → LexState) : LexM Unit := fun s => .ok ((), f s)

/-- `self.current_char`: the character at the cursor, if any. -/
def lexCurrent (s : LexState) : Option Char := s.src.get? s.pos.idx

/-- `Lexer.advance` (lines 30-37): advance the position over the current
character (the new current character is recomputed on demand). -/
def lexAdvance : LexM Unit :=
  lmodify fun s => { s with pos := Pos.advance (lexCurrent s) s.pos }

/-- `ErrorHandler.add_error`, as used by the lexer. -/
def lexAddError (ps pe : Pos) (nm : String) : LexM Unit :=
  lmodify fun s => { s with errors := s.errors ++ [⟨ps, pe, nm⟩] }

/-- `string.whitespace`. -/
def isWS (c : Char) : Bool :=
  c = ' ' ∨ c = '\t' ∨ c = '\n' ∨ c = '\r' ∨ c = Char.ofNat 11 ∨ c = Char.ofNat 12

/-- `string.digits`. -/
def isDigitC (c : Char) : Bool := '0' ≤ c ∧ c ≤ '9'

/-- `string.ascii_letters`. -/
def isLetterC (c : Char) : Bool := ('a' ≤ c ∧ c ≤ 'z') ∨ ('A' ≤ c ∧ c ≤ 'Z')

/-- `lookup_ident` (`Token.py` lines 140-160): keyword table, then type
keywords, then plain identifier. -/
def lookupIdent (id : List Char) : TokenType :=
  if id = "and".toList then .AND
  else if id = "or".toList then .OR
  else if id = "not".toList then .NOT
  else if id = "var".toList then .VAR
  else if id = "def".toList then .DEF
  else if id = "return".toList then .RETURN
  else if id = "if".toList then .IF
  else if id = "elif".toList then .ELIF
  else if id = "else".toList then .ELSE
  else if id = "true".toList then .TRUE
  else if id = "false".toList then .FALSE
  else if id = "while".toList then .WHILE
  else if id = "continue".toList then .CONTINUE
  else if id = "break".toList then .BREAK
  else if id = "import".toList then .IMPORT
  else if id = "end".toList then .END
  else if id = "int".toList ∨ id = "float".toList ∨ id = "bool".toList ∨
      id = "str".toList ∨ id = "void".toList then .TYPE
  else .IDENT

/-- `while self.current_char and self.current_char in WHITESPACE: advance`. -/
def skipWhitespace : Nat → LexM Unit
  | 0 => lthrow .outOfFuel
  | f + 1 => do
    let s ← lget
    match lexCurrent s with
    | some c => if isWS c then do lexAdvance; skipWhitespace f else pure ()
    | none => pure ()

/-- `_skip_comment` (lines 174-179): skip to end of line, then skip the
newline itself. -/
def skipComment : Nat → LexM Unit
  | 0 => lthrow .outOfFuel
  | f + 1 => do
    let s ← lget
    match lexCurrent s with
    | some c => if c ≠ '\n' then do lexAdvance; skipComment f else lexAdvance
    | none => lexAdvance

/-- The accumulation loop of `_process_identifier`. -/
def identLoop : Nat → List Char → LexM (List Char)
  | 0, _ => lthrow .outOfFuel
  | f + 1, acc => do
    let s ← lget
    match lexCurrent s with
    | some c =>
        if isLetterC c ∨ isDigitC c ∨ c = '_' then do
          lexAdvance; identLoop f (acc ++ [c])
        else pure acc
    | none => pure acc

/-- `_process_identifier` (lines 181-195). -/
def processIdentifier (fuel : Nat) : LexM Tok := do
  let s ← lget
  let startPos := s.pos
  let id ← identLoop fuel []
  let s2 ← lget
  pure ⟨lookupIdent id, .strL id, startPos, s2.pos⟩

/-- `int(number_str)` for a digit string. -/
def digitsToNat (cs : List Char) : Nat :=
  cs.foldl (fun a c => a * 10 + (c.toNat - 48)) 0

/-- `float(number_str)` for a decimal string with at most one dot,
modelled as an exact rational. -/
def parseFloatQ (cs : List Char) : ℚ :=
  let ip := cs.takeWhile (fun c => c ≠ '.')
  let fp := (cs.dropWhile (fun c => c ≠ '.')).drop 1
  (digitsToNat ip : ℚ) + (digitsToNat fp : ℚ) / ((10 : ℚ) ^ fp.length)

/-- The accumulation loop of `_process_number` (lines 207-216): at a
second decimal point it reports "multiple decimal points" and breaks
without consuming the offending dot. -/
def numLoop : Nat → Nat → List Char → LexM (Nat × List Char)
  | 0, _, _ => lthrow .outOfFuel
  | f + 1, dc, acc => do
    let s ← lget
    match lexCurrent s with
    | some c =>
        if isDigitC c ∨ c = '.' then
          if c = '.' ∧ dc ≠ 0 then do
            lexAddError s.pos (Pos.advance none s.pos) "Lexical Error"
            pure (dc, acc)
          else do
            lexAdvance
            numLoop f (if c = '.' then dc + 1 else dc) (acc ++ [c])
        else pure (dc, acc)
    | none => pure (dc, acc)

/-- `_process_number` (lines 197-221). -/
def processNumber (fuel : Nat) : LexM Tok := do
  let s ← lget
  let startPos := s.pos
  let (dc, str) ← numLoop fuel 0 []
  let s2 ← lget
  if dc = 0 then pure ⟨.INT, .intL (digitsToNat str), startPos, s2.pos⟩
  else pure ⟨.FLOAT, .floatL (parseFloatQ str), startPos, s2.pos⟩

/-- The accumulation loop of `_process_string` (lines 234-239): a
backslash appends itself and the following character verbatim (decoding is
deferred to lowering); a backslash at end of source crashes on
`None`-concatenation. -/
def strLoop : Nat → List Char → LexM (List Char)
  | 0, _ => lthrow .outOfFuel
  | f + 1, acc => do
    let s ← lget
    match lexCurrent s with
    | some c =>
        if c = '"' then pure acc
        else if c = '\\' then do
          lexAdvance
          let s2 ← lget
          match lexCurrent s2 with
          | some c2 => do lexAdvance; strLoop f (acc ++ [c, c2])
          | none => lthrow .noneConcat
        else do lexAdvance; strLoop f (acc ++ [c])
    | none => pure acc

/-- `_process_string` (lines 223-246). -/
def processString (fuel : Nat) : LexM Tok := do
  let s ← lget
  let startPos := s.pos
  lexAdvance
  let content ← strLoop fuel []
  let s2 ← lget
  match lexCurrent s2 with
  | none => do
      lexAddError startPos (Pos.advance none s2.pos) "Lexical Error"
      pure ⟨.STRING, .strL content, startPos, s2.pos⟩
  | some _ => do
      lexAdvance
      let s3 ← lget
      pure ⟨.STRING, .strL content, startPos, s3.pos⟩

/-- Shared shape of `_process_plus_or_add_equals`, `_process_slash...`,
`_process_modulus...`, `_process_equals`, `_process_greater_than`,
`_process_less_than`: one-char lookahead for `=`. -/
def processOpEq (c : Char) (single doubleEq : TokenType) : LexM Tok := do
  let s ← lget
  let startPos := s.pos
  lexAdvance
  let s2 ← lget
  match lexCurrent s2 with
  | some '=' => do
      lexAdvance
      let s3 ← lget
      pure ⟨doubleEq, .strL [c, '='], startPos, s3.pos⟩
  | _ => pure ⟨single, .strL [c], startPos, s2.pos⟩

/-- `_process_minus_or_arrow` (lines 265-284). -/
def processMinus : LexM Tok := do
  let s ← lget
  let startPos := s.pos
  lexAdvance
  let s2 ← lget
  match lexCurrent s2 with
  | some '>' => do
      lexAdvance
      let s3 ← lget
      pure ⟨.ARROW, .strL ['-', '>'], startPos, s3.pos⟩
  | some '=' => do
      lexAdvance
      let s3 ← lget
      pure ⟨.MINUS_EQ, .strL ['-', '='], startPos, s3.pos⟩
  | _ => pure ⟨.MINUS, .strL ['-'], startPos, s2.pos⟩

/-- `_process_asterisks` (lines 286-312). -/
def processAsterisks : LexM Tok := do
  let s ← lget
  let startPos := s.pos
  lexAdvance
  let s2 ← lget
  match lexCurrent s2 with
  | some '*' => do
      lexAdvance
      let s3 ← lget
      match lexCurrent s3 with
      | some '=' => do
          lexAdvance
          let s4 ← lget
          pure ⟨.POW_EQ, .strL ['*', '*', '='], startPos, s4.pos⟩
      | _ => pure ⟨.POW, .strL ['*', '*'], startPos, s3.pos⟩
  | some '=' => do
      lexAdvance
      let s3 ← lget
      pure ⟨.MUL_EQ, .strL ['*', '='], startPos, s3.pos⟩
  | _ => pure ⟨.ASTERISK, .strL ['*'], startPos, s2.pos⟩

/-- `_process_not_equals` (lines 399-421): a bare `!` reports
"Lexical error" and yields an ILLEGAL token. -/
def processNotEquals : LexM Tok := do
  let s ← lget
  let startPos := s.pos
  lexAdvance
  let s2 ← lget
  match lexCurrent s2 with
  | some '=' => do
      lexAdvance
      let s3 ← lget
      pure ⟨.NOT_EQ, .strL ['!', '='], startPos, s3.pos⟩
  | _ => do
      lexAddError startPos s2.pos "Lexical error"
      pure ⟨.ILLEGAL, .strL ['!'], startPos, s2.pos⟩

/-- `_process_illegal_character` (lines 147-167): reports the error, emits
a token whose end position equals its start (the cursor has not advanced
yet when the token is built), then advances. -/
def processIllegal (c : Char) : LexM Tok := do
  let s ← lget
  let startPos := s.pos
  lexAddError startPos (Pos.advance none startPos) "Lexical Error"
  lexAdvance
  pure ⟨.ILLEGAL, .strL [c], startPos, startPos⟩

/-- `_is_invalid_decimal_point` (lines 101-107).  Faithful to the source:
when the current character is `.` and a next character exists, evaluating
the bare name `DIGITS` raises `NameError` (the class constant is
`self.DIGITS`); only a `.` at the very end of the source short-circuits
before the broken name is reached. -/
def isInvalidDecimalPoint : LexM Bool := do
  let s ← lget
  match lexCurrent s with
  | some c =>
      if c = '.' then
        if s.pos.idx + 1 ≥ s.src.length then pure true
        else lthrow .nameErrorDIGITS
      else pure false
  | none => pure false

/-- `_report_invalid_decimal_point` (lines 109-120). -/
def reportInvalidDecimalPoint : LexM Unit := do
  let s ← lget
  lexAddError s.pos (Pos.advance none s.pos) "Lexical Error"

/-- Single-character delimiter token (`: ( ) , ;` branches of `tokenize`):
`Token(tt, literal=c, pos_start=self.position)` gives the synthetic end
position `pos_start.advance()`, then the cursor advances. -/
def processSingle (c : Char) (tt : TokenType) : LexM Tok := do
  let s ← lget
  lexAdvance
  pure ⟨tt, .strL [c], s.pos, Pos.advance none s.pos⟩

/-- The dispatch loop of `Lexer.tokenize` (lines 39-99), in source order. -/
def tokenizeLoop : Nat → List Tok → LexM (List Tok)
  | 0, _ => lthrow .outOfFuel
  | f + 1, acc => do
    let s ← lget
    match lexCurrent s with
    | none => pure acc
    | some c =>
      if isWS c then do skipWhitespace f; tokenizeLoop f acc
      else if c = '#' then do skipComment f; tokenizeLoop f acc
      else if isLetterC c ∨ c = '_' then do
        let t ← processIdentifier f; tokenizeLoop f (acc ++ [t])
      else if isDigitC c ∨ c = '.' then do
        let inv ← isInvalidDecimalPoint
        if inv then do
          reportInvalidDecimalPoint; lexAdvance; tokenizeLoop f acc
        else do
          let t ← processNumber f; tokenizeLoop f (acc ++ [t])
      else if c = '"' then do
        let t ← processString f; tokenizeLoop f (acc ++ [t])
      else if c = '+' then do
        let t ← processOpEq '+' .PLUS .PLUS_EQ; tokenizeLoop f (acc ++ [t])
      else if c = '-' then do
        let t ← processMinus; tokenizeLoop f (acc ++ [t])
      else if c = '*' then do
        let t ← processAsterisks; tokenizeLoop f (acc ++ [t])
      else if c = '/' then do
        let t ← processOpEq '/' .SLASH .DIV_EQ; tokenizeLoop f (acc ++ [t])
      else if c = '%' then do
        let t ← processOpEq '%' .MODULUS .MOD_EQ; tokenizeLoop f (acc ++ [t])
      else if c = '=' then do
        let t ← processOpEq '=' .EQ .EQ_EQ; tokenizeLoop f (acc ++ [t])
      else if c = ':' then do
        let t ← processSingle ':' .COLON; tokenizeLoop f (acc ++ [t])
      else if c = '(' then do
        let t ← processSingle '(' .LPAREN; tokenizeLoop f (acc ++ [t])
      else if c = ')' then do
        let t ← processSingle ')' .RPAREN; tokenizeLoop f (acc ++ [t])
      else if c = ',' then do
        let t ← processSingle ',' .COMMA; tokenizeLoop f (acc ++ [t])
      else if c = ';' then do
        let t ← processSingle ';' .SEMICOLON; tokenizeLoop f (acc ++ [t])
      else if c = '>' then do
        let t ← processOpEq '>' .GT .GT_EQ; tokenizeLoop f (acc ++ [t])
      else if c = '<' then do
        let t ← processOpEq '<' .LT .LT_EQ; tokenizeLoop f (acc ++ [t])
      else if c = '!' then do
        let t ← processNotEquals; tokenizeLoop f (acc ++ [t])
      else do
        let t ← processIllegal c; tokenizeLoop f (acc ++ [t])

/-- `Lexer.tokenize`: run the dispatch loop from the post-`__init__` state
and append the final EOF token. -/
def tokenize (src : List Char) : Except LexCrash (List Tok × LexState) :=
  let init : LexState := { src := src, pos := ⟨0, 1, 1⟩, errors := [] }
  match tokenizeLoop (src.length + 2) [] init with
  | .ok (toks, s) => .ok (toks ++ [⟨.EOF, .noneL, s.pos, Pos.advance none s.pos⟩], s)
  | .error e => .error e

/-! ## String-literal decoding (`Compiler.convert_string`, lines 620-643) -/

/-- Python `str.replace(pat, rep)` for the two-character pattern
`['\\', p]` and one-character replacement `[r]`: left-to-right,
non-overlapping, the replacement text is not rescanned. -/
def repl2 (p r : Char) : List Char → List Char
  | [] => []
  | [c] => [c]
  | c1 :: c2 :: rest =>
      if c1 = '\\' ∧ c2 = p then r :: repl2 p r rest
      else c1 :: repl2 p r (c2 :: rest)

/-- The ten sequential global replaces of `convert_string`
(Compiler.py lines 624-633), in source order: `\n \t \r \\ \" \' \0 \b \f \v`. -/
def decodeEscapes (s : List Char) : List Char :=
  repl2 'v' (Char.ofNat 11) <|
  repl2 'f' (Char.ofNat 12) <|
  repl2 'b' (Char.ofNat 8) <|
  repl2 '0' (Char.ofNat 0) <|
  repl2 '\'' '\'' <|
  repl2 '"' '"' <|
  repl2 '\\' '\\' <|
  repl2 'r' '\r' <|
  repl2 't' '\t' <|
  repl2 'n' '\n' s

/-- The decoded byte string staged by `convert_string` (lines 635-639): a
null terminator is appended unless the decoded text already ends in NUL. -/
def convertedLiteral (s : List Char) : List Char :=
  let d := decodeEscapes s
  if d.getLast? = some (Char.ofNat 0) then d else d ++ [Char.ofNat 0]

/-- The escape table, in the order the source replaces them:
`\n \t \r \\ \" \' \0 \b \f \v` with their byte values. -/
def escTable : List (Char × Char) :=
  [('n', '\n'), ('t', '\t'), ('r', '\r'), ('\\', '\\'), ('"', '"'),
   ('\'', '\''), ('0', Char.ofNat 0), ('b', Char.ofNat 8),
   ('f', Char.ofNat 12), ('v', Char.ofNat 11)]

/-- First-match lookup in an escape table. -/
def tableLookup (tbl : List (Char × Char)) (c : Char) : Option Char :=
  (tbl.find? (fun pr => pr.1 = c)).map (fun pr => pr.2)

/-- The escape mapping in the words of claim C4: each listed escape
character decodes to its single byte value. -/
def escByte (c : Char) : Option Char := tableLookup escTable c

/-- The ten sequential replaces as a fold over the ordered table (the
same composition as `decodeEscapes`, in a shape convenient for
induction). -/
def escFold : List (Char × Char) → List Char → List Char
  | [], s => s
  | (p, r) :: tbl, s => escFold tbl (repl2 p r s)

/-- Decoder following the words of claim C4: one left-to-right pass,
translating each escape sequence into its byte value (escapes outside the
listed table are kept verbatim). -/
def specDecode : List Char → List Char
  | [] => []
  | [c] => [c]
  | c1 :: c2 :: rest =>
      if c1 = '\\' then
        match escByte c2 with
        | some b => b :: specDecode rest
        | none => c1 :: c2 :: specDecode rest
      else c1 :: specDecode (c2 :: rest)

/-- A backslash pair (`\\` in the literal text) somewhere in the string. -/
def hasPair : List Char → Bool
  | c1 :: c2 :: rest => if c1 = '\\' ∧ c2 = '\\' then true else hasPair (c2 :: rest)
  | _ => false

/-! ## AST (`AST.py`).

Python AST nodes are built field-by-field and may transiently (or, for
optional initialisers, permanently) hold `None` in child slots; those
slots are `Option`-typed here, exactly where the source can store `None`.
Statement lists inside `if`/`while` bodies are appended unguarded (so may
hold `None`); `Program.statements` and function bodies are appended only
under a not-`None` check. -/

/-- Expressions: `IntegerLiteral`, `FloatLiteral`, `IdentifierLiteral`,
`BooleanLiteral`, `StringLiteral`, `InfixExpression`, `CallExpression`,
`PrefixExpression`. -/
inductive Expr where
  | integerLiteral (value : Int)
  | floatLiteral (value : ℚ)
  | identifierLiteral (value : List Char)
  | booleanLiteral (value : Bool)
  | stringLiteral (value : List Char)
  | infixExpression (leftNode : Option Expr) (operator : List Char)
      (rightNode : Option Expr)
  | callExpression (function : Option Expr) (args : List (Option Expr))
  | prefixExpression (operator : List Char) (rightNode : Option Expr)
deriving Repr

/-- `FunctionParameter`. -/
structure FunctionParameter where
  name : List Char
  valueType : Option (List Char)
deriving Repr, DecidableEq

/-- Statements. -/
inductive Stmt where
  | expressionStatement (expr : Option Expr)
  | varStatement (name : Option Expr) (value : Option Expr)
      (valueType : Option (List Char))
  | functionStatement (name : Option Expr) (parameters : List FunctionParameter)
      (returnType : Option (List Char)) (body : List Stmt)
  | returnStatement (returnValue : Option Expr)
  | assignStatement (ident : Option Expr) (operator : List Char)
      (rightValue : Option Expr)
  | ifStatement (condition : Option Expr) (body : List (Option Stmt))
      (elseBody : List (Option Stmt))
  | whileStatement (condition : Option Expr) (body : List (Option Stmt))
  | breakStatement
  | continueStatement
  | importStatement (filePath : List Char)
deriving Repr

/-- `Program`. -/
structure Program where
  statements : List Stmt
deriving Repr

/-! ## IR model (`llvmlite.ir` as used by `Compiler.py`).

Types mirror `ir.IntType(n)`, `ir.DoubleType`, `ir.PointerType`,
`ir.ArrayType`, `ir.VoidType` and function types; values mirror constants,
functions, global variables and instruction results (load results keep
their source operand, which `builtin_print` inspects).  Instructions
record each builder call with its operands. -/

inductive IRType where
  | i (bits : Nat)
  | double
  | ptrTo (pointee : IRType)
  | arr (len : Nat) (elem : IRType)
  | voidT
  | fnT
deriving Repr, DecidableEq

/-- An LLVM value as `Compiler.py` manipulates them. -/
inductive IRValue where
  | constI (bits : Nat) (value : Int)
  | constF (value : ℚ)
  | constArr (len : Nat) (bytes : List Nat)
  | globalFn (name : List Char) (retTy : IRType)
  | globalVar (name : List Char) (ty : IRType)
  | loadReg (id : Nat) (ty : IRType) (src : IRValue)
  | reg (id : Nat) (ty : IRType)
deriving Repr, DecidableEq

/-- `value.type` in llvmlite: a function value's type is a pointer to a
function type; a global variable's recorded type is already the pointer
type it was registered with. -/
def IRValue.ty : IRValue → IRType
  | .constI bits _ => .i bits
  | .constF _ => .double
  | .constArr n _ => .arr n (.i 8)
  | .globalFn _ _ => .ptrTo .fnT
  | .globalVar _ t => t
  | .loadReg _ t _ => t
  | .reg _ t => t

/-- One emitted instruction (a builder call). -/
inductive Instr where
  | alloca (res : Nat) (elemTy : IRType)
  | store (value : IRValue) (ptr : IRValue)
  | load (res : Nat) (ptr : IRValue)
  | sitofp (res : Nat) (value : IRValue)
  | arith (res : Nat) (opName : String) (a b : IRValue)
  | icmpSigned (res : Nat) (op : List Char) (a b : IRValue)
  | fcmpOrdered (res : Nat) (op : List Char) (a b : IRValue)
  | callI (res : Nat) (fn : IRValue) (args : List IRValue)
  | bitcast (res : Nat) (value : IRValue) (toTy : IRType)
deriving Repr, DecidableEq

/-! ## Environment (`Environment.py`) -/

/-- One frame: `Environment.records`, a name-to-`(value, type)` mapping.
The Python `dict` overwrite-on-define is modelled by prepending; `lookup`
takes the first match, which is observationally the same. -/
abbrev Frame : Type := List (List Char × (IRValue × IRType))

/-- `Environment.resolve` (lines 16-22): search the current frame, then
the parent chain (here, the tail of the frame list). -/
def envResolve : List Frame → List Char → Option (IRValue × IRType)
  | [], _ => none
  | f :: rest, n =>
      match f.find? (fun r => r.1 = n) with
      | some r => some r.2
      | none => envResolve rest n

/-! ## Lowering engine (`Compiler.py`) -/

/-- Compiler/builder state: the instructions emitted into the current
block, a counter supplying fresh instruction result ids (llvmlite names
instruction results automatically; distinct ids model that), and the
current environment as a list of frames, innermost first. -/
structure CompState where
  instrs : List Instr
  counter : Nat
  envs : List Frame
deriving Repr

/-- Uncaught Python exceptions of the lowering engine, plus the model's
fuel marker. -/
inductive CompErr where
  /-- `TypeError` raised by `visit_var_statement` for an unsupported
  declared type with no initialiser. -/
  | typeError
  /-- `NameError` raised by `visit_assign_statement` for an undefined name. -/
  | nameError
  /-- `NotImplementedError` raised by `visit_assign_statement` for an
  unsupported assignment operator. -/
  | notImplemented
  /-- Any other uncaught Python/llvmlite exception (unpacking `None`,
  attribute access on `None`, indexing an empty list, ...). -/
  | pyCrash
  /-- `visit_import_statement` performs file I/O, outside this embedding;
  its front-end pipeline is modelled separately (`importFrontend`). -/
  | ioImport
  /-- Lowering of `if`/`while`/`def`/`return`/`break`/`continue` builds
  basic blocks, not needed by any claim about this part; see
  `importFrontend`/`mainFrontend` for the front end. -/
  | notEmbedded
  /-- Model artifact: recursion fuel exhausted. -/
  | outOfFuel
deriving Repr, DecidableEq

/-- State-and-exception monad for the lowering engine. -/
def CompM (α : Type) : Type := CompState → Except CompErr (α × CompState)

instance : Monad CompM where
  pure := fun a s => .ok (a, s)
  bind := fun m f s =>
    match m s with
    | .ok (a, s2) => f a s2
    | .error e => .error e

def cthrow {α : Type} (e : CompErr) : CompM α := fun _ => .error e

def cget : CompM CompState := fun s => .ok (s, s)

def cmodify (f : CompState → CompState) : CompM Unit := fun s => .ok ((), f s)

/-- Append an instruction to the current block. -/
def emit (i : Instr) : CompM Unit :=
  cmodify fun s => { s with instrs := s.instrs ++ [i] }

/-- A fresh instruction result id. -/
def fresh : CompM Nat := fun s =>
  .ok (s.counter, { s with counter := s.counter + 1 })

/-- `Environment.define`: write into the current (innermost) frame. -/
def envDefine (n : List Char) (v : IRValue) (t : IRType) : CompM Unit :=
  cmodify fun s =>
    match s.envs with
    | [] => s
    | f :: rest => { s with envs := ((n, (v, t)) :: f) :: rest }

/-- `self.env.lookup(name)` (delegates to `resolve`). -/
def envLookup (n : List Char) : CompM (Option (IRValue × IRType)) := fun s =>
  .ok (envResolve s.envs n, s)

/-- Unpack `value, typ = self.env.lookup(name)`: unpacking `None` raises. -/
def envLookupBang (n : List Char) : CompM (IRValue × IRType) := do
  match ← envLookup n with
  | some r => pure r
  | none => cthrow .pyCrash

/-- `self.builder.alloca(t)`: result is a pointer to `t`. -/
def buildAlloca (t : IRType) : CompM IRValue := do
  let r ← fresh
  emit (.alloca r t)
  pure (.reg r (.ptrTo t))

/-- `self.builder.store(v, ptr)`. -/
def buildStore (v ptr : IRValue) : CompM Unit := emit (.store v ptr)

/-- `self.builder.load(ptr)`: the result type is the pointee type. -/
def buildLoad (ptr : IRValue) : CompM IRValue := do
  match ptr.ty with
  | .ptrTo t => do
      let r ← fresh
      emit (.load r ptr)
      pure (.loadReg r t ptr)
  | _ => cthrow .pyCrash

/-- `self.builder.sitofp(v, f64)`. -/
def buildSitofp (v : IRValue) : CompM IRValue := do
  let r ← fresh
  emit (.sitofp r v)
  pure (.reg r .double)

/-- `add`/`sub`/`mul`/`sdiv`/`srem`/`fadd`/...: the result type is the
first operand's type (as in llvmlite). -/
def buildArith (opName : String) (a b : IRValue) : CompM IRValue := do
  let r ← fresh
  emit (.arith r opName a b)
  pure (.reg r a.ty)

/-- `icmp_signed(op, a, b)`: result type `i1`. -/
def buildICmp (op : List Char) (a b : IRValue) : CompM IRValue := do
  let r ← fresh
  emit (.icmpSigned r op a b)
  pure (.reg r (.i 1))

/-- `fcmp_ordered(op, a, b)`: result type `i1`. -/
def buildFCmp (op : List Char) (a b : IRValue) : CompM IRValue := do
  let r ← fresh
  emit (.fcmpOrdered r op a b)
  pure (.reg r (.i 1))

/-- The return type of calling a value (llvmlite derives it from the
function type). -/
def callRetTy : IRValue → IRType
  | .globalFn _ rt => rt
  | _ => .voidT

/-- `self.builder.call(fn, args)`. -/
def buildCall (fn : IRValue) (args : List IRValue) : CompM IRValue := do
  let r ← fresh
  emit (.callI r fn args)
  pure (.reg r (callRetTy fn))

/-- `self.builder.bitcast(v, t)`. -/
def buildBitcast (v : IRValue) (t : IRType) : CompM IRValue := do
  let r ← fresh
  emit (.bitcast r v t)
  pure (.reg r t)

/-- `self.type_map` (`Compiler.py` lines 20-26). -/
def typeMap (n : List Char) : Option IRType :=
  if n = "int".toList then some (.i 64)
  else if n = "float".toList then some .double
  else if n = "bool".toList then some (.i 1)
  else if n = "str".toList then some (.ptrTo (.i 8))
  else if n = "void".toList then some .voidT
  else none

/-- `self.type_map[k]`: `KeyError` on a missing key is an uncaught crash. -/
def typeMapBang (n : Option (List Char)) : CompM IRType := do
  match n with
  | some k =>
      match typeMap k with
      | some t => pure t
      | none => cthrow .pyCrash
  | none => cthrow .pyCrash

/-- The global frame built by `initialize_builtins` (lines 47-127):
`print`/`_alloc`/`_memcpy`/`_strcat`/`pow`/`len` bound to the module's
external functions (with the recorded types the source passes to
`define`), and the `true`/`false` global `i1` constants (a global's
llvmlite type is a pointer to its content type). -/
def builtinFrame : Frame :=
  [ ("false".toList, (.globalVar "false".toList (.ptrTo (.i 1)), .ptrTo (.i 1))),
    ("true".toList, (.globalVar "true".toList (.ptrTo (.i 1)), .ptrTo (.i 1))),
    ("len".toList, (.globalFn "strlen".toList (.i 64), .i 64)),
    ("pow".toList, (.globalFn "pow".toList .double, .double)),
    ("_strcat".toList, (.globalFn "_strcat".toList (.ptrTo (.i 8)), .ptrTo (.i 8))),
    ("_memcpy".toList, (.globalFn "memcpy".toList (.ptrTo (.i 8)), .ptrTo (.i 8))),
    ("_alloc".toList, (.globalFn "alloc".toList (.ptrTo (.i 8)), .ptrTo (.i 8))),
    ("print".toList, (.globalFn "printf".toList (.i 64), .i 64)) ]

/-- The compiler state right after `Compiler.__init__`. -/
def initCompState : CompState :=
  { instrs := [], counter := 0, envs := [builtinFrame] }

/-- `builtin_pow` (lines 692-701): promote int operands to `f64`, call
`pow`. -/
def builtinPow (leftValue rightValue : IRValue) : CompM IRValue := do
  let (fn, _) ← envLookupBang "pow".toList
  let lv ← match leftValue.ty with
    | .i _ => buildSitofp leftValue
    | _ => pure leftValue
  let rv ← match rightValue.ty with
    | .i _ => buildSitofp rightValue
    | _ => pure rightValue
  buildCall fn [lv, rv]

/-- `builtin_len` (lines 703-706). -/
def builtinLen (stringArg : IRValue) : CompM IRValue := do
  let (fn, _) ← envLookupBang "len".toList
  buildCall fn [stringArg]

/-- `handle_int_operations` (lines 531-549): the `**` case calls
`builtin_pow` and returns its (f64) result directly — the commented-out
`fptosi` truncation is not performed.  An unknown operator falls off the
`match` and yields Python `None`. -/
def handleIntOperations (op : List Char) (a b : IRValue) :
    CompM (Option IRValue) := do
  if op = "+".toList then some <$> buildArith "add" a b
  else if op = "-".toList then some <$> buildArith "sub" a b
  else if op = "*".toList then some <$> buildArith "mul" a b
  else if op = "/".toList then some <$> buildArith "sdiv" a b
  else if op = "%".toList then some <$> buildArith "srem" a b
  else if op = "**".toList then some <$> builtinPow a b
  else if op = "<".toList ∨ op = "<=".toList ∨ op = ">".toList ∨
      op = ">=".toList ∨ op = "==".toList ∨ op = "!=".toList then
    some <$> buildICmp op a b
  else pure none

/-- `handle_float_operations` (lines 551-567). -/
def handleFloatOperations (op : List Char) (a b : IRValue) :
    CompM (Option IRValue) := do
  if op = "+".toList then some <$> buildArith "fadd" a b
  else if op = "-".toList then some <$> buildArith "fsub" a b
  else if op = "*".toList then some <$> buildArith "fmul" a b
  else if op = "/".toList then some <$> buildArith "fdiv" a b
  else if op = "%".toList then some <$> buildArith "frem" a b
  else if op = "**".toList then some <$> builtinPow a b
  else if op = "<".toList ∨ op = "<=".toList ∨ op = ">".toList ∨
      op = ">=".toList ∨ op = "==".toList ∨ op = "!=".toList then
    some <$> buildFCmp op a b
  else pure none

/-- `handle_string_concatenation` (lines 569-581). -/
def handleStringConcatenation (leftValue rightValue : IRValue) :
    CompM (IRValue × IRType) := do
  let (fn, retTy) ← envLookupBang "_strcat".toList
  let p1 ← buildBitcast leftValue (.ptrTo (.i 8))
  let p2 ← buildBitcast rightValue (.ptrTo (.i 8))
  let result ← buildCall fn [p1, p2]
  pure (result, retTy)

/-- `convert_string` (lines 620-667): decode the literal, stage the bytes
in a stack slot, heap-allocate via `alloc` and `memcpy` the bytes over.
Bytes are the character codes (the sources are ASCII). -/
def convertString (s : List Char) : CompM (IRValue × IRType) := do
  let fmt := convertedLiteral s
  let bytes := fmt.map Char.toNat
  let strLen := bytes.length
  let (allocFn, _) ← envLookupBang "_alloc".toList
  let size : IRValue := .constI 64 strLen
  let ptr ← buildCall allocFn [size]
  let cFmt : IRValue := .constArr strLen bytes
  let temp ← buildAlloca (.arr strLen (.i 8))
  buildStore cFmt temp
  let tempCast ← buildBitcast temp (.ptrTo (.i 8))
  let ptrCast ← buildBitcast ptr (.ptrTo (.i 8))
  let (memcpyFn, _) ← envLookupBang "_memcpy".toList
  let _ ← buildCall memcpyFn [ptrCast, tempCast, size]
  pure (ptr, .ptrTo (.i 8))

/-- Is this llvmlite value a `LoadInstr`? (`builtin_print`'s dispatch). -/
def isLoadInstr : IRValue → Bool
  | .loadReg _ _ _ => true
  | _ => false

/-- The source operand of a load (`c_fmt.operands[0]`). -/
def loadSrc : IRValue → CompM IRValue
  | .loadReg _ _ src => pure src
  | _ => cthrow .pyCrash

/-- `builtin_print` (lines 669-690). -/
def builtinPrint (params : List IRValue) (returnType : IRType) :
    CompM IRValue := do
  let (fn, _) ← envLookupBang "print".toList
  match params with
  | [] => cthrow .pyCrash
  | p0 :: restParams => do
      let cStr ← buildAlloca returnType
      buildStore p0 cStr
      if isLoadInstr p0 then do
        let gvp ← loadSrc p0
        let sv ← buildLoad gvp
        let fmtArg ← buildBitcast sv (.ptrTo (.i 8))
        buildCall fn (fmtArg :: restParams)
      else do
        let fmtArg ← buildBitcast p0 (.ptrTo (.i 8))
        buildCall fn (fmtArg :: restParams)

mutual

/-- `resolve_value` (lines 583-618).  The `value_type` parameter defaults
to `None` and no call site in the source passes it; it is omitted. -/
def resolveValue (fuel : Nat) (e : Expr) :
    CompM (Option IRValue × Option IRType) :=
  match fuel with
  | 0 => cthrow .outOfFuel
  | f + 1 =>
    match e with
    | .integerLiteral n => pure (some (.constI 64 n), some (.i 64))
    | .floatLiteral q => pure (some (.constF q), some .double)
    | .identifierLiteral n => do
        let (ptr, typ) ← envLookupBang n
        let v ← buildLoad ptr
        pure (some v, some typ)
    | .booleanLiteral b =>
        pure (some (.constI 1 (if b then 1 else 0)), some (.i 1))
    | .stringLiteral s => do
        let (v, t) ← convertString s
        pure (some v, some t)
    | .infixExpression l op r => visitInfixExpression f l op r
    | .callExpression fn args => visitCallExpression f fn args
    | .prefixExpression op r => visitPrefixExpression f op r

/-- `node.type()` dispatch on a child that may be `None`: Python would
crash calling a method on `None`. -/
def resolveValueOpt (fuel : Nat) (e? : Option Expr) :
    CompM (Option IRValue × Option IRType) :=
  match fuel with
  | 0 => cthrow .outOfFuel
  | f + 1 =>
    match e? with
    | some e => resolveValue f e
    | none => cthrow .pyCrash

/-- `visit_infix_expression` (lines 485-529): type-driven dispatch with
int-to-float promotion; comparisons flip the result type to `bool`; a
string `+` calls `_strcat`; anything else falls through and returns
`(None, None)`. -/
def visitInfixExpression (fuel : Nat) (leftNode : Option Expr)
    (op : List Char) (rightNode : Option Expr) :
    CompM (Option IRValue × Option IRType) :=
  match fuel with
  | 0 => cthrow .outOfFuel
  | f + 1 => do
    let (lv?, lt?) ← resolveValueOpt f leftNode
    let (rv?, rt?) ← resolveValueOpt f rightNode
    let isCmp := op = "<".toList ∨ op = ">".toList ∨ op = "<=".toList ∨
      op = ">=".toList ∨ op = "==".toList ∨ op = "!=".toList
    match lt?, rt? with
    | some (.i _), some (.i _) => do
        match lv?, rv? with
        | some lv, some rv => do
            let value ← handleIntOperations op lv rv
            pure (value, some (if isCmp then .i 1 else .i 64))
        | _, _ => cthrow .pyCrash
    | some .double, some .double => do
        match lv?, rv? with
        | some lv, some rv => do
            let value ← handleFloatOperations op lv rv
            pure (value, some (if isCmp then .i 1 else .double))
        | _, _ => cthrow .pyCrash
    | some (.i _), some .double => do
        match lv?, rv? with
        | some lv, some rv => do
            let lv2 ← buildSitofp lv
            let value ← handleFloatOperations op lv2 rv
            pure (value, some (if isCmp then .i 1 else .double))
        | _, _ => cthrow .pyCrash
    | some .double, some (.i _) => do
        match lv?, rv? with
        | some lv, some rv => do
            let rv2 ← buildSitofp rv
            let value ← handleFloatOperations op lv rv2
            pure (value, some (if isCmp then .i 1 else .double))
        | _, _ => cthrow .pyCrash
    | some (.ptrTo _), some (.ptrTo _) =>
        if op = "+".toList then do
          match lv?, rv? with
          | some lv, some rv => do
              let (v, t) ← handleStringConcatenation lv rv
              pure (some v, some t)
          | _, _ => cthrow .pyCrash
        else pure (none, none)
    | _, _ => pure (none, none)

/-- `visit_prefix_expression` (lines 458-483): unary `-` multiplies by
`-1`; `not` compares with zero; other operand types leave `(None, None)`. -/
def visitPrefixExpression (fuel : Nat) (op : List Char)
    (rightNode : Option Expr) : CompM (Option IRValue × Option IRType) :=
  match fuel with
  | 0 => cthrow .outOfFuel
  | f + 1 => do
    let (rv?, rt?) ← resolveValueOpt f rightNode
    match rt? with
    | some .double => do
        match rv? with
        | some rv =>
            if op = "-".toList then do
              let v ← buildArith "fmul" rv (.constF (-1))
              pure (some v, some .double)
            else if op = "not".toList then do
              let v ← buildFCmp "==".toList rv (.constF 0)
              pure (some v, some .double)
            else pure (none, some .double)
        | none => cthrow .pyCrash
    | some (.i _) => do
        match rv? with
        | some rv =>
            if op = "-".toList then do
              let v ← buildArith "mul" rv (.constI 64 (-1))
              pure (some v, some (.i 64))
            else if op = "not".toList then do
              let v ← buildICmp "==".toList rv (.constI 64 0)
              pure (some v, some (.i 64))
            else pure (none, some (.i 64))
        | none => cthrow .pyCrash
    | _ => pure (none, none)

/-- Evaluate the call arguments in order (`visit_call_expression`,
lines 433-439). -/
def resolveArgs (fuel : Nat) (args : List (Option Expr)) :
    CompM (List (Option IRValue) × List (Option IRType)) :=
  match fuel with
  | 0 => cthrow .outOfFuel
  | f + 1 =>
    match args with
    | [] => pure ([], [])
    | a :: rest => do
        let (v, t) ← resolveValueOpt f a
        let (vs, ts) ← resolveArgs f rest
        pure (v :: vs, t :: ts)

/-- `visit_call_expression` (lines 427-456): `print`, `pow` and `len` are
intercepted; other names resolve through the environment. -/
def visitCallExpression (fuel : Nat) (function : Option Expr)
    (args : List (Option Expr)) : CompM (Option IRValue × Option IRType) :=
  match fuel with
  | 0 => cthrow .outOfFuel
  | f + 1 => do
    let name ← match function with
      | some (.identifierLiteral n) => pure n
      | _ => cthrow .pyCrash
    let (argVs?, argTs?) ← resolveArgs f args
    let someVs : Option (List IRValue) :=
      argVs?.foldr (fun v? acc => do
        let v ← v?
        let l ← acc
        pure (v :: l)) (some [])
    if name = "print".toList then do
      match argTs?.head? with
      | some (some t0) => do
          match someVs with
          | some vs => do
              let r ← builtinPrint vs t0
              pure (some r, some (.i 64))
          | none => cthrow .pyCrash
      | _ => cthrow .pyCrash
    else if name = "pow".toList then do
      match argVs?.get? 0, argVs?.get? 1 with
      | some (some a), some (some b) => do
          let r ← builtinPow a b
          pure (some r, some .double)
      | _, _ => cthrow .pyCrash
    else if name = "len".toList then do
      match argVs?.get? 0 with
      | some (some a) => do
          let r ← builtinLen a
          pure (some r, some (.i 64))
      | _ => cthrow .pyCrash
    else do
      let (fn, retTy) ← envLookupBang name
      match someVs with
      | some vs => do
          let r ← buildCall fn vs
          pure (some r, some retTy)
      | none => cthrow .pyCrash

end

/-- `visit_var_statement` (lines 276-304): substitute a per-type default
when there is no initialiser (raising `TypeError` for `void` or a missing
type), resolve the value, then either allocate-store-define a new slot or
store into the slot the name already resolves to — `env.lookup` walks the
whole parent chain, so a name bound in an enclosing frame is updated in
place. -/
def visitVarStatement (fuel : Nat) (name : Option Expr)
    (value : Option Expr) (valueType : Option (List Char)) : CompM Unit := do
  let nm ← match name with
    | some (.identifierLiteral n) => pure n
    | _ => cthrow .pyCrash
  let value2 : Expr ← match value with
    | none =>
        match valueType with
        | some vt =>
            if vt = "int".toList then pure (Expr.integerLiteral 0)
            else if vt = "float".toList then pure (Expr.floatLiteral 0)
            else if vt = "bool".toList then pure (Expr.booleanLiteral false)
            else if vt = "str".toList then pure (Expr.stringLiteral [])
            else cthrow .typeError
        | none => cthrow .typeError
    | some v => pure v
  let (v?, t?) ← resolveValue fuel value2
  match ← envLookup nm with
  | none => do
      match v?, t? with
      | some v, some t => do
          let ptr ← buildAlloca t
          buildStore v ptr
          envDefine nm ptr t
      | _, _ => cthrow .pyCrash
  | some _ => do
      let (ptr, _) ← envLookupBang nm
      match v? with
      | some v => buildStore v ptr
      | none => cthrow .pyCrash

/-- `visit_assign_statement` (lines 362-425): resolve the right side, load
the current slot value, convert int-to-float on either side of a mixed
int/float pair, dispatch on the operator, and store the result back into
the slot the name resolves to. -/
def visitAssignStatement (fuel : Nat) (ident : Option Expr)
    (op : List Char) (rightValue : Option Expr) : CompM Unit := do
  let nm ← match ident with
    | some (.identifierLiteral n) => pure n
    | _ => cthrow .pyCrash
  match ← envLookup nm with
  | none => cthrow .nameError
  | some _ => do
      let (rv?, rt?) ← resolveValueOpt fuel rightValue
      let (varPtr, _) ← envLookupBang nm
      let origValue0 ← buildLoad varPtr
      let rv ← match rv? with
        | some v => pure v
        | none => cthrow .pyCrash
      let origValue ← match origValue0.ty, rt? with
        | .i _, some .double => buildSitofp origValue0
        | _, _ => pure origValue0
      let rightV ← match origValue.ty, rt? with
        | .double, some (.i _) => buildSitofp rv
        | _, _ => pure rv
      let isIntInt : Bool :=
        match origValue.ty, rt? with
        | .i _, some (.i _) => true
        | _, _ => false
      let isPtrPtr : Bool :=
        match origValue.ty, rt? with
        | .ptrTo _, some (.ptrTo _) => true
        | _, _ => false
      let value ← (do
        if op = "=".toList then pure rightV
        else if op = "+=".toList then
          if isIntInt then buildArith "add" origValue rightV
          else if isPtrPtr then do
            let (v, _) ← handleStringConcatenation origValue rightV
            pure v
          else buildArith "fadd" origValue rightV
        else if op = "-=".toList then
          if isIntInt then buildArith "sub" origValue rightV
          else buildArith "fsub" origValue rightV
        else if op = "*=".toList then
          if isIntInt then buildArith "mul" origValue rightV
          else buildArith "fmul" origValue rightV
        else if op = "/=".toList then
          if isIntInt then buildArith "sdiv" origValue rightV
          else buildArith "fdiv" origValue rightV
        else if op = "%=".toList then
          if isIntInt then buildArith "srem" origValue rightV
          else buildArith "frem" origValue rightV
        else if op = "**=".toList then builtinPow origValue rightV
        else cthrow .notImplemented)
      let (ptr, _) ← envLookupBang nm
      buildStore value ptr

/-! ## Parser (`Parser.py`).

The parser is a stateful object (token list, cursor, exception log, shared
error handler).  `report_error` records a diagnostic, synchronizes, then
raises; `parse_program` and the block-body loops catch these exceptions.
`report_error` called with `None` for the offending token (possible when
both the current and the peeked token are exhausted) dies with
`AttributeError` before recording anything; both exception kinds are
caught by the same `except Exception` handlers. -/

/-- Parser state.  `pos` starts at `-1` in Python and is advanced once in
`__init__`; the state here is post-`__init__` (`pos = 0`).  `exceptions`
counts the entries of `self.exceptions` (their message strings are not
modelled); `droppedNones` counts statements that came back `None` and were
skipped by `parse_program`'s `if stmt is not None` guard (observational
instrumentation only — it changes no behaviour). -/
structure PState where
  tokens : List Tok
  pos : Nat
  exceptions : Nat
  droppedNones : Nat
  errors : List ErrRec
deriving Repr

/-- Exceptions of the parser embedding. -/
inductive PErr where
  /-- The `Exception` raised at the end of `report_error`. -/
  | raised
  /-- `AttributeError` from using a `None` token (`None.pos_start`,
  `None.type`, `None.literal`). -/
  | crash
  /-- Model artifact: recursion fuel exhausted.  Not a Python exception;
  the catch handlers do not swallow it. -/
  | noFuel
deriving Repr, DecidableEq

/-- State-threading exception monad for the parser: the state (including
recorded diagnostics) survives a raise. -/
def PM (α : Type) : Type := PState → Except PErr α × PState

instance : Monad PM where
  pure := fun a s => (.ok a, s)
  bind := fun m f s =>
    match m s with
    | (.ok a, s2) => f a s2
    | (.error e, s2) => (.error e, s2)

def pthrow {α : Type} (e : PErr) : PM α := fun s => (.error e, s)

/-- `except Exception: ...`: catches `raised` and `crash`, not the model's
fuel marker. -/
def pcatch {α : Type} (m : PM α) (h : PM α) : PM α := fun s =>
  match m s with
  | (.error .raised, s2) => h s2
  | (.error .crash, s2) => h s2
  | r => r

def pget : PM PState := fun s => (.ok s, s)

def pmodify (f : PState → PState) : PM Unit := fun s => (.ok (), f s)

/-- `self.advance()` (lines 97-100). -/
def padvance : PM Unit := pmodify fun s => { s with pos := s.pos + 1 }

/-- `self.current_token`. -/
def currentToken : PM (Option Tok) := fun s => (.ok (s.tokens.get? s.pos), s)

/-- `self.peek_token()` (lines 114-121). -/
def peekToken : PM (Option Tok) := fun s => (.ok (s.tokens.get? (s.pos + 1)), s)

/-- An attribute access on `self.current_token` (`.type`, `.literal`):
crashes when it is `None`. -/
def currentBang : PM Tok := do
  match ← currentToken with
  | some t => pure t
  | none => pthrow .crash

/-- `PRECEDENCES` (lines 31-45) with `PrecedenceType` numeric values
(LOWEST 0, EQUALS 1, LESSGREATER 2, SUM 3, PRODUCT 4, EXPONENT 5,
PREFIX 6, CALL 7); `dict.get` default is LOWEST. -/
def precOf (t : TokenType) : Nat :=
  match t with
  | .PLUS | .MINUS => 3
  | .ASTERISK | .SLASH | .MODULUS => 4
  | .POW => 5
  | .EQ_EQ | .NOT_EQ => 1
  | .LT | .GT | .LT_EQ | .GT_EQ => 2
  | .LPAREN => 7
  | _ => 0

/-- Registered prefix parse functions (lines 66-76). -/
def hasPrefixFn (t : TokenType) : Bool :=
  match t with
  | .IDENT | .INT | .FLOAT | .STRING | .LPAREN | .TRUE | .FALSE
  | .MINUS | .NOT => true
  | _ => false

/-- Registered infix parse functions (lines 79-93). -/
def hasInfixFn (t : TokenType) : Bool :=
  match t with
  | .PLUS | .MINUS | .ASTERISK | .SLASH | .MODULUS | .POW
  | .EQ_EQ | .NOT_EQ | .LT | .GT | .LT_EQ | .GT_EQ | .LPAREN => true
  | _ => false

/-- `peek_token_is_assignment` (lines 142-158). -/
def isAssignOp (t : TokenType) : Bool :=
  match t with
  | .EQ | .PLUS_EQ | .MINUS_EQ | .MUL_EQ | .DIV_EQ | .POW_EQ | .MOD_EQ => true
  | _ => false

def peekTokenIsAssignment : PM Bool := do
  match ← peekToken with
  | some t => pure (isAssignOp t.type)
  | none => pure false

/-- The string payload of a literal (a non-string payload yields `[]`; the
lexer only puts strings where the parser reads them as strings, and
Python would carry the foreign object through without changing control
flow). -/
def litStr : Lit → List Char
  | .strL s => s
  | _ => []

/-- The integer payload of a literal (`0` for a foreign payload; see
`litStr`). -/
def litInt : Lit → Int
  | .intL n => n
  | _ => 0

/-- The float payload of a literal (see `litStr`). -/
def litFloat : Lit → ℚ
  | .floatL q => q
  | _ => 0

/-- `synchronize` (lines 102-112): skip tokens until one of `syncTypes`
or EOF or the end of input. -/
def psynchronize : Nat → List TokenType → PM Unit
  | 0, _ => pthrow .noFuel
  | f + 1, syncTypes => do
    match ← currentToken with
    | some t =>
        if t.type ∉ syncTypes ∧ t.type ≠ .EOF then do
          padvance
          psynchronize f syncTypes
        else pure ()
    | none => pure ()

/-- `report_error` (lines 195-223): record the diagnostic (kind
"Syntax Error"), synchronize to the next `;`, advance past it, raise.
With a `None` token it crashes on `token.pos_start` before recording. -/
def reportError {α : Type} (fuel : Nat) (tok? : Option Tok) : PM α :=
  match tok? with
  | none => pthrow .crash
  | some t => do
      pmodify fun s =>
        { s with errors := s.errors ++ [⟨t.posStart, t.posEnd, "Syntax Error"⟩] }
      psynchronize fuel [.SEMICOLON]
      padvance
      pthrow .raised

/-- `expect_token` (lines 160-193). -/
def expectToken (fuel : Nat) (tt : TokenType)
    (doAdvance lookCurrent errAtCurrent : Bool) : PM Bool := do
  let errAtCurrent := lookCurrent || errAtCurrent
  let tok? ← if lookCurrent then currentToken else peekToken
  match tok? with
  | some t =>
      if t.type = tt then do
        if doAdvance then padvance else pure ()
        pure true
      else do
        let tok2? ← if errAtCurrent then currentToken else peekToken
        reportError fuel tok2?
  | none => do
      let tok2? ← if errAtCurrent then currentToken else peekToken
      reportError fuel tok2?

/-- `expect_semicolon` (lines 225-236). -/
def expectSemicolon (fuel : Nat) : PM Bool :=
  expectToken fuel .SEMICOLON true false true

mutual

/-- `parse_expression` (lines 631-661): Pratt loop. -/
def parseExpression : Nat → Nat → PM (Option Expr)
  | 0, _ => pthrow .noFuel
  | f + 1, prec => do
    let t ← currentBang
    if hasPrefixFn t.type then do
      let left ←
        match t.type with
        | .IDENT => pure (some (Expr.identifierLiteral (litStr t.lit)))
        | .INT => pure (some (Expr.integerLiteral (litInt t.lit)))
        | .FLOAT => pure (some (Expr.floatLiteral (litFloat t.lit)))
        | .STRING => pure (some (Expr.stringLiteral (litStr t.lit)))
        | .TRUE | .FALSE =>
            pure (some (Expr.booleanLiteral
              (if litStr t.lit = "true".toList then true else false)))
        | .LPAREN => parseGroupedExpression f
        | _ => parsePrefixExpression f
      infixLoop f prec left
    else
      reportError f (some t)

/-- The `while` loop of `parse_expression` (lines 650-659). -/
def infixLoop : Nat → Nat → Option Expr → PM (Option Expr)
  | 0, _, _ => pthrow .noFuel
  | f + 1, prec, left => do
    match ← peekToken with
    | none => pure left
    | some pt =>
        if pt.type ≠ TokenType.SEMICOLON ∧ prec < precOf pt.type then
          if hasInfixFn pt.type then do
            padvance
            let left2 ←
              if pt.type = .LPAREN then parseCallExpression f left
              else parseInfixExpression f left
            infixLoop f prec left2
          else pure left
        else pure left

/-- `parse_infix_expression` (lines 663-684): right associativity for
`**` is implemented by parsing the right operand at `precedence - 1`. -/
def parseInfixExpression : Nat → Option Expr → PM (Option Expr)
  | 0, _ => pthrow .noFuel
  | f + 1, left => do
    let t ← currentBang
    let op := litStr t.lit
    let prec0 := precOf t.type
    let prec := if t.type = .POW then prec0 - 1 else prec0
    padvance
    let right ← parseExpression f prec
    pure (some (Expr.infixExpression left op right))

/-- `parse_prefix_expression` (lines 750-762). -/
def parsePrefixExpression : Nat → PM (Option Expr)
  | 0 => pthrow .noFuel
  | f + 1 => do
    let t ← currentBang
    let op := litStr t.lit
    padvance
    let right ← parseExpression f 6
    pure (some (Expr.prefixExpression op right))

/-- `parse_grouped_expression` (lines 686-699). -/
def parseGroupedExpression : Nat → PM (Option Expr)
  | 0 => pthrow .noFuel
  | f + 1 => do
    padvance
    let e ← parseExpression f 0
    let b ← expectToken f .RPAREN true false true
    if b then pure e else pure none

/-- `parse_call_expression` (lines 701-714). -/
def parseCallExpression : Nat → Option Expr → PM (Option Expr)
  | 0, _ => pthrow .noFuel
  | f + 1, function => do
    let args ← parseExpressionList f .RPAREN
    pure (some (Expr.callExpression function args))

/-- `parse_expression_list` (lines 716-748). -/
def parseExpressionList : Nat → TokenType → PM (List (Option Expr))
  | 0, _ => pthrow .noFuel
  | f + 1, endT => do
    match ← peekToken with
    | some pt =>
        if pt.type = endT then do
          padvance
          pure []
        else do
          padvance
          let a ← parseExpression f 0
          let args ← exprListLoop f [a]
          let b ← expectToken f endT true false true
          if b then pure args else pure []
    | none => do
        padvance
        let a ← parseExpression f 0
        let args ← exprListLoop f [a]
        let b ← expectToken f endT true false true
        if b then pure args else pure []

/-- The comma loop of `parse_expression_list` (lines 739-742). -/
def exprListLoop : Nat → List (Option Expr) → PM (List (Option Expr))
  | 0, _ => pthrow .noFuel
  | f + 1, acc => do
    match ← peekToken with
    | some pt =>
        if pt.type = .COMMA then do
          padvance
          padvance
          let a ← parseExpression f 0
          exprListLoop f (acc ++ [a])
        else pure acc
    | none => pure acc

/-- `parse_statement` (lines 265-294). -/
def parseStatement : Nat → PM (Option Stmt)
  | 0 => pthrow .noFuel
  | f + 1 => do
    let t ← currentBang
    let isAssign ← peekTokenIsAssignment
    if t.type = .IDENT ∧ isAssign then parseAssignmentStatement f
    else if t.type = .VAR then parseVarStatement f
    else if t.type = .DEF then parseFunctionStatement f
    else if t.type = .RETURN then parseReturnStatement f
    else if t.type = .IF then parseIfStatement f
    else if t.type = .WHILE then parseWhileStatement f
    else if t.type = .BREAK then parseBreakStatement f
    else if t.type = .CONTINUE then parseContinueStatement f
    else if t.type = .IMPORT then parseImportStatement f
    else parseExpressionStatement f

/-- `parse_assignment_statement` (lines 296-317). -/
def parseAssignmentStatement : Nat → PM (Option Stmt)
  | 0 => pthrow .noFuel
  | f + 1 => do
    let t ← currentBang
    let ident := some (Expr.identifierLiteral (litStr t.lit))
    padvance
    let opTok ← currentBang
    let op := litStr opTok.lit
    padvance
    let right ← parseExpression f 0
    let b ← expectSemicolon f
    if b then pure (some (Stmt.assignStatement ident op right)) else pure none

/-- `parse_var_statement` (lines 319-359). -/
def parseVarStatement : Nat → PM (Option Stmt)
  | 0 => pthrow .noFuel
  | f + 1 => do
    let b1 ← expectToken f .IDENT true false false
    if ¬ b1 then pure none else do
    let nameTok ← currentBang
    let name := some (Expr.identifierLiteral (litStr nameTok.lit))
    let b2 ← expectToken f .COLON true false false
    if ¬ b2 then pure none else do
    let b3 ← expectToken f .TYPE true false false
    if ¬ b3 then pure none else do
    let tyTok ← currentBang
    let valueType := some (litStr tyTok.lit)
    match ← peekToken with
    | some pt =>
        if pt.type = .SEMICOLON then do
          padvance
          pure (some (Stmt.varStatement name none valueType))
        else do
          let b4 ← expectToken f .EQ true false false
          if ¬ b4 then pure none else do
          padvance
          let v ← parseExpression f 0
          let b5 ← expectSemicolon f
          if b5 then pure (some (Stmt.varStatement name v valueType))
          else pure none
    | none => do
        let b4 ← expectToken f .EQ true false false
        if ¬ b4 then pure none else do
        padvance
        let v ← parseExpression f 0
        let b5 ← expectSemicolon f
        if b5 then pure (some (Stmt.varStatement name v valueType))
        else pure none

/-- The body loop of `parse_if_statement` (lines 380-387): statements are
appended unguarded (a `None` would be appended too). -/
def ifBodyLoop : Nat → List (Option Stmt) → PM (List (Option Stmt))
  | 0, _ => pthrow .noFuel
  | f + 1, acc => do
    match ← currentToken with
    | some t =>
        if t.type ≠ .ELIF ∧ t.type ≠ .ELSE ∧ t.type ≠ .END then do
          let acc2 ← pcatch
            (do
              let st ← parseStatement f
              padvance
              pure (acc ++ [st]))
            (do
              pmodify fun s => { s with exceptions := s.exceptions + 1 }
              pure acc)
          ifBodyLoop f acc2
        else pure acc
    | none => pure acc

/-- The else-body loop of `parse_if_statement` (lines 398-403). -/
def elseBodyLoop : Nat → List (Option Stmt) → PM (List (Option Stmt))
  | 0, _ => pthrow .noFuel
  | f + 1, acc => do
    match ← currentToken with
    | some t =>
        if t.type ≠ .END then do
          let acc2 ← pcatch
            (do
              let st ← parseStatement f
              padvance
              pure (acc ++ [st]))
            (do
              pmodify fun s => { s with exceptions := s.exceptions + 1 }
              pure acc)
          elseBodyLoop f acc2
        else pure acc
    | none => pure acc

/-- `parse_if_statement` (lines 361-409): elif chains recurse into the
else-body; the inner and outer `if` share one closing `end` (the inner
check does not advance). -/
def parseIfStatement : Nat → PM (Option Stmt)
  | 0 => pthrow .noFuel
  | f + 1 => do
    padvance
    let cond ← parseExpression f 0
    let b1 ← expectToken f .COLON true false false
    if ¬ b1 then pure none else do
    padvance
    let body ← ifBodyLoop f []
    let elseBody ← (do
      match ← currentToken with
      | some t =>
          if t.type = .ELIF then do
            let inner ← parseIfStatement f
            pure [inner]
          else if t.type = .ELSE then do
            let b2 ← expectToken f .COLON true false false
            if ¬ b2 then pure ([] : List (Option Stmt)) else do
            padvance
            elseBodyLoop f []
          else pure []
      | none => pure [])
    let b3 ← expectToken f .END false true false
    if ¬ b3 then pure none
    else pure (some (Stmt.ifStatement cond body elseBody))

/-- The body loop of `parse_while_statement` (lines 431-436). -/
def whileBodyLoop : Nat → List (Option Stmt) → PM (List (Option Stmt))
  | 0, _ => pthrow .noFuel
  | f + 1, acc => do
    match ← currentToken with
    | some t =>
        if t.type ≠ .END then do
          let acc2 ← pcatch
            (do
              let st ← parseStatement f
              padvance
              pure (acc ++ [st]))
            (do
              pmodify fun s => { s with exceptions := s.exceptions + 1 }
              pure acc)
          whileBodyLoop f acc2
        else pure acc
    | none => pure acc

/-- `parse_while_statement` (lines 411-442). -/
def parseWhileStatement : Nat → PM (Option Stmt)
  | 0 => pthrow .noFuel
  | f + 1 => do
    padvance
    let cond ← parseExpression f 0
    let b1 ← expectToken f .COLON true false false
    if ¬ b1 then pure none else do
    padvance
    let body ← whileBodyLoop f []
    let b2 ← expectToken f .END false true false
    if ¬ b2 then pure none
    else pure (some (Stmt.whileStatement cond body))

/-- The body loop of `parse_function_statement` (lines 528-537): here the
append is guarded by `if stmt is not None`. -/
def funcBodyLoop : Nat → List Stmt → PM (List Stmt)
  | 0, _ => pthrow .noFuel
  | f + 1, acc => do
    match ← currentToken with
    | some t =>
        if t.type ≠ .END ∧ t.type ≠ .EOF then do
          let acc2 ← pcatch
            (do
              let st? ← parseStatement f
              let acc2 := match st? with
                | some st => acc ++ [st]
                | none => acc
              padvance
              pure acc2)
            (do
              pmodify fun s => { s with exceptions := s.exceptions + 1 }
              pure acc)
          funcBodyLoop f acc2
        else pure acc
    | none => pure acc

/-- The extra-parameter loop of `parse_function_parameters`
(lines 575-590). -/
def paramLoop : Nat → List FunctionParameter → PM (List FunctionParameter)
  | 0, _ => pthrow .noFuel
  | f + 1, acc => do
    match ← peekToken with
    | some pt =>
        if pt.type = .COMMA then do
          padvance
          let b1 ← expectToken f .IDENT true false true
          if ¬ b1 then pure ([] : List FunctionParameter) else do
          let nameTok ← currentBang
          let b2 ← expectToken f .COLON true false true
          if ¬ b2 then pure ([] : List FunctionParameter) else do
          let b3 ← expectToken f .TYPE true false true
          if ¬ b3 then pure ([] : List FunctionParameter) else do
          let tyTok ← currentBang
          paramLoop f
            (acc ++ [⟨litStr nameTok.lit, some (litStr tyTok.lit)⟩])
        else pure acc
    | none => pure acc

/-- `parse_function_parameters` (lines 545-596). -/
def parseFunctionParameters : Nat → PM (List FunctionParameter)
  | 0 => pthrow .noFuel
  | f + 1 => do
    match ← peekToken with
    | some pt =>
        if pt.type = .RPAREN then do
          padvance
          pure []
        else do
          let b1 ← expectToken f .IDENT true false true
          if ¬ b1 then pure ([] : List FunctionParameter) else do
          let nameTok ← currentBang
          let b2 ← expectToken f .COLON true false true
          if ¬ b2 then pure ([] : List FunctionParameter) else do
          let b3 ← expectToken f .TYPE true false true
          if ¬ b3 then pure ([] : List FunctionParameter) else do
          let tyTok ← currentBang
          let params ←
            paramLoop f [⟨litStr nameTok.lit, some (litStr tyTok.lit)⟩]
          if params = [] then pure params else do
          let b4 ← expectToken f .RPAREN true false true
          if ¬ b4 then pure ([] : List FunctionParameter) else pure params
    | none => do
        let b1 ← expectToken f .IDENT true false true
        if ¬ b1 then pure ([] : List FunctionParameter) else do
        let nameTok ← currentBang
        let b2 ← expectToken f .COLON true false true
        if ¬ b2 then pure ([] : List FunctionParameter) else do
        let b3 ← expectToken f .TYPE true false true
        if ¬ b3 then pure ([] : List FunctionParameter) else do
        let tyTok ← currentBang
        let params ←
          paramLoop f [⟨litStr nameTok.lit, some (litStr tyTok.lit)⟩]
        if params = [] then pure params else do
        let b4 ← expectToken f .RPAREN true false true
        if ¬ b4 then pure ([] : List FunctionParameter) else pure params

/-- `parse_function_statement` (lines 490-543). -/
def parseFunctionStatement : Nat → PM (Option Stmt)
  | 0 => pthrow .noFuel
  | f + 1 => do
    let b1 ← expectToken f .IDENT true false true
    if ¬ b1 then pure none else do
    let nameTok ← currentBang
    let name := some (Expr.identifierLiteral (litStr nameTok.lit))
    let b2 ← expectToken f .LPAREN true false true
    if ¬ b2 then pure none else do
    let params ← parseFunctionParameters f
    let b3 ← expectToken f .ARROW true false true
    if ¬ b3 then pure none else do
    let b4 ← expectToken f .TYPE true false true
    if ¬ b4 then pure none else do
    let tyTok ← currentBang
    let returnType := some (litStr tyTok.lit)
    let b5 ← expectToken f .COLON true false true
    if ¬ b5 then pure none else do
    padvance
    let body ← funcBodyLoop f []
    let b6 ← expectToken f .END false true false
    if ¬ b6 then pure none
    else pure (some (Stmt.functionStatement name params returnType body))

/-- `parse_return_statement` (lines 598-614). -/
def parseReturnStatement : Nat → PM (Option Stmt)
  | 0 => pthrow .noFuel
  | f + 1 => do
    padvance
    let v ← parseExpression f 0
    let b ← expectSemicolon f
    if b then pure (some (Stmt.returnStatement v)) else pure none

/-- `parse_expression_statement` (lines 616-629). -/
def parseExpressionStatement : Nat → PM (Option Stmt)
  | 0 => pthrow .noFuel
  | f + 1 => do
    let e ← parseExpression f 0
    let b ← expectSemicolon f
    if b then pure (some (Stmt.expressionStatement e)) else pure none

/-- `parse_break_statement` (lines 444-456). -/
def parseBreakStatement : Nat → PM (Option Stmt)
  | 0 => pthrow .noFuel
  | f + 1 => do
    let b ← expectSemicolon f
    if b then pure (some Stmt.breakStatement) else pure none

/-- `parse_continue_statement` (lines 458-470). -/
def parseContinueStatement : Nat → PM (Option Stmt)
  | 0 => pthrow .noFuel
  | f + 1 => do
    let b ← expectSemicolon f
    if b then pure (some Stmt.continueStatement) else pure none

/-- `parse_import_statement` (lines 472-487). -/
def parseImportStatement : Nat → PM (Option Stmt)
  | 0 => pthrow .noFuel
  | f + 1 => do
    let b1 ← expectToken f .STRING true false false
    if ¬ b1 then pure none else do
    let t ← currentBang
    let b2 ← expectSemicolon f
    if b2 then pure (some (Stmt.importStatement (litStr t.lit)))
    else pure none

end

/-- The top-level loop of `parse_program` (lines 247-256): parse
statements until EOF or the end of the token list, appending non-`None`
results, catching and logging exceptions. -/
def parseProgramLoop : Nat → List Stmt → PM (List Stmt)
  | 0, _ => pthrow .noFuel
  | f + 1, acc => do
    match ← currentToken with
    | none => pure acc
    | some t =>
        if t.type = .EOF then pure acc
        else do
          let acc2 ← pcatch
            (do
              let st? ← parseStatement f
              let acc2 ← match st? with
                | some st => pure (acc ++ [st])
                | none => do
                    pmodify fun s => { s with droppedNones := s.droppedNones + 1 }
                    pure acc
              padvance
              pure acc2)
            (do
              pmodify fun s => { s with exceptions := s.exceptions + 1 }
              pure acc)
          parseProgramLoop f acc2

/-- `parse_program` (lines 238-263). -/
def parseProgram (fuel : Nat) : PM Program := do
  let stmts ← parseProgramLoop fuel []
  pure ⟨stmts⟩

/-- The parser state after `Parser.__init__` on a token list. -/
def initPState (ts : List Tok) : PState :=
  { tokens := ts, pos := 0, exceptions := 0, droppedNones := 0, errors := [] }

/-- Enough fuel for any parse of `ts` (established for `parse_program` by
the termination theorem of claim C7). -/
def parserFuel (ts : List Tok) : Nat := 8 * ts.length + 64

/-- Run the whole parser on a token list, as `run_parsing` does. -/
def runParseProgram (ts : List Tok) : Except PErr Program × PState :=
  parseProgram (parserFuel ts) (initPState ts)

/-! ### Invariants for the parser totality analysis

The lexer terminates every token stream with an `EOF` token; the
statements below are proved for every stream of that shape. -/

/-- The token stream ends in an `EOF` token. -/
def endsEOF (ts : List Tok) : Bool :=
  match ts.getLast? with
  | some t => t.type == TokenType.EOF
  | none => false

/-- Cursor-overflow invariant: once the cursor has moved past the end of
the token list, a diagnostic has been recorded (the only way past the
final `EOF` is the trailing `advance` of `report_error`). -/
def pInv (s : PState) : Prop := s.tokens.length ≤ s.pos → s.errors ≠ []

/-- Accounting invariant: a caught exception or a dropped `None`
statement implies a recorded diagnostic. -/
def qInv (s : PState) : Prop :=
  s.exceptions ≠ 0 ∨ s.droppedNones ≠ 0 → s.errors ≠ []

/-- Common postcondition of a parser step that returns normally: the
token list is unchanged, the cursor only moves forward, diagnostics are
never erased, and both invariants are maintained. -/
def okPost (s s' : PState) : Prop :=
  s'.tokens = s.tokens ∧ s.pos ≤ s'.pos ∧
  (s.errors ≠ [] → s'.errors ≠ []) ∧ pInv s' ∧ (qInv s → qInv s')

/-- Postcondition of a step that raises through `report_error`: the
cursor has strictly advanced and an error has been recorded. -/
def raisedPost (s s' : PState) : Prop :=
  s'.tokens = s.tokens ∧ s.pos + 1 ≤ s'.pos ∧ s'.errors ≠ []

/-- Postcondition of a step that dies on a `None` token
(`AttributeError`): the cursor sits at or past the final `EOF` and an
error has been recorded earlier. -/
def crashPost (s s' : PState) : Prop :=
  s'.tokens = s.tokens ∧ s.pos ≤ s'.pos ∧
  s.tokens.length - 1 ≤ s'.pos ∧ s'.errors ≠ []

/-- Outcome classification for expression-level parse functions: a
normal return leaves the cursor on a real, non-`EOF` token;
`report_error` raises only after recording; `None`-token crashes cannot
happen; the fuel bound is never hit. -/
def exprOutcome {α : Type} (s : PState) (rs : Except PErr α × PState) : Prop :=
  match rs with
  | (.ok _, s') => okPost s s' ∧
      ∃ t, s'.tokens.get? s'.pos = some t ∧ t.type ≠ TokenType.EOF
  | (.error .raised, s') => raisedPost s s'
  | (.error .crash, _) => False
  | (.error .noFuel, _) => False

/-- Like `exprOutcome`, for parse functions that additionally always
advance the cursor on a normal return. -/
def exprOutcomeAdv {α : Type} (s : PState) (rs : Except PErr α × PState) :
    Prop :=
  match rs with
  | (.ok _, s') => okPost s s' ∧ s.pos + 1 ≤ s'.pos ∧
      ∃ t, s'.tokens.get? s'.pos = some t ∧ t.type ≠ TokenType.EOF
  | (.error .raised, s') => raisedPost s s'
  | (.error .crash, _) => False
  | (.error .noFuel, _) => False

/-- Outcome classification for statement parse functions that cannot
crash: a normal return yields a real statement (never `None`) with the
cursor on a non-`EOF` token (`;` or `end`). -/
def stmtOutcomeNC (s : PState) (rs : Except PErr (Option Stmt) × PState) :
    Prop :=
  match rs with
  | (.ok a, s') => okPost s s' ∧ a.isSome = true ∧
      ∃ t, s'.tokens.get? s'.pos = some t ∧ t.type ≠ TokenType.EOF
  | (.error .raised, s') => raisedPost s s'
  | (.error .crash, _) => False
  | (.error .noFuel, _) => False

/-- Outcome classification for the block statements (`if`, `while`,
`def`), whose trailing `end` check can die on a `None` token after a
body error consumed the `EOF`. -/
def stmtOutcome (s : PState) (rs : Except PErr (Option Stmt) × PState) :
    Prop :=
  match rs with
  | (.ok a, s') => okPost s s' ∧ a.isSome = true ∧
      ∃ t, s'.tokens.get? s'.pos = some t ∧ t.type ≠ TokenType.EOF
  | (.error .raised, s') => raisedPost s s'
  | (.error .crash, s') => crashPost s s'
  | (.error .noFuel, _) => False

/-- Outcome classification for the statement-list loops, which catch
every exception of their bodies and always return normally. -/
def loopOutcome {α : Type} (s : PState) (rs : Except PErr α × PState) :
    Prop :=
  match rs with
  | (.ok _, s') => okPost s s'
  | (.error _, _) => False

/-- Totality/progress specification of `parseExpression` at a given
fuel. -/
def specParseExpression (f : Nat) : Prop :=
  ∀ (prec : Nat) (s : PState),
    endsEOF s.tokens = true → pInv s →
    (∃ t, s.tokens.get? s.pos = some t) →
    8 * (s.tokens.length - s.pos) + 16 ≤ f →
    exprOutcome s (parseExpression f prec s)

/-- Specification of the Pratt loop `infixLoop` at a given fuel. -/
def specInfixLoop (f : Nat) : Prop :=
  ∀ (prec : Nat) (left : Option Expr) (s : PState),
    endsEOF s.tokens = true → pInv s →
    (∃ t, s.tokens.get? s.pos = some t ∧ t.type ≠ TokenType.EOF) →
    8 * (s.tokens.length - s.pos) + 15 ≤ f →
    exprOutcome s (infixLoop f prec left s)

/-- Specification of `parseInfixExpression` at a given fuel. -/
def specParseInfixExpression (f : Nat) : Prop :=
  ∀ (left : Option Expr) (s : PState),
    endsEOF s.tokens = true → pInv s →
    (∃ t, s.tokens.get? s.pos = some t ∧ t.type ≠ TokenType.EOF) →
    8 * (s.tokens.length - s.pos) + 14 ≤ f →
    exprOutcomeAdv s (parseInfixExpression f left s)

/-- Specification of `parsePrefixExpression` at a given fuel. -/
def specParsePrefixExpression (f : Nat) : Prop :=
  ∀ (s : PState),
    endsEOF s.tokens = true → pInv s →
    (∃ t, s.tokens.get? s.pos = some t ∧ t.type ≠ TokenType.EOF) →
    8 * (s.tokens.length - s.pos) + 15 ≤ f →
    exprOutcomeAdv s (parsePrefixExpression f s)

/-- Specification of `parseGroupedExpression` at a given fuel. -/
def specParseGroupedExpression (f : Nat) : Prop :=
  ∀ (s : PState),
    endsEOF s.tokens = true → pInv s →
    (∃ t, s.tokens.get? s.pos = some t ∧ t.type ≠ TokenType.EOF) →
    8 * (s.tokens.length - s.pos) + 15 ≤ f →
    exprOutcomeAdv s (parseGroupedExpression f s)

/-- Specification of `parseCallExpression` at a given fuel. -/
def specParseCallExpression (f : Nat) : Prop :=
  ∀ (function : Option Expr) (s : PState),
    endsEOF s.tokens = true → pInv s →
    (∃ t, s.tokens.get? s.pos = some t ∧ t.type ≠ TokenType.EOF) →
    8 * (s.tokens.length - s.pos) + 14 ≤ f →
    exprOutcomeAdv s (parseCallExpression f function s)

/-- Specification of `parseExpressionList` at a given fuel. -/
def specParseExpressionList (f : Nat) : Prop :=
  ∀ (endT : TokenType) (s : PState), endT ≠ TokenType.EOF →
    endsEOF s.tokens = true → pInv s →
    (∃ t, s.tokens.get? s.pos = some t ∧ t.type ≠ TokenType.EOF) →
    8 * (s.tokens.length - s.pos) + 13 ≤ f →
    exprOutcomeAdv s (parseExpressionList f endT s)

/-- Specification of the comma loop `exprListLoop` at a given fuel. -/
def specExprListLoop (f : Nat) : Prop :=
  ∀ (acc : List (Option Expr)) (s : PState),
    endsEOF s.tokens = true → pInv s →
    (∃ t, s.tokens.get? s.pos = some t ∧ t.type ≠ TokenType.EOF) →
    8 * (s.tokens.length - s.pos) + 13 ≤ f →
    exprOutcome s (exprListLoop f acc s)

/-- Specification of `parseStatement` at a given fuel: on top of the
block-statement outcome, a crash implies the statement started at least
two tokens before the end of the stream. -/
def specParseStatement (f : Nat) : Prop :=
  ∀ (s : PState),
    endsEOF s.tokens = true → pInv s →
    (∃ t, s.tokens.get? s.pos = some t) →
    8 * (s.tokens.length - s.pos) + 24 ≤ f →
    match parseStatement f s with
    | (.ok a, s') => okPost s s' ∧ a.isSome = true ∧
        ∃ t, s'.tokens.get? s'.pos = some t ∧ t.type ≠ TokenType.EOF
    | (.error .raised, s') => raisedPost s s'
    | (.error .crash, s') => s.pos + 2 ≤ s.tokens.length ∧ crashPost s s'
    | (.error .noFuel, _) => False

/-- Specification of `parseAssignmentStatement` at a given fuel. -/
def specParseAssignmentStatement (f : Nat) : Prop :=
  ∀ (s : PState),
    endsEOF s.tokens = true → pInv s →
    (∃ t, s.tokens.get? s.pos = some t ∧ t.type ≠ TokenType.EOF) →
    (∃ t, s.tokens.get? (s.pos + 1) = some t ∧ t.type ≠ TokenType.EOF) →
    8 * (s.tokens.length - s.pos) + 23 ≤ f →
    stmtOutcomeNC s (parseAssignmentStatement f s)

/-- Specification of `parseVarStatement` at a given fuel. -/
def specParseVarStatement (f : Nat) : Prop :=
  ∀ (s : PState),
    endsEOF s.tokens = true → pInv s →
    (∃ t, s.tokens.get? s.pos = some t ∧ t.type ≠ TokenType.EOF) →
    8 * (s.tokens.length - s.pos) + 23 ≤ f →
    stmtOutcomeNC s (parseVarStatement f s)

/-- Specification of the `if`-body loop at a given fuel. -/
def specIfBodyLoop (f : Nat) : Prop :=
  ∀ (acc : List (Option Stmt)) (s : PState),
    endsEOF s.tokens = true → pInv s →
    8 * (s.tokens.length - s.pos) + 30 ≤ f →
    loopOutcome s (ifBodyLoop f acc s)

/-- Specification of the `else`-body loop at a given fuel. -/
def specElseBodyLoop (f : Nat) : Prop :=
  ∀ (acc : List (Option Stmt)) (s : PState),
    endsEOF s.tokens = true → pInv s →
    8 * (s.tokens.length - s.pos) + 30 ≤ f →
    loopOutcome s (elseBodyLoop f acc s)

/-- Specification of `parseIfStatement` at a given fuel. -/
def specParseIfStatement (f : Nat) : Prop :=
  ∀ (s : PState),
    endsEOF s.tokens = true → pInv s →
    (∃ t, s.tokens.get? s.pos = some t ∧ t.type ≠ TokenType.EOF) →
    8 * (s.tokens.length - s.pos) + 23 ≤ f →
    stmtOutcome s (parseIfStatement f s)

/-- Specification of the `while`-body loop at a given fuel. -/
def specWhileBodyLoop (f : Nat) : Prop :=
  ∀ (acc : List (Option Stmt)) (s : PState),
    endsEOF s.tokens = true → pInv s →
    8 * (s.tokens.length - s.pos) + 30 ≤ f →
    loopOutcome s (whileBodyLoop f acc s)

/-- Specification of `parseWhileStatement` at a given fuel. -/
def specParseWhileStatement (f : Nat) : Prop :=
  ∀ (s : PState),
    endsEOF s.tokens = true → pInv s →
    (∃ t, s.tokens.get? s.pos = some t ∧ t.type ≠ TokenType.EOF) →
    8 * (s.tokens.length - s.pos) + 23 ≤ f →
    stmtOutcome s (parseWhileStatement f s)

/-- Specification of the function-body loop at a given fuel. -/
def specFuncBodyLoop (f : Nat) : Prop :=
  ∀ (acc : List Stmt) (s : PState),
    endsEOF s.tokens = true → pInv s →
    8 * (s.tokens.length - s.pos) + 30 ≤ f →
    loopOutcome s (funcBodyLoop f acc s)

/-- Specification of the extra-parameter loop at a given fuel. -/
def specParamLoop (f : Nat) : Prop :=
  ∀ (acc : List FunctionParameter) (s : PState),
    endsEOF s.tokens = true → pInv s →
    (∃ t, s.tokens.get? s.pos = some t ∧ t.type ≠ TokenType.EOF) →
    8 * (s.tokens.length - s.pos) + 30 ≤ f →
    exprOutcome s (paramLoop f acc s)

/-- Specification of `parseFunctionParameters` at a given fuel. -/
def specParseFunctionParameters (f : Nat) : Prop :=
  ∀ (s : PState),
    endsEOF s.tokens = true → pInv s →
    (∃ t, s.tokens.get? s.pos = some t ∧ t.type ≠ TokenType.EOF) →
    8 * (s.tokens.length - s.pos) + 30 ≤ f →
    exprOutcome s (parseFunctionParameters f s)

/-- Specification of `parseFunctionStatement` at a given fuel. -/
def specParseFunctionStatement (f : Nat) : Prop :=
  ∀ (s : PState),
    endsEOF s.tokens = true → pInv s →
    (∃ t, s.tokens.get? s.pos = some t ∧ t.type ≠ TokenType.EOF) →
    8 * (s.tokens.length - s.pos) + 23 ≤ f →
    stmtOutcome s (parseFunctionStatement f s)

/-- Specification of `parseReturnStatement` at a given fuel. -/
def specParseReturnStatement (f : Nat) : Prop :=
  ∀ (s : PState),
    endsEOF s.tokens = true → pInv s →
    (∃ t, s.tokens.get? s.pos = some t ∧ t.type ≠ TokenType.EOF) →
    8 * (s.tokens.length - s.pos) + 23 ≤ f →
    stmtOutcomeNC s (parseReturnStatement f s)

/-- Specification of `parseExpressionStatement` at a given fuel (the
cursor may sit on any token, `EOF` included). -/
def specParseExpressionStatement (f : Nat) : Prop :=
  ∀ (s : PState),
    endsEOF s.tokens = true → pInv s →
    (∃ t, s.tokens.get? s.pos = some t) →
    8 * (s.tokens.length - s.pos) + 23 ≤ f →
    stmtOutcomeNC s (parseExpressionStatement f s)

/-- Specification of `parseBreakStatement` at a given fuel. -/
def specParseBreakStatement (f : Nat) : Prop :=
  ∀ (s : PState),
    endsEOF s.tokens = true → pInv s →
    (∃ t, s.tokens.get? s.pos = some t ∧ t.type ≠ TokenType.EOF) →
    8 * (s.tokens.length - s.pos) + 23 ≤ f →
    stmtOutcomeNC s (parseBreakStatement f s)

/-- Specification of `parseContinueStatement` at a given fuel. -/
def specParseContinueStatement (f : Nat) : Prop :=
  ∀ (s : PState),
    endsEOF s.tokens = true → pInv s →
    (∃ t, s.tokens.get? s.pos = some t ∧ t.type ≠ TokenType.EOF) →
    8 * (s.tokens.length - s.pos) + 23 ≤ f →
    stmtOutcomeNC s (parseContinueStatement f s)

/-- Specification of `parseImportStatement` at a given fuel. -/
def specParseImportStatement (f : Nat) : Prop :=
  ∀ (s : PState),
    endsEOF s.tokens = true → pInv s →
    (∃ t, s.tokens.get? s.pos = some t ∧ t.type ≠ TokenType.EOF) →
    8 * (s.tokens.length - s.pos) + 23 ≤ f →
    stmtOutcomeNC s (parseImportStatement f s)

/-- Specification of the top-level statement loop at a given fuel. -/
def specParseProgramLoop (f : Nat) : Prop :=
  ∀ (acc : List Stmt) (s : PState),
    endsEOF s.tokens = true → pInv s →
    8 * (s.tokens.length - s.pos) + 40 ≤ f →
    loopOutcome s (parseProgramLoop f acc s)

/-- Conjunction of all the parser specifications at a given fuel. -/
def parserSpecs (f : Nat) : Prop :=
  specParseExpression f ∧ specInfixLoop f ∧ specParseInfixExpression f ∧
  specParsePrefixExpression f ∧ specParseGroupedExpression f ∧
  specParseCallExpression f ∧ specParseExpressionList f ∧
  specExprListLoop f ∧ specParseStatement f ∧
  specParseAssignmentStatement f ∧ specParseVarStatement f ∧
  specIfBodyLoop f ∧ specElseBodyLoop f ∧ specParseIfStatement f ∧
  specWhileBodyLoop f ∧ specParseWhileStatement f ∧
  specFuncBodyLoop f ∧ specParamLoop f ∧
  specParseFunctionParameters f ∧ specParseFunctionStatement f ∧
  specParseReturnStatement f ∧ specParseExpressionStatement f ∧
  specParseBreakStatement f ∧ specParseContinueStatement f ∧
  specParseImportStatement f ∧ specParseProgramLoop f

/-! ## Front-end pipelines (`main.py` `run_lexical_analysis`/`run_parsing`
versus `Compiler.visit_import_statement`) -/

/-- Outcome of a front-end run. -/
inductive PipeResult where
  | lexCrash (e : LexCrash)
  | lexFailed
  | parseFailed
  | ok (p : Program)
deriving Repr

/-- The main-file front end (`main.py` lines 61-120): lex, sanitize, check
lexical errors, parse, check syntax errors. -/
def mainFrontend (src : List Char) : PipeResult :=
  match tokenize src with
  | .error e => .lexCrash e
  | .ok (toks, lexSt) =>
      let toks2 := sanitize toks
      if lexSt.errors ≠ [] then .lexFailed
      else
        match runParseProgram toks2 with
        | (.ok prog, pst) =>
            if pst.errors ≠ [] then .parseFailed else .ok prog
        | (.error _, _) => .parseFailed

/-- The import front end (`Compiler.visit_import_statement`,
lines 244-274): lex, check lexical errors, parse, check syntax errors —
with no sanitize step. -/
def importFrontend (src : List Char) : PipeResult :=
  match tokenize src with
  | .error e => .lexCrash e
  | .ok (toks, lexSt) =>
      if lexSt.errors ≠ [] then .lexFailed
      else
        match runParseProgram toks with
        | (.ok prog, pst) =>
            if pst.errors ≠ [] then .parseFailed else .ok prog
        | (.error _, _) => .parseFailed

/-! ## A small evaluation model for emitted IR (claims about run-time
values) -/

/-- A run-time value: a 64-bit integer or a double. -/
inductive SemVal where
  | ivl (n : Int)
  | fvl (q : ℚ)
deriving Repr, DecidableEq

/-- Modelled from the spec: the runtime support library's `pow` is libc
`pow(f64, f64)` (spec section 6; the runtime library is an external
collaborator, not part of the source).  Modelled exactly on nonnegative
integer exponents, which is all the claims evaluate. -/
def powSem (a b : ℚ) : ℚ :=
  if b.den = 1 ∧ 0 ≤ b.num then a ^ b.num.toNat else 0

/-- Evaluate an IR value under a register file. -/
def evalVal (regs : List (Nat × SemVal)) : IRValue → Option SemVal
  | .constI _ n => some (.ivl n)
  | .constF q => some (.fvl q)
  | .reg id _ => (regs.find? (fun r => r.1 = id)).map (fun r => r.2)
  | .loadReg id _ _ => (regs.find? (fun r => r.1 = id)).map (fun r => r.2)
  | _ => none

/-- Modelled from the spec: sequential LLVM IR semantics (spec section 5)
for the instruction forms the claims evaluate — `sitofp` and calls to
`pow`.  Other instructions bind nothing here. -/
def evalStep (regs : List (Nat × SemVal)) : Instr → List (Nat × SemVal)
  | .sitofp r v =>
      match evalVal regs v with
      | some (.ivl n) => regs ++ [(r, .fvl n)]
      | _ => regs
  | .callI r fn args =>
      match fn, args with
      | .globalFn nm _, [a, b] =>
          if nm = "pow".toList then
            match evalVal regs a, evalVal regs b with
            | some (.fvl x), some (.fvl y) => regs ++ [(r, .fvl (powSem x y))]
            | _, _ => regs
          else regs
      | _, _ => regs
  | _ => regs

/-- Run a straight-line instruction list. -/
def evalInstrs (instrs : List Instr) : List (Nat × SemVal) :=
  instrs.foldl evalStep []

/-! ## Helpers for stating the claims -/

/-- The seven assignment operators (`Parser.py` lines 149-157,
`Compiler.py` lines 386-422). -/
def assignOps : List (List Char) :=
  ["=".toList, "+=".toList, "-=".toList, "*=".toList, "/=".toList,
   "%=".toList, "**=".toList]

/-- Lower `x op rhs` into a block whose single slot `x` was allocated with
element type `e` (slot pointer `reg 0`), and report the IR type of the
value the final `store` writes back. -/
def assignStoredTy (e : IRType) (rhs : Expr) (op : List Char) : Option IRType :=
  match visitAssignStatement 10 (some (.identifierLiteral ['x'])) op (some rhs)
      { instrs := [], counter := 1,
        envs := [[(['x'], (.reg 0 (.ptrTo e), e))], builtinFrame] } with
  | .ok ((), st) =>
      match st.instrs.getLast? with
      | some (.store v _) => some v.ty
      | _ => none
  | .error _ => none

/-- The twelve binary operator token kinds of the expression grammar
(`PRECEDENCES` minus the call parenthesis). -/
def binOpTypes : List TokenType :=
  [.PLUS, .MINUS, .ASTERISK, .SLASH, .MODULUS, .POW,
   .EQ_EQ, .NOT_EQ, .LT, .GT, .LT_EQ, .GT_EQ]

/-- The literal text the lexer attaches to each binary operator token. -/
def opLit : TokenType → List Char
  | .PLUS => "+".toList
  | .MINUS => "-".toList
  | .ASTERISK => "*".toList
  | .SLASH => "/".toList
  | .MODULUS => "%".toList
  | .POW => "**".toList
  | .EQ_EQ => "==".toList
  | .NOT_EQ => "!=".toList
  | .LT => "<".toList
  | .GT => ">".toList
  | .LT_EQ => "<=".toList
  | .GT_EQ => ">=".toList
  | _ => []

/-- The token stream of the expression `a op1 b op2 c` followed by EOF,
with distinct one-byte positions on one line. -/
def exprTokens (a : Int) (o1 : TokenType) (b : Int) (o2 : TokenType)
    (c : Int) : List Tok :=
  [⟨.INT, .intL a, ⟨0, 1, 0⟩, ⟨1, 1, 1⟩⟩,
   ⟨o1, .strL (opLit o1), ⟨2, 1, 2⟩, ⟨3, 1, 3⟩⟩,
   ⟨.INT, .intL b, ⟨4, 1, 4⟩, ⟨5, 1, 5⟩⟩,
   ⟨o2, .strL (opLit o2), ⟨6, 1, 6⟩, ⟨7, 1, 7⟩⟩,
   ⟨.INT, .intL c, ⟨8, 1, 8⟩, ⟨9, 1, 9⟩⟩,
   ⟨.EOF, .noneL, ⟨9, 1, 9⟩, ⟨10, 1, 10⟩⟩]

/-- Run `parse_expression` at lowest precedence on a token stream and
return just its result. -/
def runParseExpression (ts : List Tok) : Except PErr (Option Expr) :=
  (parseExpression 30 0 (initPState ts)).1

/-! ### Lemmas about `sanitize` -/

theorem stepHits_sub (p c : Tok) :
    stepHits p c = [] ∨ stepHits p c = [p.posEnd.idx] := by
  unfold stepHits
  repeat' split
  all_goals simp

theorem stepHits_semi (p c : Tok) (h : p.type = .SEMICOLON) : stepHits p c = [] := by
  unfold stepHits
  rw [h]
  repeat' split
  all_goals simp_all [closerSet, finalSet]

theorem stepHits_sameline (p c : Tok) (hl : c.posStart.ln = p.posEnd.ln)
    (he : c.type ≠ .EOF) : stepHits p c = [] := by
  unfold stepHits
  simp [hl, he]

theorem rebuild_nil (ts : List Tok) : rebuild [] ts = ts := by
  induction ts with
  | nil => rfl
  | cons t rest ih => simp [rebuild, ih]

theorem collect_tail_sub (p? : Option Tok) (t : Tok) (rest : List Tok) :
    ∀ x ∈ collect (some t) rest, x ∈ collect p? (t :: rest) := by
  intro x hx
  cases p? with
  | none => rw [collect]; exact hx
  | some p => rw [collect]; exact List.mem_append_right _ hx

theorem collect_head_sub (p? : Option Tok) (t r : Tok) (rest2 : List Tok) :
    ∀ x ∈ stepHits t r, x ∈ collect p? (t :: r :: rest2) := by
  intro x hx
  apply collect_tail_sub
  rw [collect]
  exact List.mem_append_left _ hx

theorem collect_rebuild (S : List Nat) :
    ∀ (ts : List Tok) (p? : Option Tok),
      (∀ x ∈ collect p? ts, x ∈ S) →
      stepOpt p? ts.head? = [] →
      collect p? (rebuild S ts) = [] := by
  intro ts
  induction ts with
  | nil => intro p? _ _; cases p? <;> rfl
  | cons t rest ih =>
    intro p? hsub hfirst
    simp only [List.head?_cons] at hfirst
    by_cases hmem : t.posEnd.idx ∈ S
    · rw [rebuild, if_pos hmem]
      have h1 : stepHits t (semiAfter t) = [] :=
        stepHits_sameline _ _ rfl (by simp [semiAfter])
      have hrec : collect (some (semiAfter t)) (rebuild S rest) = [] := by
        apply ih (some (semiAfter t))
        · intro x hx
          cases rest with
          | nil => rw [collect] at hx; cases hx
          | cons r rest2 =>
            rw [collect, stepHits_semi (semiAfter t) r rfl] at hx
            simp only [List.nil_append] at hx
            exact hsub x (collect_tail_sub p? t (r :: rest2) x
              (by rw [collect]; exact List.mem_append_right _ hx))
        · cases rest with
          | nil => rfl
          | cons r rest2 =>
            show stepHits (semiAfter t) r = []
            exact stepHits_semi (semiAfter t) r rfl
      cases p? with
      | none => rw [collect, collect, h1, hrec]; rfl
      | some p =>
        have hpt : stepHits p t = [] := hfirst
        rw [collect, collect, hpt, h1, hrec]; rfl
    · rw [rebuild, if_neg hmem]
      have hrec : collect (some t) (rebuild S rest) = [] := by
        apply ih (some t)
        · intro x hx; exact hsub x (collect_tail_sub _ _ _ x hx)
        · cases rest with
          | nil => rfl
          | cons r rest2 =>
            show stepHits t r = []
            rcases stepHits_sub t r with h | h
            · exact h
            · exfalso; apply hmem
              exact hsub _ (collect_head_sub p? t r rest2 _ (by rw [h]; simp))
      cases p? with
      | none => rw [collect]; exact hrec
      | some p =>
        have hpt : stepHits p t = [] := hfirst
        rw [collect, hpt]; simpa using hrec

/-- C9: `sanitize` is idempotent: `sanitize (sanitize T) = sanitize T` for every
token sequence `T`; in particular a second run inserts nothing. -/
theorem sanitize_idempotent (ts : List Tok) :
    sanitize (sanitize ts) = sanitize ts := by
  have h : collect none (sanitize ts) = [] := by
    unfold sanitize
    exact collect_rebuild _ ts none (fun x hx => hx) (by cases ts.head? <;> rfl)
  rw [sanitize, h, rebuild_nil]

/-! ### The pairwise specification of `sanitize` (claim C5) -/

theorem closer_excl (t : TokenType) (h : closerSet t = true) :
    ¬(t = .BREAK ∨ t = .CONTINUE) ∧ t ≠ .RETURN := by
  cases t <;> simp_all [closerSet]

theorem stepHits_ne_iff_specFires (p c : Tok) (hl : p.posEnd.ln ≤ c.posStart.ln) :
    (stepHits p c ≠ []) ↔ specFires p c = true := by
  unfold stepHits specFires
  by_cases he : c.type = TokenType.EOF
  · simp only [he, ite_true, ne_eq, not_true_eq_false, false_and, ite_false]
    split <;> simp_all
  · have hlt : (p.posEnd.ln ≠ c.posStart.ln) ↔ (p.posEnd.ln < c.posStart.ln) := by
      omega
    by_cases hln : p.posEnd.ln < c.posStart.ln
    · rw [if_pos ⟨he, hlt.mpr hln⟩, if_neg he, if_pos hln]
      by_cases h1 : closerSet p.type
      · have hex := closer_excl p.type h1
        by_cases h2 : starterSet c.type <;>
          simp [h1, h2, hex.1, hex.2]
      · by_cases h3 : p.type = .BREAK ∨ p.type = .CONTINUE
        · simp [h1, h3]
        · by_cases h4 : p.type = .RETURN
          · by_cases h5 : returnFollowSet c.type <;>
              simp [h1, h3, h4, h5, closerSet]
          · simp [h1, h3, h4]
    · have heq : p.posEnd.ln = c.posStart.ln := by omega
      simp [he, heq]

theorem rebuild_eq_spec (S : List Nat) :
    ∀ ts, goodS S ts →
      List.Chain' (fun a b => a.posEnd.ln ≤ b.posStart.ln) ts →
      rebuild S ts = sanitizeSpec ts := by
  intro ts
  induction ts with
  | nil => intro _ _; rfl
  | cons t rest ih =>
    intro hg hc
    cases rest with
    | nil =>
      have hmem : t.posEnd.idx ∉ S := hg
      rw [rebuild, if_neg hmem]
      rfl
    | cons c rest2 =>
      obtain ⟨hiff, hg2⟩ := hg
      have hln : t.posEnd.ln ≤ c.posStart.ln := (List.chain'_cons.mp hc).1
      have hc2 : List.Chain' (fun a b => a.posEnd.ln ≤ b.posStart.ln) (c :: rest2) :=
        (List.chain'_cons.mp hc).2
      have hfs := stepHits_ne_iff_specFires t c hln
      by_cases hmem : t.posEnd.idx ∈ S
      · have hsf : specFires t c = true := hfs.mp (hiff.mp hmem)
        rw [rebuild, if_pos hmem, sanitizeSpec, if_pos hsf, ih hg2 hc2]
      · have hsf : ¬ specFires t c = true := fun h => hmem (hiff.mpr (hfs.mpr h))
        rw [rebuild, if_neg hmem, sanitizeSpec, if_neg hsf, ih hg2 hc2]

theorem stepHits_illegal (p c : Tok) (h : p.type = .ILLEGAL) :
    stepHits p c = [] := by
  unfold stepHits
  rw [h]
  repeat' split
  all_goals simp_all [closerSet, finalSet]

theorem collect_fires (ts : List Tok) :
    ∀ (p? : Option Tok), ∀ x ∈ collect p? ts,
      ∃ p c, x = p.posEnd.idx ∧ stepHits p c ≠ [] ∧
        (p? = some p ∨ p ∈ ts) := by
  induction ts with
  | nil => intro p? x hx; cases p? <;> cases hx
  | cons t rest ih =>
    intro p? x hx
    cases p? with
    | none =>
      rw [collect] at hx
      obtain ⟨p, c, he, hf, hp⟩ := ih (some t) x hx
      rcases hp with hp | hp
      · obtain rfl : t = p := by injection hp
        exact ⟨t, c, he, hf, Or.inr (by simp)⟩
      · exact ⟨p, c, he, hf, Or.inr (by simp [hp])⟩
    | some q =>
      rw [collect] at hx
      rcases List.mem_append.mp hx with h | h
      · rcases stepHits_sub q t with hs | hs
        · rw [hs] at h; cases h
        · rw [hs] at h
          refine ⟨q, t, by simpa using h, ?_, Or.inl rfl⟩
          rw [hs]; simp
      · obtain ⟨p, c, he, hf, hp⟩ := ih (some t) x h
        rcases hp with hp | hp
        · obtain rfl : t = p := by injection hp
          exact ⟨t, c, he, hf, Or.inr (by simp)⟩
        · exact ⟨p, c, he, hf, Or.inr (by simp [hp])⟩

theorem chain_head_start_le :
    ∀ (ts : List Tok),
      (∀ t ∈ ts, t.posStart.idx ≤ t.posEnd.idx) →
      List.Chain' (fun a b => a.posEnd.idx ≤ b.posStart.idx) ts →
      ∀ h, ts.head? = some h → ∀ p ∈ ts, h.posStart.idx ≤ p.posStart.idx := by
  intro ts
  induction ts with
  | nil => intro _ _ h hh; cases hh
  | cons t rest ih =>
    intro hw hc h hh p hp
    obtain rfl : t = h := by injection hh
    rcases List.mem_cons.mp hp with rfl | hp
    · exact le_refl _
    · cases rest with
      | nil => cases hp
      | cons r rest2 =>
        have h1 : t.posStart.idx ≤ t.posEnd.idx := hw t (by simp)
        have h2 : t.posEnd.idx ≤ r.posStart.idx := (List.chain'_cons.mp hc).1
        have h3 : r.posStart.idx ≤ p.posStart.idx :=
          ih (fun u hu => hw u (List.mem_cons_of_mem _ hu))
            (List.chain'_cons.mp hc).2 r rfl p hp
        omega

theorem goodS_collect :
    ∀ (ts : List Tok) (p? : Option Tok) (Sx : List Nat),
      (∀ u ∈ ts, u.posEnd.idx ∉ Sx) →
      (∀ p, p? = some p → ∀ h, ts.head? = some h →
        p.posEnd.idx ≤ h.posStart.idx ∧
          (p.posEnd.idx = h.posStart.idx → p.posEnd.ln = h.posStart.ln)) →
      (∀ u ∈ ts, u.posStart.idx ≤ u.posEnd.idx) →
      (∀ u ∈ ts, u.posEnd.idx ≤ u.posStart.idx → u.type = .ILLEGAL) →
      List.Chain' (fun a b => a.posEnd.idx ≤ b.posStart.idx) ts →
      List.Chain' (fun a b => a.posEnd.idx = b.posStart.idx →
        a.posEnd.ln = b.posStart.ln) ts →
      goodS (Sx ++ collect p? ts) ts := by
  intro ts
  induction ts with
  | nil => intro p? Sx _ _ _ _ _ _; trivial
  | cons t rest ih =>
    intro p? Sx hS hlink hw hz hc2 hc4
    cases rest with
    | nil =>
      show t.posEnd.idx ∉ Sx ++ collect p? [t]
      intro hmem
      rcases List.mem_append.mp hmem with h | h
      · exact hS t (by simp) h
      · cases p? with
        | none => rw [collect, collect] at h; cases h
        | some p =>
          rw [collect, collect] at h
          rcases stepHits_sub p t with hs | hs
          · rw [hs] at h; cases h
          · rw [hs] at h
            have heq : t.posEnd.idx = p.posEnd.idx := by simpa using h
            obtain ⟨hle, hlneq⟩ := hlink p rfl t rfl
            have hwt : t.posStart.idx ≤ t.posEnd.idx := hw t (by simp)
            have hty : t.type = .ILLEGAL := hz t (by simp) (by omega)
            have hnone : stepHits p t = [] :=
              stepHits_sameline p t (hlneq (by omega)).symm (by rw [hty]; decide)
            rw [hnone] at hs
            simp at hs
    | cons c rest2 =>
      have hlk2 : t.posEnd.idx ≤ c.posStart.idx := (List.chain'_cons.mp hc2).1
      have hlk4 : t.posEnd.idx = c.posStart.idx → t.posEnd.ln = c.posStart.ln :=
        (List.chain'_cons.mp hc4).1
      have hc2' : List.Chain' (fun a b => a.posEnd.idx ≤ b.posStart.idx)
          (c :: rest2) := (List.chain'_cons.mp hc2).2
      have hc4' : List.Chain' (fun a b => a.posEnd.idx = b.posStart.idx →
          a.posEnd.ln = b.posStart.ln) (c :: rest2) := (List.chain'_cons.mp hc4).2
      have hw' : ∀ u ∈ c :: rest2, u.posStart.idx ≤ u.posEnd.idx :=
        fun u hu => hw u (List.mem_cons_of_mem _ hu)
      have hz' : ∀ u ∈ c :: rest2, u.posEnd.idx ≤ u.posStart.idx →
          u.type = .ILLEGAL :=
        fun u hu => hz u (List.mem_cons_of_mem _ hu)
      have hNoPrev : ∀ p, p? = some p → ∀ u, u ∈ t :: c :: rest2 →
          u.posEnd.idx ∉ stepOpt p? (some t) := by
        intro p hpq u hu hmem
        subst hpq
        rcases stepHits_sub p t with hs | hs
        · simp [stepOpt, hs] at hmem
        · simp only [stepOpt, hs] at hmem
          have heq : u.posEnd.idx = p.posEnd.idx := by simpa using hmem
          obtain ⟨hle, hlneq⟩ := hlink p rfl t rfl
          have hwt : t.posStart.idx ≤ t.posEnd.idx := hw t (by simp)
          have hbound : p.posEnd.idx = t.posStart.idx ∧
              t.posEnd.idx ≤ t.posStart.idx := by
            rcases List.mem_cons.mp hu with rfl | hu2
            · constructor <;> omega
            · have hcu : c.posStart.idx ≤ u.posStart.idx :=
                chain_head_start_le (c :: rest2) hw' hc2' c rfl u hu2
              have hwu : u.posStart.idx ≤ u.posEnd.idx := hw' u hu2
              constructor <;> omega
          have hty : t.type = .ILLEGAL := hz t (by simp) hbound.2
          have hnone : stepHits p t = [] :=
            stepHits_sameline p t (hlneq hbound.1).symm (by rw [hty]; decide)
          rw [hnone] at hs
          simp at hs
      have hNoTail : t.posEnd.idx ∉ collect (some c) rest2 := by
        intro hx
        obtain ⟨p, c', he, hf, hp⟩ := collect_fires rest2 (some c) _ hx
        have hpmem : p ∈ c :: rest2 := by
          rcases hp with hp | hp
          · obtain rfl : c = p := by injection hp
            simp
          · simp [hp]
        have hps : c.posStart.idx ≤ p.posStart.idx :=
          chain_head_start_le (c :: rest2) hw' hc2' c rfl p hpmem
        have hwp : p.posStart.idx ≤ p.posEnd.idx := hw' p hpmem
        have hty : p.type = .ILLEGAL := hz' p hpmem (by omega)
        exact hf (stepHits_illegal p c' hty)
      have hSdec :
          Sx ++ collect p? (t :: c :: rest2) =
            (Sx ++ stepOpt p? (some t)) ++
              (stepHits t c ++ collect (some c) rest2) := by
        cases p? with
        | none => rw [collect, collect]; simp [stepOpt]
        | some p => rw [collect, collect]; simp [stepOpt, List.append_assoc]
      constructor
      · constructor
        · intro hmem hfire
          rw [hSdec] at hmem
          rcases List.mem_append.mp hmem with h | h
          · rcases List.mem_append.mp h with h1 | h1
            · exact hS t (by simp) h1
            · cases p? with
              | none => simp [stepOpt] at h1
              | some p => exact hNoPrev p rfl t (by simp) h1
          · rcases List.mem_append.mp h with h2 | h2
            · rw [hfire] at h2; cases h2
            · exact hNoTail h2
        · intro hne
          rcases stepHits_sub t c with hs | hs
          · exact absurd hs hne
          · apply List.mem_append.mpr; right
            exact collect_head_sub p? t c rest2 _ (by rw [hs]; simp)
      · have hSassoc :
            Sx ++ collect p? (t :: c :: rest2) =
              (Sx ++ stepOpt p? (some t)) ++ collect (some t) (c :: rest2) := by
          cases p? with
          | none => rw [collect]; simp [stepOpt]
          | some p => rw [collect]; simp [stepOpt, List.append_assoc]
        rw [hSassoc]
        apply ih (some t) (Sx ++ stepOpt p? (some t))
        · intro u hu hmem
          rcases List.mem_append.mp hmem with h | h
          · exact hS u (List.mem_cons_of_mem _ hu) h
          · cases p? with
            | none => simp [stepOpt] at h
            | some p => exact hNoPrev p rfl u (List.mem_cons_of_mem _ hu) h
        · intro p hp h hh
          obtain rfl : t = p := by injection hp
          obtain rfl : c = h := by injection hh
          exact ⟨hlk2, hlk4⟩
        · exact hw'
        · exact hz'
        · exact hc2'
        · exact hc4'

/-- C5: on any token stream positioned as the lexer positions tokens
(no token starts after its own end; consecutive tokens appear in source
order; only ILLEGAL error tokens are zero-width; a token end and the next
token start at the same byte index carry the same line number; line
numbers never decrease), `sanitize` inserts a semicolon between
consecutive tokens exactly as described by the claim's pairwise rule
(`sanitizeSpec`), and inserts, removes or reorders nothing else.  The
hypotheses hold of every stream `tokenize` emits, including streams
containing zero-width ILLEGAL tokens, which share their end index with
the immediately preceding token. -/
theorem sanitize_eq_sanitizeSpec (ts : List Tok)
    (hw : ∀ t ∈ ts, t.posStart.idx ≤ t.posEnd.idx)
    (hz : ∀ t ∈ ts, t.posEnd.idx ≤ t.posStart.idx → t.type = .ILLEGAL)
    (hord : List.Chain' (fun a b => a.posEnd.idx ≤ b.posStart.idx) ts)
    (hcoh : List.Chain' (fun a b => a.posEnd.idx = b.posStart.idx →
      a.posEnd.ln = b.posStart.ln) ts)
    (hln : List.Chain' (fun a b => a.posEnd.ln ≤ b.posStart.ln) ts) :
    sanitize ts = sanitizeSpec ts := by
  have hg : goodS (collect none ts) ts := by
    have h := goodS_collect ts none [] (by simp)
      (by intro p hp; cases hp) hw hz hord hcoh
    simpa using h
  exact rebuild_eq_spec _ ts hg hln

/-- C5 witness: the model's own token stream for the source `x\ny$` - an
identifier, a second identifier on the next line, a zero-width ILLEGAL
token sharing its end index 3 with that identifier, and EOF - satisfies
every hypothesis, and `sanitize` agrees with the claim's pairwise rule on
it (each inserts exactly one semicolon, after the first identifier). -/
theorem sanitize_eq_sanitizeSpec_witness :
    (∀ t ∈ [⟨.IDENT, .strL ['x'], ⟨0, 1, 1⟩, ⟨1, 1, 2⟩⟩,
            ⟨.IDENT, .strL ['y'], ⟨2, 2, 0⟩, ⟨3, 2, 1⟩⟩,
            ⟨.ILLEGAL, .strL ['$'], ⟨3, 2, 1⟩, ⟨3, 2, 1⟩⟩,
            (⟨.EOF, .noneL, ⟨4, 2, 2⟩, ⟨5, 2, 3⟩⟩ : Tok)],
        t.posStart.idx ≤ t.posEnd.idx) ∧
    (∀ t ∈ [⟨.IDENT, .strL ['x'], ⟨0, 1, 1⟩, ⟨1, 1, 2⟩⟩,
            ⟨.IDENT, .strL ['y'], ⟨2, 2, 0⟩, ⟨3, 2, 1⟩⟩,
            ⟨.ILLEGAL, .strL ['$'], ⟨3, 2, 1⟩, ⟨3, 2, 1⟩⟩,
            (⟨.EOF, .noneL, ⟨4, 2, 2⟩, ⟨5, 2, 3⟩⟩ : Tok)],
        t.posEnd.idx ≤ t.posStart.idx → t.type = .ILLEGAL) ∧
    List.Chain' (fun a b => a.posEnd.idx ≤ b.posStart.idx)
      [⟨.IDENT, .strL ['x'], ⟨0, 1, 1⟩, ⟨1, 1, 2⟩⟩,
       ⟨.IDENT, .strL ['y'], ⟨2, 2, 0⟩, ⟨3, 2, 1⟩⟩,
       ⟨.ILLEGAL, .strL ['$'], ⟨3, 2, 1⟩, ⟨3, 2, 1⟩⟩,
       (⟨.EOF, .noneL, ⟨4, 2, 2⟩, ⟨5, 2, 3⟩⟩ : Tok)] ∧
    List.Chain' (fun a b => a.posEnd.idx = b.posStart.idx →
        a.posEnd.ln = b.posStart.ln)
      [⟨.IDENT, .strL ['x'], ⟨0, 1, 1⟩, ⟨1, 1, 2⟩⟩,
       ⟨.IDENT, .strL ['y'], ⟨2, 2, 0⟩, ⟨3, 2, 1⟩⟩,
       ⟨.ILLEGAL, .strL ['$'], ⟨3, 2, 1⟩, ⟨3, 2, 1⟩⟩,
       (⟨.EOF, .noneL, ⟨4, 2, 2⟩, ⟨5, 2, 3⟩⟩ : Tok)] ∧
    List.Chain' (fun a b => a.posEnd.ln ≤ b.posStart.ln)
      [⟨.IDENT, .strL ['x'], ⟨0, 1, 1⟩, ⟨1, 1, 2⟩⟩,
       ⟨.IDENT, .strL ['y'], ⟨2, 2, 0⟩, ⟨3, 2, 1⟩⟩,
       ⟨.ILLEGAL, .strL ['$'], ⟨3, 2, 1⟩, ⟨3, 2, 1⟩⟩,
       (⟨.EOF, .noneL, ⟨4, 2, 2⟩, ⟨5, 2, 3⟩⟩ : Tok)] ∧
    sanitize
      [⟨.IDENT, .strL ['x'], ⟨0, 1, 1⟩, ⟨1, 1, 2⟩⟩,
       ⟨.IDENT, .strL ['y'], ⟨2, 2, 0⟩, ⟨3, 2, 1⟩⟩,
       ⟨.ILLEGAL, .strL ['$'], ⟨3, 2, 1⟩, ⟨3, 2, 1⟩⟩,
       (⟨.EOF, .noneL, ⟨4, 2, 2⟩, ⟨5, 2, 3⟩⟩ : Tok)] =
    sanitizeSpec
      [⟨.IDENT, .strL ['x'], ⟨0, 1, 1⟩, ⟨1, 1, 2⟩⟩,
       ⟨.IDENT, .strL ['y'], ⟨2, 2, 0⟩, ⟨3, 2, 1⟩⟩,
       ⟨.ILLEGAL, .strL ['$'], ⟨3, 2, 1⟩, ⟨3, 2, 1⟩⟩,
       (⟨.EOF, .noneL, ⟨4, 2, 2⟩, ⟨5, 2, 3⟩⟩ : Tok)] :=
  ⟨by decide, by decide, by simp [List.chain'_cons], by simp [List.chain'_cons],
    by simp [List.chain'_cons],
    sanitize_eq_sanitizeSpec _ (by decide) (by decide)
      (by simp [List.chain'_cons]) (by simp [List.chain'_cons])
      (by simp [List.chain'_cons])⟩

/-! ### Monad run lemmas -/

theorem bindC {α β : Type} (m : CompM α) (g : α → CompM β) (s : CompState) :
    (m >>= g) s = match m s with
      | .ok (a, s2) => g a s2
      | .error e => .error e := rfl

theorem pureC {α : Type} (a : α) (s : CompState) :
    (pure a : CompM α) s = .ok (a, s) := rfl

/-! ### Claim C1: `var` and scope -/

/-- C1 counterexample: lowering `var x: int = 5` while `x` is bound only
in an enclosing frame (inner frame empty, outer frame binds `x` to slot
`reg 0`) allocates no fresh slot, binds nothing in the innermost frame,
and emits a store into the enclosing frame's slot — refuting the claim
that the declaration shadows in the current scope and leaves the
enclosing binding and its stored value unchanged. -/
theorem varShadowingClaimFalse :
    visitVarStatement 10 (some (.identifierLiteral ['x']))
        (some (.integerLiteral 5)) (some "int".toList)
        { instrs := [], counter := 5,
          envs := [[], [(['x'], (.reg 0 (.ptrTo (.i 64)), .i 64))], builtinFrame] }
      = .ok ((),
        { instrs := [.store (.constI 64 5) (.reg 0 (.ptrTo (.i 64)))],
          counter := 5,
          envs := [[], [(['x'], (.reg 0 (.ptrTo (.i 64)), .i 64))], builtinFrame] }) :=
  rfl

/-- C1 (amended): `visit_var_statement` looks the name up through the
whole frame chain. (1) If the name resolves anywhere — in particular when
it is bound only in an enclosing frame — the declaration stores the new
value into that existing slot: no alloca, no new binding, the environment
is unchanged and the enclosing frame's stored value is overwritten.
(2) A fresh slot is allocated and bound in the current (innermost) frame
only when the name is unbound in the entire chain. -/
theorem visitVar_enclosing_update :
    (∀ (f : Nat) (inner : Frame) (k : Int) (slot : IRValue) (ty : IRType)
        (I : List Instr) (c : Nat),
      inner.find? (fun r => r.1 = ['x']) = none →
      visitVarStatement (f + 1) (some (.identifierLiteral ['x']))
          (some (.integerLiteral k)) (some "int".toList)
          { instrs := I, counter := c,
            envs := [inner, [(['x'], (slot, ty))], builtinFrame] }
        = .ok ((),
          { instrs := I ++ [.store (.constI 64 k) slot], counter := c,
            envs := [inner, [(['x'], (slot, ty))], builtinFrame] })) ∧
    (∀ (f : Nat) (inner : Frame) (rest : List Frame) (k : Int)
        (I : List Instr) (c : Nat),
      envResolve (inner :: rest) ['x'] = none →
      visitVarStatement (f + 1) (some (.identifierLiteral ['x']))
          (some (.integerLiteral k)) (some "int".toList)
          { instrs := I, counter := c, envs := inner :: rest }
        = .ok ((),
          { instrs := I ++ [.alloca c (.i 64),
              .store (.constI 64 k) (.reg c (.ptrTo (.i 64)))],
            counter := c + 1,
            envs := ((['x'], (.reg c (.ptrTo (.i 64)), .i 64)) :: inner) :: rest })) := by
  constructor
  · intro f inner k slot ty I c hinner
    simp only [visitVarStatement, resolveValue, envLookup, envLookupBang,
      envResolve, buildStore, emit, cmodify, cthrow, bindC, pure, hinner,
      List.find?]
    simp
    simp only [bindC, envLookup, envResolve, hinner, List.find?, cmodify]
    simp
  · intro f inner rest k I c hnone
    simp only [visitVarStatement, resolveValue, envLookup, envLookupBang,
      buildStore, buildAlloca, fresh, emit, envDefine, cmodify, cthrow,
      bindC, pure, hnone]
    simp [List.append_assoc]

/-- C1 witness: both parts of the amended statement applied at concrete
inputs (inner frame empty; environment `[[], [builtins]]`). -/
theorem visitVar_enclosing_update_witness :
    (List.find? (fun r => r.1 = ['x']) ([] : Frame) = none ∧
      visitVarStatement 1 (some (.identifierLiteral ['x']))
          (some (.integerLiteral 7)) (some "int".toList)
          { instrs := [], counter := 0,
            envs := [[], [(['x'], (.reg 9 (.ptrTo (.i 64)), .i 64))], builtinFrame] }
        = .ok ((),
          { instrs := [.store (.constI 64 7) (.reg 9 (.ptrTo (.i 64)))],
            counter := 0,
            envs := [[], [(['x'], (.reg 9 (.ptrTo (.i 64)), .i 64))], builtinFrame] })) ∧
    (envResolve [[]] ['x'] = none ∧
      visitVarStatement 1 (some (.identifierLiteral ['x']))
          (some (.integerLiteral 7)) (some "int".toList)
          { instrs := [], counter := 0, envs := [[]] }
        = .ok ((),
          { instrs := [.alloca 0 (.i 64),
              .store (.constI 64 7) (.reg 0 (.ptrTo (.i 64)))],
            counter := 1,
            envs := [[(['x'], (.reg 0 (.ptrTo (.i 64)), .i 64))]] })) :=
  ⟨⟨rfl, visitVar_enclosing_update.1 0 [] 7 _ _ [] 0 rfl⟩,
   ⟨rfl, visitVar_enclosing_update.2 0 [] [] 7 [] 0 rfl⟩⟩

/-! ### Claim C2: `**` lowering -/

/-- C2 counterexample: lowering `2 ** 10` emits the promoted `pow` call
(whose emitted value is an `f64` register), but the type handle paired
with the value is `i64`, not `f64` — refuting the claim that *both* the
emitted value and the type handle are `f64` regardless of operand types. -/
theorem powTypeHandleClaimFalse :
    visitInfixExpression 10 (some (.integerLiteral 2)) "**".toList
        (some (.integerLiteral 10)) initCompState
      = .ok ((some (.reg 2 .double), some (.i 64)),
        { instrs := [.sitofp 0 (.constI 64 2), .sitofp 1 (.constI 64 10),
            .callI 2 (.globalFn "pow".toList .double)
              [.reg 0 .double, .reg 1 .double]],
          counter := 3, envs := [builtinFrame] }) ∧
    IRType.i 64 ≠ IRType.double :=
  ⟨rfl, by decide⟩

/-- C2 (amended): for `a ** b` both operands are promoted to `f64` and
`pow` is called; the *emitted value* is the `f64` call result for int and
for float operands alike, but the *type handle* paired with it stays
`i64` for int operands (it is `f64` for float operands).  Under the IR
evaluation model, the value emitted for `2 ** 10` evaluates to the float
`1024.0`, not to a 64-bit integer. -/
theorem powLowering_amended :
    (∀ (f : Nat) (a b : Int),
      visitInfixExpression (f + 3) (some (.integerLiteral a)) "**".toList
          (some (.integerLiteral b)) initCompState
        = .ok ((some (.reg 2 .double), some (.i 64)),
          { instrs := [.sitofp 0 (.constI 64 a), .sitofp 1 (.constI 64 b),
              .callI 2 (.globalFn "pow".toList .double)
                [.reg 0 .double, .reg 1 .double]],
            counter := 3, envs := [builtinFrame] })) ∧
    (∀ (f : Nat) (qa qb : ℚ),
      visitInfixExpression (f + 3) (some (.floatLiteral qa)) "**".toList
          (some (.floatLiteral qb)) initCompState
        = .ok ((some (.reg 0 .double), some .double),
          { instrs := [.callI 0 (.globalFn "pow".toList .double)
              [.constF qa, .constF qb]],
            counter := 1, envs := [builtinFrame] })) ∧
    evalVal
      (evalInstrs [.sitofp 0 (.constI 64 2), .sitofp 1 (.constI 64 10),
        .callI 2 (.globalFn "pow".toList .double)
          [.reg 0 .double, .reg 1 .double]])
      (.reg 2 .double) = some (.fvl 1024) :=
  ⟨fun f a b => rfl, fun f qa qb => rfl, by decide⟩

/-! ### Claim C3: the import front end -/

/-- C3 counterexample: the two-line source `break\nbreak\n` (no
semicolons; ASI applies at both line breaks) parses cleanly through the
main-file front end but fails to parse through the import front end,
because `visit_import_statement` lexes and parses without the sanitize
step — refuting the claim that an import runs the same
lex-sanitize-parse pipeline and that such a file compiles the same way
as the main file would. -/
theorem importSkipsSanitizeClaimFalse :
    importFrontend ("break\nbreak\n".toList) = .parseFailed ∧
    mainFrontend ("break\nbreak\n".toList) =
      .ok ⟨[Stmt.breakStatement, Stmt.breakStatement]⟩ :=
  ⟨rfl, rfl⟩

/-- C3 (amended): the import front end runs lexing then parsing with no
sanitize step; consequently it agrees with the main-file front end
exactly on sources whose token stream is a fixed point of `sanitize`
(already semicolon-terminated), and can reject sources that rely on
automatic semicolon insertion (see the counterexample). -/
theorem importFrontend_eq_main_of_fixpoint (src : List Char)
    (toks : List Tok) (st : LexState)
    (h1 : tokenize src = .ok (toks, st)) (h2 : sanitize toks = toks) :
    importFrontend src = mainFrontend src := by
  unfold importFrontend mainFrontend
  rw [h1]
  dsimp only
  rw [h2]

/-- C3 witness: on the already-terminated source `break;` the tokenize
result is a `sanitize` fixed point, and both front ends agree. -/
theorem importFrontend_eq_main_witness :
    importFrontend ("break;".toList) = mainFrontend ("break;".toList) :=
  importFrontend_eq_main_of_fixpoint _ _ _ rfl (by rfl)

/-! ### Claim C8: the bare-dot lexical error -/

/-- C8: the code contradicts the claim.  On the source `.a` — a lexeme
beginning with `.` not followed by a digit — the lexer dies with a
`NameError` (the bare name `DIGITS` in `_is_invalid_decimal_point`,
`Lexer.py` line 106) instead of recording a Lexical Error and
continuing.  Only when the `.` is the last character of the source does
the short-circuit skip the broken name, and then the behaviour the claim
describes is observed: one Lexical Error, no token for the character,
the cursor advanced exactly one character, and tokenization runs to EOF. -/
theorem tokenize_dot_nameErrorDIGITS :
    tokenize ['.', 'a'] = .error .nameErrorDIGITS ∧
    tokenize ['.'] = .ok
      ([⟨.EOF, .noneL, ⟨1, 1, 2⟩, ⟨2, 1, 3⟩⟩],
        { src := ['.'], pos := ⟨1, 1, 2⟩,
          errors := [⟨⟨0, 1, 1⟩, ⟨1, 1, 2⟩, "Lexical Error"⟩] }) :=
  ⟨rfl, rfl⟩

/-! ### Claim C10: assignment type preservation -/

/-- C10 counterexample: lowering `var x: int = 1; x = 2.5` allocates the
slot with element type `i64` and then stores the `f64` value `2.5`
straight into it — the stored value's IR type is `double`, not the
slot's element type `i64` — refuting the claim that an assignment that
lowers without error never stores an `f64` value into an `i64` slot. -/
theorem assignTypePreservationClaimFalse :
    (visitVarStatement 10 (some (.identifierLiteral ['x']))
        (some (.integerLiteral 1)) (some "int".toList) >>= fun _ =>
      visitAssignStatement 10 (some (.identifierLiteral ['x'])) "=".toList
        (some (.floatLiteral (5 / 2)))) initCompState
      = .ok ((),
        { instrs := [.alloca 0 (.i 64),
            .store (.constI 64 1) (.reg 0 (.ptrTo (.i 64))),
            .load 1 (.reg 0 (.ptrTo (.i 64))),
            .sitofp 2 (.loadReg 1 (.i 64) (.reg 0 (.ptrTo (.i 64)))),
            .store (.constF (5 / 2)) (.reg 0 (.ptrTo (.i 64)))],
          counter := 3,
          envs := [(['x'], (.reg 0 (.ptrTo (.i 64)), .i 64)) :: builtinFrame] }) ∧
    IRValue.ty (.constF (5 / 2)) = .double ∧ IRType.double ≠ .i 64 :=
  ⟨rfl, rfl, by decide⟩

/-- C10 (amended): for `x op rhs` on a numeric slot of element type `e`
and a numeric right-hand side of type `r`, the value stored back has the
slot's element type *except* when the slot is `i64` and the computed
value is `f64` — which happens exactly when the right-hand side is a
float, or the operator is `**=` (whose `pow` result is always `f64`);
in those cases an `f64` value is stored into the `i64` slot. -/
theorem assignStoredTy_characterization (slotInt rhsInt : Bool)
    (op : List Char) (k : Int) (q : ℚ) (hop : op ∈ assignOps) :
    assignStoredTy (if slotInt then .i 64 else .double)
        (if rhsInt then .integerLiteral k else .floatLiteral q) op
      = some (if slotInt = true ∧ (rhsInt = false ∨ op = "**=".toList)
          then .double
          else if slotInt then .i 64 else .double) := by
  fin_cases hop <;> cases slotInt <;> cases rhsInt <;> rfl

/-- C10 witness: the amended characterization at the concrete inputs
`x += 2` on an `i64` slot (type preserved) — the hypothesis
`"+=" ∈ assignOps` holds by computation. -/
theorem assignStoredTy_characterization_witness :
    "+=".toList ∈ assignOps ∧
    assignStoredTy (.i 64) (.integerLiteral 2) "+=".toList = some (.i 64) :=
  ⟨by decide, assignStoredTy_characterization true true "+=".toList 2 0 (by decide)⟩

/-! ### Claim C4: string-literal escape decoding -/

theorem repl2_nil (p r : Char) : repl2 p r [] = [] := rfl

theorem repl2_single (p r c : Char) : repl2 p r [c] = [c] := rfl

theorem repl2_cons_ne (p r x : Char) (hx : x ≠ '\\') (s : List Char) :
    repl2 p r (x :: s) = x :: repl2 p r s := by
  cases s with
  | nil => rfl
  | cons y rest => simp [repl2, hx]

theorem repl2_esc_eq (p r : Char) (s : List Char) :
    repl2 p r ('\\' :: p :: s) = r :: repl2 p r s := by
  simp [repl2]

theorem repl2_esc_ne (p r c : Char) (hc : c ≠ p) (hcb : c ≠ '\\')
    (s : List Char) :
    repl2 p r ('\\' :: c :: s) = '\\' :: c :: repl2 p r s := by
  rw [show repl2 p r ('\\' :: c :: s) = '\\' :: repl2 p r (c :: s) from by
    simp [repl2, hc]]
  rw [repl2_cons_ne p r c hcb s]

theorem decodeEscapes_eq_escFold (s : List Char) :
    decodeEscapes s = escFold escTable s := rfl

theorem escFold_single (tbl : List (Char × Char)) (c : Char) :
    escFold tbl [c] = [c] := by
  induction tbl with
  | nil => rfl
  | cons pr tbl ih =>
      obtain ⟨p, r⟩ := pr
      show escFold tbl (repl2 p r [c]) = [c]
      rw [repl2_single]
      exact ih

theorem escFold_cons_ne (tbl : List (Char × Char)) (x : Char)
    (hx : x ≠ '\\') (s : List Char) :
    escFold tbl (x :: s) = x :: escFold tbl s := by
  induction tbl generalizing s with
  | nil => rfl
  | cons pr tbl ih =>
      obtain ⟨p, r⟩ := pr
      show escFold tbl (repl2 p r (x :: s)) = x :: escFold tbl (repl2 p r s)
      rw [repl2_cons_ne p r x hx s]
      exact ih (repl2 p r s)

theorem escFold_esc (tbl : List (Char × Char)) (c b : Char)
    (hc : c ≠ '\\') (hb : b ≠ '\\')
    (hlook : tableLookup tbl c = some b) (s : List Char) :
    escFold tbl ('\\' :: c :: s) = b :: escFold tbl s := by
  induction tbl generalizing s with
  | nil => simp [tableLookup, List.find?] at hlook
  | cons pr tbl ih =>
      obtain ⟨p, r⟩ := pr
      show escFold tbl (repl2 p r ('\\' :: c :: s)) =
        b :: escFold tbl (repl2 p r s)
      by_cases hpc : p = c
      · have hbr : r = b := by
          simp [tableLookup, List.find?, hpc] at hlook
          exact hlook
        subst hpc
        rw [repl2_esc_eq p r s]
        rw [escFold_cons_ne tbl r (hbr ▸ hb) (repl2 p r s)]
        rw [hbr]
      · have hlook2 : tableLookup tbl c = some b := by
          simpa [tableLookup, List.find?, hpc] using hlook
        rw [repl2_esc_ne p r c (fun h => hpc h.symm) hc s]
        exact ih hlook2 (repl2 p r s)

theorem escFold_escNone (tbl : List (Char × Char)) (c : Char)
    (hc : c ≠ '\\') (hlook : tableLookup tbl c = none) (s : List Char) :
    escFold tbl ('\\' :: c :: s) = '\\' :: c :: escFold tbl s := by
  induction tbl generalizing s with
  | nil => rfl
  | cons pr tbl ih =>
      obtain ⟨p, r⟩ := pr
      show escFold tbl (repl2 p r ('\\' :: c :: s)) =
        '\\' :: c :: escFold tbl (repl2 p r s)
      by_cases hpc : p = c
      · simp [tableLookup, List.find?, hpc] at hlook
      · have hlook2 : tableLookup tbl c = none := by
          simpa [tableLookup, List.find?, hpc] using hlook
        rw [repl2_esc_ne p r c (fun h => hpc h.symm) hc s]
        exact ih hlook2 (repl2 p r s)

theorem hasPair_tail (x : Char) (l : List Char)
    (h : hasPair (x :: l) = false) : hasPair l = false := by
  cases l with
  | nil => rfl
  | cons y rest =>
      rw [hasPair] at h
      by_cases hc : x = '\\' ∧ y = '\\'
      · rw [if_pos hc] at h; cases h
      · rwa [if_neg hc] at h

theorem escByte_ne_backslash (c b : Char) (hc : c ≠ '\\')
    (hb : escByte c = some b) : b ≠ '\\' := by
  unfold escByte tableLookup at hb
  rcases Option.map_eq_some'.mp hb with ⟨pr, hfind, hbv⟩
  have hp : pr.1 = c := by simpa using List.find?_some hfind
  have hmem : pr ∈ escTable := List.mem_of_find?_eq_some hfind
  simp only [escTable, List.mem_cons, List.not_mem_nil, or_false] at hmem
  rcases hmem with h | h | h | h | h | h | h | h | h | h <;> subst h <;>
    first
      | (rw [← hbv]; decide)
      | (exact absurd hp.symm hc)

/-- The sequential global replaces agree with the claim's single-pass
escape decoder on every literal that contains no backslash pair. -/
theorem decode_noPair : ∀ (s : List Char), hasPair s = false →
    decodeEscapes s = specDecode s
  | [] => fun _ => rfl
  | [c] => fun _ => by
      rw [decodeEscapes_eq_escFold, escFold_single]; rfl
  | c1 :: c2 :: rest => fun h => by
      have hstep : (if c1 = '\\' ∧ c2 = '\\' then true
          else hasPair (c2 :: rest)) = false := h
      by_cases hb : c1 = '\\'
      · have hc2 : c2 ≠ '\\' := by
          intro he
          rw [if_pos ⟨hb, he⟩] at hstep
          cases hstep
        have htail : hasPair (c2 :: rest) = false := by
          rwa [if_neg (fun hx => hc2 hx.2)] at hstep
        have hrest : hasPair rest = false := hasPair_tail _ _ htail
        subst hb
        cases he : escByte c2 with
        | some b =>
            rw [decodeEscapes_eq_escFold,
              escFold_esc escTable c2 b hc2 (escByte_ne_backslash c2 b hc2 he)
                he rest,
              ← decodeEscapes_eq_escFold, decode_noPair rest hrest]
            simp [specDecode, he]
        | none =>
            rw [decodeEscapes_eq_escFold,
              escFold_escNone escTable c2 hc2 he rest,
              ← decodeEscapes_eq_escFold, decode_noPair rest hrest]
            simp [specDecode, he]
      · have htail : hasPair (c2 :: rest) = false := by
          rwa [if_neg (fun hx => hb hx.1)] at hstep
        rw [decodeEscapes_eq_escFold, escFold_cons_ne escTable c1 hb,
          ← decodeEscapes_eq_escFold, decode_noPair (c2 :: rest) htail]
        simp [specDecode, hb]

/-- C4 counterexample: the literal text backslash-backslash-`n` decodes
to backslash followed by a *newline* plus the null terminator (the `\n`
replace runs before the `\\` replace), not to backslash followed by the
letter `n` as the claim states. -/
theorem escapeOrderClaimFalse :
    convertedLiteral ['\\', '\\', 'n'] = ['\\', '\n', Char.ofNat 0] ∧
    convertedLiteral ['\\', '\\', 'n'] ≠ ['\\', 'n', Char.ofNat 0] := by
  constructor <;> decide

/-- C4 (amended): decoding is performed by ten sequential global
replaces in the order `\n \t \r \\ \" \' \0 \b \f \v`; on every literal
with no backslash pair this translates each listed escape sequence to
its single byte value exactly as the claim's per-escape table describes
(`specDecode`), and a null terminator is appended unless the decoded
text already ends with NUL.  (When a backslash pair is followed by `n`,
`t` or `r` the earlier replace fires first — see the counterexample.) -/
theorem convertedLiteral_specDecode (s : List Char)
    (h : hasPair s = false) :
    convertedLiteral s =
      (if (specDecode s).getLast? = some (Char.ofNat 0) then specDecode s
       else specDecode s ++ [Char.ofNat 0]) := by
  unfold convertedLiteral
  rw [decode_noPair s h]

/-- C4 witness: the amended statement at the literal `a\nb` (no
backslash pair): decoded to `a`, newline, `b` plus the terminator. -/
theorem convertedLiteral_specDecode_witness :
    hasPair ['a', '\\', 'n', 'b'] = false ∧
    convertedLiteral ['a', '\\', 'n', 'b'] =
      (if (specDecode ['a', '\\', 'n', 'b']).getLast? = some (Char.ofNat 0)
       then specDecode ['a', '\\', 'n', 'b']
       else specDecode ['a', '\\', 'n', 'b'] ++ [Char.ofNat 0]) :=
  ⟨by decide, convertedLiteral_specDecode _ (by decide)⟩

/-! ### Claim C6: expression precedence and associativity -/

/-- C6: for all binary operators `op1`, `op2` and integer literals
`a b c`, the parser produces the left-nested tree `(a op1 b) op2 c`
exactly when `prec(op1) ≥ prec(op2)` — except that `**` against itself
associates to the right (its right operand is parsed at
`precedence - 1`): `a ** b ** c` parses as `a ** (b ** c)`. -/
theorem parseExpression_precedence (o1 o2 : TokenType)
    (h1 : o1 ∈ binOpTypes) (h2 : o2 ∈ binOpTypes) (a b c : Int) :
    runParseExpression (exprTokens a o1 b o2 c) =
      .ok (some
        (if precOf o2 ≤ precOf o1 ∧ ¬(o1 = .POW ∧ o2 = .POW) then
          Expr.infixExpression
            (some (Expr.infixExpression (some (.integerLiteral a)) (opLit o1)
              (some (.integerLiteral b))))
            (opLit o2) (some (.integerLiteral c))
        else
          Expr.infixExpression (some (.integerLiteral a)) (opLit o1)
            (some (Expr.infixExpression (some (.integerLiteral b)) (opLit o2)
              (some (.integerLiteral c)))))) := by
  fin_cases h1 <;> fin_cases h2 <;> rfl

/-- C6 witness: `1 + 2 * 3` parses right-nested (`prec(+) < prec(*)`). -/
theorem parseExpression_precedence_witness :
    TokenType.PLUS ∈ binOpTypes ∧ TokenType.ASTERISK ∈ binOpTypes ∧
    runParseExpression (exprTokens 1 .PLUS 2 .ASTERISK 3) =
      .ok (some
        (if precOf .ASTERISK ≤ precOf .PLUS ∧
            ¬(TokenType.PLUS = .POW ∧ TokenType.ASTERISK = .POW) then
          Expr.infixExpression
            (some (Expr.infixExpression (some (.integerLiteral 1))
              (opLit .PLUS) (some (.integerLiteral 2))))
            (opLit .ASTERISK) (some (.integerLiteral 3))
        else
          Expr.infixExpression (some (.integerLiteral 1)) (opLit .PLUS)
            (some (Expr.infixExpression (some (.integerLiteral 2))
              (opLit .ASTERISK) (some (.integerLiteral 3)))))) :=
  ⟨by decide, by decide,
    parseExpression_precedence .PLUS .ASTERISK (by decide) (by decide) 1 2 3⟩

/-! ### C7 — parser totality.  Run lemmas for the parser monad and
facts about `EOF`-terminated token streams. -/

theorem pbindRun {α β : Type} (m : PM α) (g : α → PM β) (s : PState) :
    (m >>= g) s =
      match m s with
      | (.ok a, s2) => g a s2
      | (.error e, s2) => (.error e, s2) := rfl

theorem ppureRun {α : Type} (a : α) (s : PState) :
    (pure a : PM α) s = (.ok a, s) := rfl

theorem endsEOF_length {ts : List Tok} (h : endsEOF ts = true) :
    1 ≤ ts.length := by
  cases ts with
  | nil => simp [endsEOF] at h
  | cons a l => simp

theorem endsEOF_last {ts : List Tok} {t : Tok} (h : endsEOF ts = true)
    (hg : ts.get? (ts.length - 1) = some t) : t.type = TokenType.EOF := by
  unfold endsEOF at h
  rw [List.getLast?_eq_get?, hg] at h
  simpa using h

theorem get_lt_of_some {ts : List Tok} {i : Nat} {t : Tok}
    (h : ts.get? i = some t) : i < ts.length := by
  by_contra hc
  rw [List.get?_eq_none.mpr (by omega)] at h
  exact Option.noConfusion h

theorem endsEOF_succ_lt {ts : List Tok} {i : Nat} {t : Tok}
    (hE : endsEOF ts = true) (hi : ts.get? i = some t)
    (ht : t.type ≠ TokenType.EOF) : i + 1 < ts.length := by
  have hlt : i < ts.length := get_lt_of_some hi
  rcases Nat.lt_or_ge (i + 1) ts.length with h | h
  · exact h
  · exfalso
    have hieq : i = ts.length - 1 := by omega
    exact ht (endsEOF_last hE (hieq ▸ hi))

theorem get_isSome_of_lt {ts : List Tok} {i : Nat} (h : i < ts.length) :
    ∃ t, ts.get? i = some t := by
  rcases hg : ts.get? i with _ | t
  · rw [List.get?_eq_none] at hg; omega
  · exact ⟨t, rfl⟩

theorem psynchronize_spec : ∀ (f : Nat) (syncs : List TokenType)
    (s : PState) (r : Except PErr Unit) (s' : PState),
    s.tokens.length - s.pos < f →
    psynchronize f syncs s = (r, s') →
    r = .ok () ∧ s'.tokens = s.tokens ∧ s'.errors = s.errors ∧
    s'.exceptions = s.exceptions ∧ s'.droppedNones = s.droppedNones ∧
    s.pos ≤ s'.pos := by
  intro f
  induction f with
  | zero => intro syncs s r s' hf; omega
  | succ f ih =>
    intro syncs s r s' hf hrun
    rw [psynchronize] at hrun
    rw [pbindRun] at hrun
    rcases hcur : s.tokens.get? s.pos with _ | t
    · rw [show currentToken s = (.ok (s.tokens.get? s.pos), s) from rfl,
        hcur] at hrun
      simp only [ppureRun] at hrun
      obtain ⟨rfl, rfl⟩ := Prod.mk.injEq .. ▸ hrun
      exact ⟨rfl, rfl, rfl, rfl, rfl, Nat.le_refl _⟩
    · rw [show currentToken s = (.ok (s.tokens.get? s.pos), s) from rfl,
        hcur] at hrun
      simp only [] at hrun
      by_cases hc : t.type ∉ syncs ∧ t.type ≠ TokenType.EOF
      · rw [if_pos hc] at hrun
        rw [pbindRun] at hrun
        rw [show padvance s = (.ok (), { s with pos := s.pos + 1 }) from
          rfl] at hrun
        have hlt : s.pos < s.tokens.length := get_lt_of_some hcur
        have hf2 : ({ s with pos := s.pos + 1 } : PState).tokens.length -
            ({ s with pos := s.pos + 1 } : PState).pos < f := by
          simp only []; omega
        obtain ⟨h1, h2, h3, h4, h5, h6⟩ := ih syncs _ r s' hf2 hrun
        exact ⟨h1, h2, h3, h4, h5, by simp only [] at h6; omega⟩
      · rw [if_neg hc] at hrun
        simp only [ppureRun] at hrun
        obtain ⟨rfl, rfl⟩ := Prod.mk.injEq .. ▸ hrun
        exact ⟨rfl, rfl, rfl, rfl, rfl, Nat.le_refl _⟩

theorem iteTT {α : Type} (a b : α) : (if true = true then a else b) = a :=
  rfl

theorem iteFT {α : Type} (a b : α) : (if false = true then a else b) = b :=
  rfl

theorem itePT {α : Type} (a b : α) : (if True then a else b) = a := rfl

theorem reportError_none_run {α : Type} (f : Nat) (s : PState) :
    (reportError f none : PM α) s = (.error .crash, s) := rfl

theorem reportError_some_spec {α : Type} (f : Nat) (t : Tok) (s : PState)
    (r : Except PErr α) (s' : PState)
    (hf : s.tokens.length - s.pos < f)
    (hrun : reportError f (some t) s = (r, s')) :
    r = .error .raised ∧ s'.tokens = s.tokens ∧ s.pos + 1 ≤ s'.pos ∧
    s'.errors = s.errors ++ [⟨t.posStart, t.posEnd, "Syntax Error"⟩] ∧
    s'.exceptions = s.exceptions ∧ s'.droppedNones = s.droppedNones := by
  rw [reportError] at hrun
  simp only [pbindRun] at hrun
  rw [show pmodify (fun s => { s with errors :=
      s.errors ++ [⟨t.posStart, t.posEnd, "Syntax Error"⟩] }) s =
      (.ok (), { s with errors :=
        s.errors ++ [⟨t.posStart, t.posEnd, "Syntax Error"⟩] }) from
    rfl] at hrun
  simp only [] at hrun
  rcases hsync : psynchronize f [TokenType.SEMICOLON]
      { s with errors := s.errors ++
          [⟨t.posStart, t.posEnd, "Syntax Error"⟩] } with ⟨r2, s2⟩
  obtain ⟨hr2, h2tok, h2err, h2exc, h2dn, h2pos⟩ :=
    psynchronize_spec f _ _ r2 s2 (by simp only []; omega) hsync
  subst hr2
  rw [hsync] at hrun
  simp only [] at hrun
  rw [show padvance s2 = (.ok (), { s2 with pos := s2.pos + 1 }) from rfl]
    at hrun
  simp only [pthrow] at hrun
  obtain ⟨rfl, rfl⟩ := Prod.mk.injEq .. ▸ hrun
  simp only [] at h2tok h2err h2exc h2dn h2pos
  exact ⟨rfl, h2tok, by simp only []; omega, h2err, h2exc, h2dn⟩

theorem expectToken_adv_spec (f : Nat) (tt : TokenType) (b : Bool)
    (s : PState) (r : Except PErr Bool) (s' : PState)
    (hP : pInv s)
    (hside : b = true ∨ s.pos + 1 < s.tokens.length ∨ s.errors ≠ [])
    (hf : s.tokens.length - s.pos < f)
    (hrun : expectToken f tt true false b s = (r, s')) :
    (∃ t, r = .ok true ∧ s' = { s with pos := s.pos + 1 } ∧
        s.tokens.get? (s.pos + 1) = some t ∧ t.type = tt) ∨
    (r = .error .raised ∧ raisedPost s s' ∧
        s'.exceptions = s.exceptions ∧ s'.droppedNones = s.droppedNones) ∨
    (r = .error .crash ∧ s' = s ∧ s.tokens.length ≤ s.pos + 1 ∧
        s.errors ≠ []) := by
  rw [expectToken] at hrun
  rcases hb : b with _ | _
  all_goals subst hb
  all_goals simp only [Bool.false_or, iteFT, iteTT, itePT, pbindRun]
    at hrun
  all_goals rw [show peekToken s = (.ok (s.tokens.get? (s.pos + 1)), s)
    from rfl] at hrun
  all_goals rcases hpk : s.tokens.get? (s.pos + 1) with _ | t
  all_goals rw [hpk] at hrun
  all_goals try simp only [iteFT, iteTT, itePT] at hrun
  all_goals try rw [pbindRun] at hrun
  -- b = false, peek = none: the error token is the `None` peek: crash.
  · rw [show peekToken s = (.ok (s.tokens.get? (s.pos + 1)), s) from rfl,
      hpk] at hrun
    simp only [reportError_none_run] at hrun
    obtain ⟨rfl, rfl⟩ := Prod.mk.injEq .. ▸ hrun
    rw [List.get?_eq_none] at hpk
    refine Or.inr (Or.inr ⟨rfl, rfl, by omega, ?_⟩)
    rcases hside with h | h | h
    · exact absurd h (by simp)
    · omega
    · exact h
  -- b = false, peek = some t.
  · by_cases htt : t.type = tt
    · rw [if_pos htt] at hrun
      simp only [iteTT, itePT, pbindRun] at hrun
      rw [show padvance s = (.ok (), { s with pos := s.pos + 1 }) from
        rfl] at hrun
      simp only [ppureRun] at hrun
      obtain ⟨rfl, rfl⟩ := Prod.mk.injEq .. ▸ hrun
      exact Or.inl ⟨t, rfl, rfl, rfl, htt⟩
    · rw [if_neg htt] at hrun
      try simp only [iteFT] at hrun
      try rw [pbindRun] at hrun
      rw [show peekToken s = (.ok (s.tokens.get? (s.pos + 1)), s) from
        rfl, hpk] at hrun
      simp only [] at hrun
      rcases hre : (reportError f (some t) : PM Bool) s with ⟨r3, s3⟩
      obtain ⟨hr3, h3tok, h3pos, h3err, h3exc, h3dn⟩ :=
        reportError_some_spec f t s r3 s3 hf hre
      rw [hre] at hrun
      subst hr3
      obtain ⟨rfl, rfl⟩ := Prod.mk.injEq .. ▸ hrun
      exact Or.inr (Or.inl ⟨rfl, ⟨h3tok, h3pos, by simp [h3err]⟩,
        h3exc, h3dn⟩)
  -- b = true, peek = none: the error token is the current token.
  · rw [show currentToken s = (.ok (s.tokens.get? s.pos), s) from rfl]
      at hrun
    rcases hcur : s.tokens.get? s.pos with _ | c
    · rw [hcur] at hrun
      simp only [reportError_none_run] at hrun
      obtain ⟨rfl, rfl⟩ := Prod.mk.injEq .. ▸ hrun
      rw [List.get?_eq_none] at hcur
      exact Or.inr (Or.inr ⟨rfl, rfl, by omega, hP (by omega)⟩)
    · rw [hcur] at hrun
      simp only [] at hrun
      rcases hre : (reportError f (some c) : PM Bool) s with ⟨r3, s3⟩
      obtain ⟨hr3, h3tok, h3pos, h3err, h3exc, h3dn⟩ :=
        reportError_some_spec f c s r3 s3 hf hre
      rw [hre] at hrun
      subst hr3
      obtain ⟨rfl, rfl⟩ := Prod.mk.injEq .. ▸ hrun
      exact Or.inr (Or.inl ⟨rfl, ⟨h3tok, h3pos, by simp [h3err]⟩,
        h3exc, h3dn⟩)
  -- b = true, peek = some t.
  · by_cases htt : t.type = tt
    · rw [if_pos htt] at hrun
      simp only [iteTT, itePT, pbindRun] at hrun
      rw [show padvance s = (.ok (), { s with pos := s.pos + 1 }) from
        rfl] at hrun
      simp only [ppureRun] at hrun
      obtain ⟨rfl, rfl⟩ := Prod.mk.injEq .. ▸ hrun
      exact Or.inl ⟨t, rfl, rfl, rfl, htt⟩
    · rw [if_neg htt] at hrun
      try simp only [iteTT, itePT] at hrun
      try rw [pbindRun] at hrun
      rw [show currentToken s = (.ok (s.tokens.get? s.pos), s) from rfl]
        at hrun
      rcases hcur : s.tokens.get? s.pos with _ | c
      · rw [hcur] at hrun
        simp only [reportError_none_run] at hrun
        obtain ⟨rfl, rfl⟩ := Prod.mk.injEq .. ▸ hrun
        rw [List.get?_eq_none] at hcur
        exact Or.inr (Or.inr ⟨rfl, rfl, by omega, hP (by omega)⟩)
      · rw [hcur] at hrun
        simp only [] at hrun
        rcases hre : (reportError f (some c) : PM Bool) s with ⟨r3, s3⟩
        obtain ⟨hr3, h3tok, h3pos, h3err, h3exc, h3dn⟩ :=
          reportError_some_spec f c s r3 s3 hf hre
        rw [hre] at hrun
        subst hr3
        obtain ⟨rfl, rfl⟩ := Prod.mk.injEq .. ▸ hrun
        exact Or.inr (Or.inl ⟨rfl, ⟨h3tok, h3pos, by simp [h3err]⟩,
          h3exc, h3dn⟩)

theorem expectToken_end_spec (f : Nat) (tt : TokenType)
    (s : PState) (r : Except PErr Bool) (s' : PState)
    (hP : pInv s)
    (hf : s.tokens.length - s.pos < f)
    (hrun : expectToken f tt false true false s = (r, s')) :
    (∃ t, r = .ok true ∧ s' = s ∧ s.tokens.get? s.pos = some t ∧
        t.type = tt) ∨
    (r = .error .raised ∧ raisedPost s s' ∧
        s'.exceptions = s.exceptions ∧ s'.droppedNones = s.droppedNones) ∨
    (r = .error .crash ∧ s' = s ∧ s.tokens.length ≤ s.pos ∧
        s'.errors ≠ []) := by
  rw [expectToken] at hrun
  simp only [Bool.or_false, iteFT, iteTT, itePT, pbindRun] at hrun
  rw [show currentToken s = (.ok (s.tokens.get? s.pos), s) from rfl]
    at hrun
  rcases hcur : s.tokens.get? s.pos with _ | t
  all_goals rw [hcur] at hrun
  all_goals try simp only [iteFT, iteTT, itePT] at hrun
  all_goals try rw [pbindRun] at hrun
  · rw [show currentToken s = (.ok (s.tokens.get? s.pos), s) from rfl,
      hcur] at hrun
    simp only [reportError_none_run] at hrun
    obtain ⟨rfl, rfl⟩ := Prod.mk.injEq .. ▸ hrun
    rw [List.get?_eq_none] at hcur
    exact Or.inr (Or.inr ⟨rfl, rfl, by omega, hP (by omega)⟩)
  · by_cases htt : t.type = tt
    · rw [if_pos htt] at hrun
      simp only [iteFT, ppureRun, pbindRun] at hrun
      obtain ⟨rfl, rfl⟩ := Prod.mk.injEq .. ▸ hrun
      exact Or.inl ⟨t, rfl, rfl, rfl, htt⟩
    · rw [if_neg htt] at hrun
      try simp only [iteTT, itePT] at hrun
      try rw [pbindRun] at hrun
      rw [show currentToken s = (.ok (s.tokens.get? s.pos), s) from rfl,
        hcur] at hrun
      simp only [] at hrun
      rcases hre : (reportError f (some t) : PM Bool) s with ⟨r3, s3⟩
      obtain ⟨hr3, h3tok, h3pos, h3err, h3exc, h3dn⟩ :=
        reportError_some_spec f t s r3 s3 hf hre
      rw [hre] at hrun
      subst hr3
      obtain ⟨rfl, rfl⟩ := Prod.mk.injEq .. ▸ hrun
      exact Or.inr (Or.inl ⟨rfl, ⟨h3tok, h3pos, by simp [h3err]⟩,
        h3exc, h3dn⟩)

theorem currentTokenRun (s : PState) :
    currentToken s = (.ok (s.tokens.get? s.pos), s) := rfl

theorem peekTokenRun (s : PState) :
    peekToken s = (.ok (s.tokens.get? (s.pos + 1)), s) := rfl

theorem padvanceRun (s : PState) :
    padvance s = (.ok (), { s with pos := s.pos + 1 }) := rfl

theorem currentBangRun (s : PState) :
    currentBang s =
      match s.tokens.get? s.pos with
      | some t => (.ok t, s)
      | none => (.error .crash, s) := by
  rcases h : s.tokens.get? s.pos with _ | t <;>
    rw [currentBang, pbindRun, currentTokenRun, h] <;> rfl

theorem peekTokenIsAssignmentRun (s : PState) :
    peekTokenIsAssignment s =
      (.ok (match s.tokens.get? (s.pos + 1) with
            | some t => isAssignOp t.type
            | none => false), s) := by
  rcases h : s.tokens.get? (s.pos + 1) with _ | t <;>
    rw [peekTokenIsAssignment, pbindRun, peekTokenRun, h] <;> rfl

theorem hasPrefixFn_ne_eof {t : TokenType} (h : hasPrefixFn t = true) :
    t ≠ TokenType.EOF := by
  cases t <;> simp_all [hasPrefixFn]

theorem hasInfixFn_ne_eof {t : TokenType} (h : hasInfixFn t = true) :
    t ≠ TokenType.EOF := by
  cases t <;> simp_all [hasInfixFn]

theorem isAssignOp_ne_eof {t : TokenType} (h : isAssignOp t = true) :
    t ≠ TokenType.EOF := by
  cases t <;> simp_all [isAssignOp]

theorem okPost_refl (s : PState) (hP : pInv s) : okPost s s :=
  ⟨rfl, Nat.le_refl _, fun h => h, hP, fun h => h⟩

theorem okPost_trans {s1 s2 s3 : PState} (h12 : okPost s1 s2)
    (h23 : okPost s2 s3) : okPost s1 s3 := by
  obtain ⟨ht12, hp12, he12, hi12, hq12⟩ := h12
  obtain ⟨ht23, hp23, he23, hi23, hq23⟩ := h23
  exact ⟨ht23.trans ht12, hp12.trans hp23, fun h => he23 (he12 h), hi23,
    fun h => hq23 (hq12 h)⟩

theorem okPost_raised {s1 s2 s3 : PState} (h12 : okPost s1 s2)
    (h23 : raisedPost s2 s3) : raisedPost s1 s3 := by
  obtain ⟨ht12, hp12, _, _, _⟩ := h12
  obtain ⟨ht23, hp23, he23⟩ := h23
  exact ⟨ht23.trans ht12, by omega, he23⟩

theorem okPost_crash {s1 s2 s3 : PState} (h12 : okPost s1 s2)
    (h23 : crashPost s2 s3) : crashPost s1 s3 := by
  obtain ⟨ht12, hp12, _, _, _⟩ := h12
  obtain ⟨ht23, hp23, hl23, he23⟩ := h23
  refine ⟨ht23.trans ht12, by omega, ?_, he23⟩
  rw [ht12] at hl23
  exact hl23

theorem okPost_step {s : PState} {t : Tok}
    (h : s.tokens.get? (s.pos + 1) = some t) :
    okPost s { s with pos := s.pos + 1 } := by
  have hlt := get_lt_of_some h
  exact ⟨rfl, by simp, fun h => h,
    fun hc => by simp only [] at hc; omega, fun h => h⟩

theorem pInv_errs {s' : PState} (h : s'.errors ≠ []) : pInv s' :=
  fun _ => h

theorem stepParseExpression (f : Nat) (ihIL : specInfixLoop f)
    (ihG : specParseGroupedExpression f)
    (ihPre : specParsePrefixExpression f) :
    specParseExpression (f + 1) := by
  intro prec s hE hP hcur hfuel
  obtain ⟨t, hct⟩ := hcur
  have hlt : s.pos < s.tokens.length := get_lt_of_some hct
  rw [parseExpression, pbindRun, currentBangRun, hct]
  simp only []
  by_cases hpre : hasPrefixFn t.type = true
  · rw [if_pos hpre]
    cases htt : t.type
    all_goals first
      | (rw [htt] at hpre; simp [hasPrefixFn] at hpre; done)
      | -- literal arms: the state is unchanged, continue with the loop
        ( simp only [pbindRun, ppureRun]
          exact ihIL prec _ s hE hP ⟨t, hct, by rw [htt]; decide⟩
            (by omega) )
      | -- grouped expression
        ( simp only [pbindRun]
          rcases hG2 : parseGroupedExpression f s with ⟨rg, sg⟩
          have hGspec := ihG s hE hP ⟨t, hct, by rw [htt]; decide⟩
            (by omega)
          rw [hG2] at hGspec
          cases rg with
          | error e =>
            cases e with
            | raised => exact hGspec
            | crash => exact hGspec.elim
            | noFuel => exact hGspec.elim
          | ok a =>
            obtain ⟨hok, hadv, t2, ht2, hne2⟩ := hGspec
            have hlene : sg.tokens.length = s.tokens.length := by
              rw [hok.1]
            try simp only []
            rcases hIL2 : infixLoop f prec a sg with ⟨r2, s2⟩
            have hILspec := ihIL prec a sg (by rw [hok.1]; exact hE)
              hok.2.2.2.1 ⟨t2, ht2, hne2⟩ (by omega)
            rw [hIL2] at hILspec
            cases r2 with
            | error e =>
              cases e with
              | raised => exact okPost_raised hok hILspec
              | crash => exact hILspec.elim
              | noFuel => exact hILspec.elim
            | ok a2 =>
              exact ⟨okPost_trans hok hILspec.1, hILspec.2⟩ )
      | -- prefix expression
        ( simp only [pbindRun]
          rcases hG2 : parsePrefixExpression f s with ⟨rg, sg⟩
          have hGspec := ihPre s hE hP ⟨t, hct, by rw [htt]; decide⟩
            (by omega)
          rw [hG2] at hGspec
          cases rg with
          | error e =>
            cases e with
            | raised => exact hGspec
            | crash => exact hGspec.elim
            | noFuel => exact hGspec.elim
          | ok a =>
            obtain ⟨hok, hadv, t2, ht2, hne2⟩ := hGspec
            have hlene : sg.tokens.length = s.tokens.length := by
              rw [hok.1]
            try simp only []
            rcases hIL2 : infixLoop f prec a sg with ⟨r2, s2⟩
            have hILspec := ihIL prec a sg (by rw [hok.1]; exact hE)
              hok.2.2.2.1 ⟨t2, ht2, hne2⟩ (by omega)
            rw [hIL2] at hILspec
            cases r2 with
            | error e =>
              cases e with
              | raised => exact okPost_raised hok hILspec
              | crash => exact hILspec.elim
              | noFuel => exact hILspec.elim
            | ok a2 =>
              exact ⟨okPost_trans hok hILspec.1, hILspec.2⟩ )
  · rw [if_neg hpre]
    rcases hre : (reportError f (some t) : PM (Option Expr)) s with ⟨r3, s3⟩
    obtain ⟨hr3, h3tok, h3pos, h3err, _, _⟩ :=
      reportError_some_spec f t s r3 s3 (by omega) hre
    subst hr3
    exact ⟨h3tok, h3pos, by simp [h3err]⟩

theorem stepInfixLoop (f : Nat) (ihIL : specInfixLoop f)
    (ihI : specParseInfixExpression f) (ihC : specParseCallExpression f) :
    specInfixLoop (f + 1) := by
  intro prec left s hE hP hcur hfuel
  obtain ⟨t, hct, hne⟩ := hcur
  have hlt : s.pos < s.tokens.length := get_lt_of_some hct
  rw [infixLoop, pbindRun, peekTokenRun]
  rcases hpk : s.tokens.get? (s.pos + 1) with _ | pt
  · simp only [ppureRun]
    exact ⟨okPost_refl s hP, t, hct, hne⟩
  · simp only []
    by_cases hcond : pt.type ≠ TokenType.SEMICOLON ∧ prec < precOf pt.type
    · rw [if_pos hcond]
      by_cases hinf : hasInfixFn pt.type = true
      · rw [if_pos hinf, pbindRun, padvanceRun]
        simp only [pbindRun]
        have hok1 : okPost s { s with pos := s.pos + 1 } := okPost_step hpk
        have hcur1 : ({ s with pos := s.pos + 1 } : PState).tokens.get?
            ({ s with pos := s.pos + 1 } : PState).pos = some pt := hpk
        have hne1 := hasInfixFn_ne_eof hinf
        by_cases hlp : pt.type = TokenType.LPAREN
        · rw [if_pos hlp, pbindRun]
          rcases hC2 : parseCallExpression f left
              { s with pos := s.pos + 1 } with ⟨rg, sg⟩
          have hCspec := ihC left { s with pos := s.pos + 1 } hE
            hok1.2.2.2.1 ⟨pt, hcur1, hne1⟩ (by simp only []; omega)
          rw [hC2] at hCspec
          cases rg with
          | error e =>
            cases e with
            | raised => exact okPost_raised hok1 hCspec
            | crash => exact hCspec.elim
            | noFuel => exact hCspec.elim
          | ok a2 =>
            obtain ⟨hok2, hadv2, t2, ht2, hne2⟩ := hCspec
            have hlene : sg.tokens.length = s.tokens.length := by
              rw [hok2.1]
            have hposg : s.pos + 2 ≤ sg.pos := by
              have h := hadv2
              try simp only [] at h
              omega
            try simp only []
            rcases hIL2 : infixLoop f prec a2 sg with ⟨r2, s2⟩
            have hILspec := ihIL prec a2 sg (by rw [hok2.1]; exact hE)
              hok2.2.2.2.1 ⟨t2, ht2, hne2⟩ (by omega)
            rw [hIL2] at hILspec
            have hokC := okPost_trans hok1 hok2
            cases r2 with
            | error e =>
              cases e with
              | raised => exact okPost_raised hokC hILspec
              | crash => exact hILspec.elim
              | noFuel => exact hILspec.elim
            | ok a3 =>
              exact ⟨okPost_trans hokC hILspec.1, hILspec.2⟩
        · rw [if_neg hlp, pbindRun]
          rcases hC2 : parseInfixExpression f left
              { s with pos := s.pos + 1 } with ⟨rg, sg⟩
          have hCspec := ihI left { s with pos := s.pos + 1 } hE
            hok1.2.2.2.1 ⟨pt, hcur1, hne1⟩ (by simp only []; omega)
          rw [hC2] at hCspec
          cases rg with
          | error e =>
            cases e with
            | raised => exact okPost_raised hok1 hCspec
            | crash => exact hCspec.elim
            | noFuel => exact hCspec.elim
          | ok a2 =>
            obtain ⟨hok2, hadv2, t2, ht2, hne2⟩ := hCspec
            have hlene : sg.tokens.length = s.tokens.length := by
              rw [hok2.1]
            have hposg : s.pos + 2 ≤ sg.pos := by
              have h := hadv2
              try simp only [] at h
              omega
            try simp only []
            rcases hIL2 : infixLoop f prec a2 sg with ⟨r2, s2⟩
            have hILspec := ihIL prec a2 sg (by rw [hok2.1]; exact hE)
              hok2.2.2.2.1 ⟨t2, ht2, hne2⟩ (by omega)
            rw [hIL2] at hILspec
            have hokC := okPost_trans hok1 hok2
            cases r2 with
            | error e =>
              cases e with
              | raised => exact okPost_raised hokC hILspec
              | crash => exact hILspec.elim
              | noFuel => exact hILspec.elim
            | ok a3 =>
              exact ⟨okPost_trans hokC hILspec.1, hILspec.2⟩
      · rw [if_neg hinf]
        simp only [ppureRun]
        exact ⟨okPost_refl s hP, t, hct, hne⟩
    · rw [if_neg hcond]
      simp only [ppureRun]
      exact ⟨okPost_refl s hP, t, hct, hne⟩

theorem stepParseInfixExpression (f : Nat) (ihE : specParseExpression f) :
    specParseInfixExpression (f + 1) := by
  intro left s hE hP hcur hfuel
  obtain ⟨t, hct, hne⟩ := hcur
  have hlt := get_lt_of_some hct
  have hlt2 : s.pos + 1 < s.tokens.length := endsEOF_succ_lt hE hct hne
  obtain ⟨t1, ht1⟩ := get_isSome_of_lt hlt2
  have hok1 : okPost s { s with pos := s.pos + 1 } := okPost_step ht1
  rw [parseInfixExpression, pbindRun, currentBangRun, hct]
  simp only [pbindRun, padvanceRun]
  rcases hPE : parseExpression f
      (if t.type = TokenType.POW then precOf t.type - 1 else precOf t.type)
      { s with pos := s.pos + 1 } with ⟨rg, sg⟩
  have hPEspec := ihE
    (if t.type = TokenType.POW then precOf t.type - 1 else precOf t.type)
    { s with pos := s.pos + 1 } hE hok1.2.2.2.1 ⟨t1, ht1⟩
    (by simp only []; omega)
  rw [hPE] at hPEspec
  cases rg with
  | error e =>
    cases e with
    | raised => exact okPost_raised hok1 hPEspec
    | crash => exact hPEspec.elim
    | noFuel => exact hPEspec.elim
  | ok right =>
    simp only [ppureRun]
    obtain ⟨hok2, t2, ht2, hne2⟩ := hPEspec
    have hpos1 : ({ s with pos := s.pos + 1 } : PState).pos ≤ sg.pos :=
      hok2.2.1
    refine ⟨okPost_trans hok1 hok2, ?_, t2, ht2, hne2⟩
    simp only [] at hpos1
    omega

theorem stepParsePrefixExpression (f : Nat) (ihE : specParseExpression f) :
    specParsePrefixExpression (f + 1) := by
  intro s hE hP hcur hfuel
  obtain ⟨t, hct, hne⟩ := hcur
  have hlt := get_lt_of_some hct
  have hlt2 : s.pos + 1 < s.tokens.length := endsEOF_succ_lt hE hct hne
  obtain ⟨t1, ht1⟩ := get_isSome_of_lt hlt2
  have hok1 : okPost s { s with pos := s.pos + 1 } := okPost_step ht1
  rw [parsePrefixExpression, pbindRun, currentBangRun, hct]
  simp only [pbindRun, padvanceRun]
  rcases hPE : parseExpression f 6 { s with pos := s.pos + 1 }
    with ⟨rg, sg⟩
  have hPEspec := ihE 6 { s with pos := s.pos + 1 } hE hok1.2.2.2.1
    ⟨t1, ht1⟩ (by simp only []; omega)
  rw [hPE] at hPEspec
  cases rg with
  | error e =>
    cases e with
    | raised => exact okPost_raised hok1 hPEspec
    | crash => exact hPEspec.elim
    | noFuel => exact hPEspec.elim
  | ok right =>
    simp only [ppureRun]
    obtain ⟨hok2, t2, ht2, hne2⟩ := hPEspec
    have hpos1 : ({ s with pos := s.pos + 1 } : PState).pos ≤ sg.pos :=
      hok2.2.1
    refine ⟨okPost_trans hok1 hok2, ?_, t2, ht2, hne2⟩
    simp only [] at hpos1
    omega

theorem stepParseGroupedExpression (f : Nat)
    (ihE : specParseExpression f) : specParseGroupedExpression (f + 1) := by
  intro s hE hP hcur hfuel
  obtain ⟨t, hct, hne⟩ := hcur
  have hlt := get_lt_of_some hct
  have hlt2 : s.pos + 1 < s.tokens.length := endsEOF_succ_lt hE hct hne
  obtain ⟨t1, ht1⟩ := get_isSome_of_lt hlt2
  have hok1 : okPost s { s with pos := s.pos + 1 } := okPost_step ht1
  rw [parseGroupedExpression, pbindRun, padvanceRun]
  simp only [pbindRun]
  rcases hPE : parseExpression f 0 { s with pos := s.pos + 1 }
    with ⟨rg, sg⟩
  have hPEspec := ihE 0 { s with pos := s.pos + 1 } hE hok1.2.2.2.1
    ⟨t1, ht1⟩ (by simp only []; omega)
  rw [hPE] at hPEspec
  cases rg with
  | error e =>
    cases e with
    | raised => exact okPost_raised hok1 hPEspec
    | crash => exact hPEspec.elim
    | noFuel => exact hPEspec.elim
  | ok e =>
    obtain ⟨hok2, t2, ht2, hne2⟩ := hPEspec
    have hokC := okPost_trans hok1 hok2
    have hE2 : endsEOF sg.tokens = true := by rw [hokC.1]; exact hE
    have hlt3 : sg.pos + 1 < sg.tokens.length :=
      endsEOF_succ_lt hE2 ht2 hne2
    have hlene : sg.tokens.length = s.tokens.length := by rw [hokC.1]
    have hposC : s.pos ≤ sg.pos := hokC.2.1
    simp only []
    rcases hXT : expectToken f TokenType.RPAREN true false true sg
      with ⟨rb, sb⟩
    rcases expectToken_adv_spec f TokenType.RPAREN true sg rb sb
        hokC.2.2.2.1 (Or.inl rfl) (by omega) hXT with
      ⟨t3, hrb, hsb, hpk3, htt3⟩ | ⟨hrb, hrp, _, _⟩ | ⟨hrb, hsb, hlen3, _⟩
    · subst hrb hsb
      simp only [iteTT, ppureRun]
      have hok3 : okPost sg { sg with pos := sg.pos + 1 } :=
        okPost_step hpk3
      refine ⟨okPost_trans hokC hok3, by simp only []; omega,
        t3, hpk3, by rw [htt3]; decide⟩
    · subst hrb
      exact okPost_raised hokC hrp
    · exfalso
      omega

theorem stepParseCallExpression (f : Nat)
    (ihEL : specParseExpressionList f) :
    specParseCallExpression (f + 1) := by
  intro function s hE hP hcur hfuel
  rw [parseCallExpression, pbindRun]
  rcases hPE : parseExpressionList f TokenType.RPAREN s with ⟨rg, sg⟩
  have hspec := ihEL TokenType.RPAREN s (by decide) hE hP hcur (by omega)
  rw [hPE] at hspec
  cases rg with
  | error e =>
    cases e with
    | raised => exact hspec
    | crash => exact hspec.elim
    | noFuel => exact hspec.elim
  | ok args =>
    simp only [ppureRun]
    exact hspec

theorem stepParseExpressionList (f : Nat) (ihE : specParseExpression f)
    (ihLL : specExprListLoop f) : specParseExpressionList (f + 1) := by
  intro endT s hendT hE hP hcur hfuel
  obtain ⟨t, hct, hne⟩ := hcur
  have hlt := get_lt_of_some hct
  have hlt2 : s.pos + 1 < s.tokens.length := endsEOF_succ_lt hE hct hne
  obtain ⟨t1, ht1⟩ := get_isSome_of_lt hlt2
  have hok1 : okPost s { s with pos := s.pos + 1 } := okPost_step ht1
  rw [parseExpressionList, pbindRun, peekTokenRun, ht1]
  simp only []
  by_cases hend : t1.type = endT
  · rw [if_pos hend]
    simp only [pbindRun, padvanceRun, ppureRun]
    exact ⟨hok1, Nat.le_refl _, t1, ht1, by rw [hend]; exact hendT⟩
  · rw [if_neg hend]
    simp only [pbindRun, padvanceRun]
    rcases hPE : parseExpression f 0 { s with pos := s.pos + 1 }
      with ⟨rg, sg⟩
    have hPEspec := ihE 0 { s with pos := s.pos + 1 } hE hok1.2.2.2.1
      ⟨t1, ht1⟩ (by simp only []; omega)
    rw [hPE] at hPEspec
    cases rg with
    | error e =>
      cases e with
      | raised => exact okPost_raised hok1 hPEspec
      | crash => exact hPEspec.elim
      | noFuel => exact hPEspec.elim
    | ok a =>
      obtain ⟨hok2, t2, ht2, hne2⟩ := hPEspec
      have hokC := okPost_trans hok1 hok2
      have hE2 : endsEOF sg.tokens = true := by rw [hokC.1]; exact hE
      have hlene : sg.tokens.length = s.tokens.length := by rw [hokC.1]
      have hpos1 : s.pos + 1 ≤ sg.pos := by
        have h := hok2.2.1
        try simp only [] at h
        omega
      simp only []
      rcases hLL : exprListLoop f [a] sg with ⟨r2, s2⟩
      have hLLspec := ihLL [a] sg hE2 hokC.2.2.2.1 ⟨t2, ht2, hne2⟩
        (by omega)
      rw [hLL] at hLLspec
      cases r2 with
      | error e =>
        cases e with
        | raised => exact okPost_raised hokC hLLspec
        | crash => exact hLLspec.elim
        | noFuel => exact hLLspec.elim
      | ok args =>
        obtain ⟨hok3, t3, ht3, hne3⟩ := hLLspec
        have hokC2 := okPost_trans hokC hok3
        have hpos2 : sg.pos ≤ s2.pos := hok3.2.1
        have hlene2 : s2.tokens.length = s.tokens.length := by
          rw [hokC2.1]
        have hE3 : endsEOF s2.tokens = true := by rw [hokC2.1]; exact hE
        simp only []
        rcases hXT : expectToken f endT true false true s2 with ⟨rb, sb⟩
        rcases expectToken_adv_spec f endT true s2 rb sb hokC2.2.2.2.1
            (Or.inl rfl) (by omega) hXT with
          ⟨t4, hrb, hsb, hpk4, htt4⟩ | ⟨hrb, hrp, _, _⟩ |
          ⟨hrb, hsb, hlen4, _⟩
        · subst hrb hsb
          simp only [iteTT, ppureRun]
          refine ⟨okPost_trans hokC2 (okPost_step hpk4),
            by simp only []; omega, t4, hpk4, by rw [htt4]; exact hendT⟩
        · subst hrb
          exact okPost_raised hokC2 hrp
        · exfalso
          have hx : s2.pos + 1 < s2.tokens.length :=
            endsEOF_succ_lt hE3 ht3 hne3
          omega

theorem stepExprListLoop (f : Nat) (ihE : specParseExpression f)
    (ihLL : specExprListLoop f) : specExprListLoop (f + 1) := by
  intro acc s hE hP hcur hfuel
  obtain ⟨t, hct, hne⟩ := hcur
  have hlt := get_lt_of_some hct
  rw [exprListLoop, pbindRun, peekTokenRun]
  rcases hpk : s.tokens.get? (s.pos + 1) with _ | pt
  · simp only [ppureRun]
    exact ⟨okPost_refl s hP, t, hct, hne⟩
  · simp only []
    by_cases hcomma : pt.type = TokenType.COMMA
    · rw [if_pos hcomma]
      have hnec : pt.type ≠ TokenType.EOF := by rw [hcomma]; decide
      have hlt2 : s.pos + 1 + 1 < s.tokens.length :=
        endsEOF_succ_lt hE hpk hnec
      obtain ⟨t2, ht2⟩ := get_isSome_of_lt hlt2
      have hok1 : okPost s { s with pos := s.pos + 1 } := okPost_step hpk
      have hok2 : okPost { s with pos := s.pos + 1 }
          { s with pos := s.pos + 1 + 1 } := okPost_step ht2
      have hokB := okPost_trans hok1 hok2
      simp only [pbindRun, padvanceRun]
      rcases hPE : parseExpression f 0 { s with pos := s.pos + 1 + 1 }
        with ⟨rg, sg⟩
      have hPEspec := ihE 0 { s with pos := s.pos + 1 + 1 } hE
        hokB.2.2.2.1 ⟨t2, ht2⟩ (by simp only []; omega)
      rw [hPE] at hPEspec
      cases rg with
      | error e =>
        cases e with
        | raised => exact okPost_raised hokB hPEspec
        | crash => exact hPEspec.elim
        | noFuel => exact hPEspec.elim
      | ok a =>
        obtain ⟨hok3, t3, ht3, hne3⟩ := hPEspec
        have hokC := okPost_trans hokB hok3
        have hE2 : endsEOF sg.tokens = true := by rw [hokC.1]; exact hE
        have hlene : sg.tokens.length = s.tokens.length := by rw [hokC.1]
        have hpos1 : s.pos + 2 ≤ sg.pos := by
          have h := hok3.2.1
          try simp only [] at h
          omega
        simp only []
        rcases hLL : exprListLoop f (acc ++ [a]) sg with ⟨r2, s2⟩
        have hLLspec := ihLL (acc ++ [a]) sg hE2 hokC.2.2.2.1
          ⟨t3, ht3, hne3⟩ (by omega)
        rw [hLL] at hLLspec
        cases r2 with
        | error e =>
          cases e with
          | raised => exact okPost_raised hokC hLLspec
          | crash => exact hLLspec.elim
          | noFuel => exact hLLspec.elim
        | ok args =>
          exact ⟨okPost_trans hokC hLLspec.1, hLLspec.2⟩
    · rw [if_neg hcomma]
      simp only [ppureRun]
      exact ⟨okPost_refl s hP, t, hct, hne⟩

theorem iteNTT {α : Type} (a b : α) :
    (if ¬ (true = true) then a else b) = b := rfl

theorem iteNPT {α : Type} (a b : α) : (if ¬ True then a else b) = b := rfl

theorem stepParseBreakStatement (f : Nat) :
    specParseBreakStatement (f + 1) := by
  intro s hE hP hcur hfuel
  obtain ⟨t, hct, hne⟩ := hcur
  have hlt := get_lt_of_some hct
  have hlt2 : s.pos + 1 < s.tokens.length := endsEOF_succ_lt hE hct hne
  rw [parseBreakStatement, expectSemicolon, pbindRun]
  rcases hXT : expectToken f TokenType.SEMICOLON true false true s
    with ⟨rb, sb⟩
  rcases expectToken_adv_spec f TokenType.SEMICOLON true s rb sb hP
      (Or.inl rfl) (by omega) hXT with
    ⟨t1, hrb, hsb, hpk1, htt1⟩ | ⟨hrb, hrp, _, _⟩ | ⟨hrb, hsb, hlen1, _⟩
  · subst hrb hsb
    simp only [iteTT, ppureRun]
    exact ⟨okPost_step hpk1, rfl, t1, hpk1, by rw [htt1]; decide⟩
  · subst hrb
    exact hrp
  · exfalso
    omega

theorem stepParseContinueStatement (f : Nat) :
    specParseContinueStatement (f + 1) := by
  intro s hE hP hcur hfuel
  obtain ⟨t, hct, hne⟩ := hcur
  have hlt := get_lt_of_some hct
  have hlt2 : s.pos + 1 < s.tokens.length := endsEOF_succ_lt hE hct hne
  rw [parseContinueStatement, expectSemicolon, pbindRun]
  rcases hXT : expectToken f TokenType.SEMICOLON true false true s
    with ⟨rb, sb⟩
  rcases expectToken_adv_spec f TokenType.SEMICOLON true s rb sb hP
      (Or.inl rfl) (by omega) hXT with
    ⟨t1, hrb, hsb, hpk1, htt1⟩ | ⟨hrb, hrp, _, _⟩ | ⟨hrb, hsb, hlen1, _⟩
  · subst hrb hsb
    simp only [iteTT, ppureRun]
    exact ⟨okPost_step hpk1, rfl, t1, hpk1, by rw [htt1]; decide⟩
  · subst hrb
    exact hrp
  · exfalso
    omega

theorem stepParseExpressionStatement (f : Nat)
    (ihE : specParseExpression f) :
    specParseExpressionStatement (f + 1) := by
  intro s hE hP hcur hfuel
  obtain ⟨t, hct⟩ := hcur
  have hlt := get_lt_of_some hct
  rw [parseExpressionStatement, pbindRun]
  rcases hPE : parseExpression f 0 s with ⟨rg, sg⟩
  have hPEspec := ihE 0 s hE hP ⟨t, hct⟩ (by omega)
  rw [hPE] at hPEspec
  cases rg with
  | error e =>
    cases e with
    | raised => exact hPEspec
    | crash => exact hPEspec.elim
    | noFuel => exact hPEspec.elim
  | ok e =>
    obtain ⟨hok2, t2, ht2, hne2⟩ := hPEspec
    have hE2 : endsEOF sg.tokens = true := by rw [hok2.1]; exact hE
    have hlene : sg.tokens.length = s.tokens.length := by rw [hok2.1]
    have hpos2 : s.pos ≤ sg.pos := hok2.2.1
    have hlt3 : sg.pos + 1 < sg.tokens.length :=
      endsEOF_succ_lt hE2 ht2 hne2
    simp only [pbindRun, expectSemicolon]
    rcases hXT : expectToken f TokenType.SEMICOLON true false true sg
      with ⟨rb, sb⟩
    rcases expectToken_adv_spec f TokenType.SEMICOLON true sg rb sb
        hok2.2.2.2.1 (Or.inl rfl) (by omega) hXT with
      ⟨t1, hrb, hsb, hpk1, htt1⟩ | ⟨hrb, hrp, _, _⟩ | ⟨hrb, hsb, hlen1, _⟩
    · subst hrb hsb
      simp only [iteTT, ppureRun]
      exact ⟨okPost_trans hok2 (okPost_step hpk1), rfl, t1, hpk1,
        by rw [htt1]; decide⟩
    · subst hrb
      exact okPost_raised hok2 hrp
    · exfalso
      omega

theorem stepParseReturnStatement (f : Nat)
    (ihE : specParseExpression f) :
    specParseReturnStatement (f + 1) := by
  intro s hE hP hcur hfuel
  obtain ⟨t, hct, hne⟩ := hcur
  have hlt := get_lt_of_some hct
  have hlt2 : s.pos + 1 < s.tokens.length := endsEOF_succ_lt hE hct hne
  obtain ⟨t1, ht1⟩ := get_isSome_of_lt hlt2
  have hok1 : okPost s { s with pos := s.pos + 1 } := okPost_step ht1
  rw [parseReturnStatement, pbindRun, padvanceRun]
  simp only [pbindRun]
  rcases hPE : parseExpression f 0 { s with pos := s.pos + 1 }
    with ⟨rg, sg⟩
  have hPEspec := ihE 0 { s with pos := s.pos + 1 } hE hok1.2.2.2.1
    ⟨t1, ht1⟩ (by simp only []; omega)
  rw [hPE] at hPEspec
  cases rg with
  | error e =>
    cases e with
    | raised => exact okPost_raised hok1 hPEspec
    | crash => exact hPEspec.elim
    | noFuel => exact hPEspec.elim
  | ok v =>
    obtain ⟨hok2, t2, ht2, hne2⟩ := hPEspec
    have hokC := okPost_trans hok1 hok2
    have hE2 : endsEOF sg.tokens = true := by rw [hokC.1]; exact hE
    have hlene : sg.tokens.length = s.tokens.length := by rw [hokC.1]
    have hpos2 : s.pos ≤ sg.pos := hokC.2.1
    have hlt3 : sg.pos + 1 < sg.tokens.length :=
      endsEOF_succ_lt hE2 ht2 hne2
    simp only [pbindRun, expectSemicolon]
    rcases hXT : expectToken f TokenType.SEMICOLON true false true sg
      with ⟨rb, sb⟩
    rcases expectToken_adv_spec f TokenType.SEMICOLON true sg rb sb
        hokC.2.2.2.1 (Or.inl rfl) (by omega) hXT with
      ⟨t3, hrb, hsb, hpk3, htt3⟩ | ⟨hrb, hrp, _, _⟩ | ⟨hrb, hsb, hlen1, _⟩
    · subst hrb hsb
      simp only [iteTT, ppureRun]
      exact ⟨okPost_trans hokC (okPost_step hpk3), rfl, t3, hpk3,
        by rw [htt3]; decide⟩
    · subst hrb
      exact okPost_raised hokC hrp
    · exfalso
      omega

theorem stepParseImportStatement (f : Nat) :
    specParseImportStatement (f + 1) := by
  intro s hE hP hcur hfuel
  obtain ⟨t, hct, hne⟩ := hcur
  have hlt := get_lt_of_some hct
  have hlt2 : s.pos + 1 < s.tokens.length := endsEOF_succ_lt hE hct hne
  rw [parseImportStatement, pbindRun]
  rcases hXT : expectToken f TokenType.STRING true false false s
    with ⟨rb, sb⟩
  rcases expectToken_adv_spec f TokenType.STRING false s rb sb hP
      (Or.inr (Or.inl hlt2)) (by omega) hXT with
    ⟨t1, hrb, hsb, hpk1, htt1⟩ | ⟨hrb, hrp, _, _⟩ | ⟨hrb, hsb, hlen1, _⟩
  · subst hrb hsb
    simp only [iteNTT, iteNPT, pbindRun, currentBangRun]
    try simp only []
    rw [hpk1]
    simp only [pbindRun, expectSemicolon]
    have hok1 : okPost s { s with pos := s.pos + 1 } := okPost_step hpk1
    have hlt3 : s.pos + 1 + 1 < s.tokens.length :=
      endsEOF_succ_lt hE hpk1 (by rw [htt1]; decide)
    rcases hXT2 : expectToken f TokenType.SEMICOLON true false true
        { s with pos := s.pos + 1 } with ⟨rb2, sb2⟩
    rcases expectToken_adv_spec f TokenType.SEMICOLON true
        { s with pos := s.pos + 1 } rb2 sb2 hok1.2.2.2.1 (Or.inl rfl)
        (by simp only []; omega) hXT2 with
      ⟨t2, hrb2, hsb2, hpk2, htt2⟩ | ⟨hrb2, hrp2, _, _⟩ |
      ⟨hrb2, hsb2, hlen2, _⟩
    · subst hrb2 hsb2
      simp only [iteTT, ppureRun]
      exact ⟨okPost_trans hok1 (okPost_step hpk2), rfl, t2, hpk2,
        by rw [htt2]; decide⟩
    · subst hrb2
      exact okPost_raised hok1 hrp2
    · exfalso
      simp only [] at hlen2
      omega
  · subst hrb
    exact hrp
  · exfalso
    omega

theorem stepParseAssignmentStatement (f : Nat)
    (ihE : specParseExpression f) :
    specParseAssignmentStatement (f + 1) := by
  intro s hE hP hcur hpeek hfuel
  obtain ⟨t, hct, hne⟩ := hcur
  obtain ⟨pt, hpk, hnep⟩ := hpeek
  have hlt := get_lt_of_some hct
  have hlt2 : s.pos + 1 < s.tokens.length := endsEOF_succ_lt hE hct hne
  have hlt3 : s.pos + 1 + 1 < s.tokens.length :=
    endsEOF_succ_lt hE hpk hnep
  obtain ⟨t2, ht2⟩ := get_isSome_of_lt hlt3
  have hok1 : okPost s { s with pos := s.pos + 1 } := okPost_step hpk
  have hok2 : okPost { s with pos := s.pos + 1 }
      { s with pos := s.pos + 1 + 1 } := okPost_step ht2
  have hokB := okPost_trans hok1 hok2
  rw [parseAssignmentStatement, pbindRun, currentBangRun, hct]
  simp only [pbindRun, padvanceRun, currentBangRun]
  try simp only []
  rw [hpk]
  simp only [pbindRun, padvanceRun]
  try simp only []
  rcases hPE : parseExpression f 0 { s with pos := s.pos + 1 + 1 }
    with ⟨rg, sg⟩
  have hPEspec := ihE 0 { s with pos := s.pos + 1 + 1 } hE hokB.2.2.2.1
    ⟨t2, ht2⟩ (by simp only []; omega)
  rw [hPE] at hPEspec
  cases rg with
  | error e =>
    cases e with
    | raised => exact okPost_raised hokB hPEspec
    | crash => exact hPEspec.elim
    | noFuel => exact hPEspec.elim
  | ok right =>
    obtain ⟨hok3, t3, ht3, hne3⟩ := hPEspec
    have hokC := okPost_trans hokB hok3
    have hE2 : endsEOF sg.tokens = true := by rw [hokC.1]; exact hE
    have hlene : sg.tokens.length = s.tokens.length := by rw [hokC.1]
    have hpos2 : s.pos ≤ sg.pos := hokC.2.1
    have hlt4 : sg.pos + 1 < sg.tokens.length :=
      endsEOF_succ_lt hE2 ht3 hne3
    simp only [pbindRun, expectSemicolon]
    rcases hXT : expectToken f TokenType.SEMICOLON true false true sg
      with ⟨rb, sb⟩
    rcases expectToken_adv_spec f TokenType.SEMICOLON true sg rb sb
        hokC.2.2.2.1 (Or.inl rfl) (by omega) hXT with
      ⟨t4, hrb, hsb, hpk4, htt4⟩ | ⟨hrb, hrp, _, _⟩ | ⟨hrb, hsb, hlen1, _⟩
    · subst hrb hsb
      simp only [iteTT, ppureRun]
      exact ⟨okPost_trans hokC (okPost_step hpk4), rfl, t4, hpk4,
        by rw [htt4]; decide⟩
    · subst hrb
      exact okPost_raised hokC hrp
    · exfalso
      omega

theorem stepParseVarStatement (f : Nat) (ihE : specParseExpression f) :
    specParseVarStatement (f + 1) := by
  intro s hE hP hcur hfuel
  obtain ⟨t, hct, hne⟩ := hcur
  have hlt := get_lt_of_some hct
  have hlt2 : s.pos + 1 < s.tokens.length := endsEOF_succ_lt hE hct hne
  rw [parseVarStatement, pbindRun]
  rcases hX1 : expectToken f TokenType.IDENT true false false s
    with ⟨rb1, sb1⟩
  rcases expectToken_adv_spec f TokenType.IDENT false s rb1 sb1 hP
      (Or.inr (Or.inl hlt2)) (by omega) hX1 with
    ⟨t1, hrb1, hsb1, hpk1, htt1⟩ | ⟨hrb1, hrp1, _, _⟩ |
    ⟨hrb1, hsb1, hlen1, _⟩
  · subst hrb1 hsb1
    simp only [iteNTT, iteNPT, pbindRun, currentBangRun]
    try simp only []
    rw [hpk1]
    have hok1 : okPost s { s with pos := s.pos + 1 } := okPost_step hpk1
    have hne1 : t1.type ≠ TokenType.EOF := by rw [htt1]; decide
    have hlt3 : s.pos + 1 + 1 < s.tokens.length :=
      endsEOF_succ_lt hE hpk1 hne1
    simp only [pbindRun]
    rcases hX2 : expectToken f TokenType.COLON true false false
        { s with pos := s.pos + 1 } with ⟨rb2, sb2⟩
    rcases expectToken_adv_spec f TokenType.COLON false _ rb2 sb2
        hok1.2.2.2.1 (Or.inr (Or.inl (by simp only []; omega)))
        (by simp only []; omega) hX2 with
      ⟨t2, hrb2, hsb2, hpk2, htt2⟩ | ⟨hrb2, hrp2, _, _⟩ |
      ⟨hrb2, hsb2, hlen2, _⟩
    · subst hrb2 hsb2
      try simp only [iteNTT, iteNPT]
      try simp only []
      try simp only [] at hpk2
      have hok2 : okPost s { s with pos := s.pos + 1 + 1 } :=
        okPost_trans hok1 (okPost_step hpk2)
      have hne2 : t2.type ≠ TokenType.EOF := by rw [htt2]; decide
      have hlt4 : s.pos + 1 + 1 + 1 < s.tokens.length :=
        endsEOF_succ_lt hE hpk2 hne2
      simp only [pbindRun]
      rcases hX3 : expectToken f TokenType.TYPE true false false
          { s with pos := s.pos + 1 + 1 } with ⟨rb3, sb3⟩
      rcases expectToken_adv_spec f TokenType.TYPE false _ rb3 sb3
          hok2.2.2.2.1 (Or.inr (Or.inl (by simp only []; omega)))
          (by simp only []; omega) hX3 with
        ⟨t3, hrb3, hsb3, hpk3, htt3⟩ | ⟨hrb3, hrp3, _, _⟩ |
        ⟨hrb3, hsb3, hlen3, _⟩
      · subst hrb3 hsb3
        simp only [iteNTT, iteNPT, pbindRun, currentBangRun]
        try simp only []
        try simp only [] at hpk3
        rw [hpk3]
        have hok3 : okPost s { s with pos := s.pos + 1 + 1 + 1 } :=
          okPost_trans hok2 (okPost_step hpk3)
        have hne3 : t3.type ≠ TokenType.EOF := by rw [htt3]; decide
        have hlt5 : s.pos + 1 + 1 + 1 + 1 < s.tokens.length :=
          endsEOF_succ_lt hE hpk3 hne3
        obtain ⟨pt, hpt⟩ := get_isSome_of_lt hlt5
        simp only [pbindRun, peekTokenRun]
        try simp only []
        rw [hpt]
        simp only []
        by_cases hsemi : pt.type = TokenType.SEMICOLON
        · rw [if_pos hsemi]
          simp only [pbindRun, padvanceRun, ppureRun]
          refine ⟨okPost_trans hok3 (okPost_step hpt), rfl, pt, ?_, ?_⟩
          · exact hpt
          · rw [hsemi]; decide
        · rw [if_neg hsemi]
          simp only [pbindRun]
          rcases hX4 : expectToken f TokenType.EQ true false false
              { s with pos := s.pos + 1 + 1 + 1 } with ⟨rb4, sb4⟩
          rcases expectToken_adv_spec f TokenType.EQ false _ rb4 sb4
              hok3.2.2.2.1 (Or.inr (Or.inl (by simp only []; omega)))
              (by simp only []; omega) hX4 with
            ⟨t4, hrb4, hsb4, hpk4, htt4⟩ | ⟨hrb4, hrp4, _, _⟩ |
            ⟨hrb4, hsb4, hlen4, _⟩
          · subst hrb4 hsb4
            try simp only [iteNTT, iteNPT]
            try simp only []
            try simp only [] at hpk4
            have hok4 : okPost s
                { s with pos := s.pos + 1 + 1 + 1 + 1 } :=
              okPost_trans hok3 (okPost_step hpk4)
            have hne4 : t4.type ≠ TokenType.EOF := by rw [htt4]; decide
            have hlt6 : s.pos + 1 + 1 + 1 + 1 + 1 < s.tokens.length :=
              endsEOF_succ_lt hE hpk4 hne4
            obtain ⟨t5, ht5⟩ := get_isSome_of_lt hlt6
            have hok5 : okPost s
                { s with pos := s.pos + 1 + 1 + 1 + 1 + 1 } :=
              okPost_trans hok4 (okPost_step ht5)
            simp only [pbindRun, padvanceRun]
            try simp only []
            rcases hPE : parseExpression f 0
                { s with pos := s.pos + 1 + 1 + 1 + 1 + 1 } with ⟨rg, sg⟩
            have hPEspec := ihE 0
              { s with pos := s.pos + 1 + 1 + 1 + 1 + 1 } hE
              hok5.2.2.2.1 ⟨t5, ht5⟩ (by simp only []; omega)
            rw [hPE] at hPEspec
            cases rg with
            | error e =>
              cases e with
              | raised => exact okPost_raised hok5 hPEspec
              | crash => exact hPEspec.elim
              | noFuel => exact hPEspec.elim
            | ok v =>
              obtain ⟨hok6, t6, ht6, hne6⟩ := hPEspec
              have hokC := okPost_trans hok5 hok6
              have hE2 : endsEOF sg.tokens = true := by
                rw [hokC.1]; exact hE
              have hlene : sg.tokens.length = s.tokens.length := by
                rw [hokC.1]
              have hpos2 : s.pos ≤ sg.pos := hokC.2.1
              have hlt7 : sg.pos + 1 < sg.tokens.length :=
                endsEOF_succ_lt hE2 ht6 hne6
              simp only [pbindRun, expectSemicolon]
              rcases hXT : expectToken f TokenType.SEMICOLON true false
                  true sg with ⟨rb, sb⟩
              rcases expectToken_adv_spec f TokenType.SEMICOLON true sg
                  rb sb hokC.2.2.2.1 (Or.inl rfl) (by omega) hXT with
                ⟨t7, hrb, hsb, hpk7, htt7⟩ | ⟨hrb, hrp, _, _⟩ |
                ⟨hrb, hsb, hlen7, _⟩
              · subst hrb hsb
                simp only [iteTT, ppureRun]
                exact ⟨okPost_trans hokC (okPost_step hpk7), rfl, t7,
                  hpk7, by rw [htt7]; decide⟩
              · subst hrb
                exact okPost_raised hokC hrp
              · exfalso
                omega
          · subst hrb4
            exact okPost_raised hok3 hrp4
          · exfalso
            simp only [] at hlen4
            omega
      · subst hrb3
        exact okPost_raised hok2 hrp3
      · exfalso
        simp only [] at hlen3
        omega
    · subst hrb2
      exact okPost_raised hok1 hrp2
    · exfalso
      simp only [] at hlen2
      omega
  · subst hrb1
    exact hrp1
  · exfalso
    omega

theorem pmodifyRun (g : PState → PState) (s : PState) :
    pmodify g s = (.ok (), g s) := rfl

theorem stepIfBodyLoop (f : Nat) (ihS : specParseStatement f)
    (ihIB : specIfBodyLoop f) : specIfBodyLoop (f + 1) := by
  intro acc s hE hP hfuel
  rw [ifBodyLoop, pbindRun, currentTokenRun]
  rcases hct : s.tokens.get? s.pos with _ | t
  · simp only [ppureRun]
    exact okPost_refl s hP
  · simp only []
    have hlt := get_lt_of_some hct
    by_cases hcond : t.type ≠ TokenType.ELIF ∧ t.type ≠ TokenType.ELSE ∧
        t.type ≠ TokenType.END
    · rw [if_pos hcond]
      simp only [pcatch, pbindRun]
      rcases hPS : parseStatement f s with ⟨rs1, s1⟩
      have hPSspec := ihS s hE hP ⟨t, hct⟩ (by omega)
      rw [hPS] at hPSspec
      cases rs1 with
      | ok st? =>
        obtain ⟨hok1, hsome, t1, ht1, hne1⟩ := hPSspec
        have hE1 : endsEOF s1.tokens = true := by rw [hok1.1]; exact hE
        have hlt1 : s1.pos + 1 < s1.tokens.length :=
          endsEOF_succ_lt hE1 ht1 hne1
        obtain ⟨t2, ht2⟩ := get_isSome_of_lt hlt1
        have hok2 : okPost s1 { s1 with pos := s1.pos + 1 } :=
          okPost_step ht2
        have hlen1 : s1.tokens.length = s.tokens.length := by
          rw [hok1.1]
        have hpos1 : s.pos ≤ s1.pos := hok1.2.1
        simp only [padvanceRun, pbindRun, ppureRun]
        rcases hrec : ifBodyLoop f (acc ++ [st?])
            { s1 with pos := s1.pos + 1 } with ⟨r2, s2⟩
        have hrecspec := ihIB (acc ++ [st?]) { s1 with pos := s1.pos + 1 }
          (by simp only []; rw [hok1.1]; exact hE) hok2.2.2.2.1
          (by simp only []; omega)
        rw [hrec] at hrecspec
        cases r2 with
        | ok l => exact okPost_trans (okPost_trans hok1 hok2) hrecspec
        | error e => exact hrecspec.elim
      | error e =>
        cases e with
        | raised =>
          obtain ⟨htok1, hpos1, herr1⟩ := hPSspec
          simp only [pmodifyRun, pbindRun, ppureRun]
          rcases hrec : ifBodyLoop f acc
              { s1 with exceptions := s1.exceptions + 1 } with ⟨r2, s2⟩
          have hrecspec := ihIB acc { s1 with exceptions :=
              s1.exceptions + 1 }
            (by simp only []; rw [htok1]; exact hE) (pInv_errs herr1)
            (by show 8 * (s1.tokens.length - s1.pos) + 30 ≤ f; rw [htok1]; omega)
          rw [hrec] at hrecspec
          cases r2 with
          | ok l =>
            have hmid : okPost s
                { s1 with exceptions := s1.exceptions + 1 } :=
              ⟨htok1, by show s.pos ≤ s1.pos; omega, fun _ => herr1,
                pInv_errs herr1, fun _ _ => herr1⟩
            exact okPost_trans hmid hrecspec
          | error e => exact hrecspec.elim
        | crash =>
          obtain ⟨hpp2, htok1, hpos1, hlen1, herr1⟩ := hPSspec
          simp only [pmodifyRun, pbindRun, ppureRun]
          rcases hrec : ifBodyLoop f acc
              { s1 with exceptions := s1.exceptions + 1 } with ⟨r2, s2⟩
          have hrecspec := ihIB acc { s1 with exceptions :=
              s1.exceptions + 1 }
            (by simp only []; rw [htok1]; exact hE) (pInv_errs herr1)
            (by show 8 * (s1.tokens.length - s1.pos) + 30 ≤ f; rw [htok1]; omega)
          rw [hrec] at hrecspec
          cases r2 with
          | ok l =>
            have hmid : okPost s
                { s1 with exceptions := s1.exceptions + 1 } :=
              ⟨htok1, by show s.pos ≤ s1.pos; omega, fun _ => herr1,
                pInv_errs herr1, fun _ _ => herr1⟩
            exact okPost_trans hmid hrecspec
          | error e => exact hrecspec.elim
        | noFuel => exact hPSspec.elim
    · rw [if_neg hcond]
      simp only [ppureRun]
      exact okPost_refl s hP

theorem stepElseBodyLoop (f : Nat) (ihS : specParseStatement f)
    (ihEB : specElseBodyLoop f) : specElseBodyLoop (f + 1) := by
  intro acc s hE hP hfuel
  rw [elseBodyLoop, pbindRun, currentTokenRun]
  rcases hct : s.tokens.get? s.pos with _ | t
  · simp only [ppureRun]
    exact okPost_refl s hP
  · simp only []
    have hlt := get_lt_of_some hct
    by_cases hcond : t.type ≠ TokenType.END
    · rw [if_pos hcond]
      simp only [pcatch, pbindRun]
      rcases hPS : parseStatement f s with ⟨rs1, s1⟩
      have hPSspec := ihS s hE hP ⟨t, hct⟩ (by omega)
      rw [hPS] at hPSspec
      cases rs1 with
      | ok st? =>
        obtain ⟨hok1, hsome, t1, ht1, hne1⟩ := hPSspec
        have hE1 : endsEOF s1.tokens = true := by rw [hok1.1]; exact hE
        have hlt1 : s1.pos + 1 < s1.tokens.length :=
          endsEOF_succ_lt hE1 ht1 hne1
        obtain ⟨t2, ht2⟩ := get_isSome_of_lt hlt1
        have hok2 : okPost s1 { s1 with pos := s1.pos + 1 } :=
          okPost_step ht2
        have hlen1 : s1.tokens.length = s.tokens.length := by
          rw [hok1.1]
        have hpos1 : s.pos ≤ s1.pos := hok1.2.1
        simp only [padvanceRun, pbindRun, ppureRun]
        rcases hrec : elseBodyLoop f (acc ++ [st?])
            { s1 with pos := s1.pos + 1 } with ⟨r2, s2⟩
        have hrecspec := ihEB (acc ++ [st?]) { s1 with pos := s1.pos + 1 }
          (by simp only []; rw [hok1.1]; exact hE) hok2.2.2.2.1
          (by simp only []; omega)
        rw [hrec] at hrecspec
        cases r2 with
        | ok l => exact okPost_trans (okPost_trans hok1 hok2) hrecspec
        | error e => exact hrecspec.elim
      | error e =>
        cases e with
        | raised =>
          obtain ⟨htok1, hpos1, herr1⟩ := hPSspec
          simp only [pmodifyRun, pbindRun, ppureRun]
          rcases hrec : elseBodyLoop f acc
              { s1 with exceptions := s1.exceptions + 1 } with ⟨r2, s2⟩
          have hrecspec := ihEB acc { s1 with exceptions :=
              s1.exceptions + 1 }
            (by simp only []; rw [htok1]; exact hE) (pInv_errs herr1)
            (by show 8 * (s1.tokens.length - s1.pos) + 30 ≤ f; rw [htok1]; omega)
          rw [hrec] at hrecspec
          cases r2 with
          | ok l =>
            have hmid : okPost s
                { s1 with exceptions := s1.exceptions + 1 } :=
              ⟨htok1, by show s.pos ≤ s1.pos; omega, fun _ => herr1,
                pInv_errs herr1, fun _ _ => herr1⟩
            exact okPost_trans hmid hrecspec
          | error e => exact hrecspec.elim
        | crash =>
          obtain ⟨hpp2, htok1, hpos1, hlen1, herr1⟩ := hPSspec
          simp only [pmodifyRun, pbindRun, ppureRun]
          rcases hrec : elseBodyLoop f acc
              { s1 with exceptions := s1.exceptions + 1 } with ⟨r2, s2⟩
          have hrecspec := ihEB acc { s1 with exceptions :=
              s1.exceptions + 1 }
            (by simp only []; rw [htok1]; exact hE) (pInv_errs herr1)
            (by show 8 * (s1.tokens.length - s1.pos) + 30 ≤ f; rw [htok1]; omega)
          rw [hrec] at hrecspec
          cases r2 with
          | ok l =>
            have hmid : okPost s
                { s1 with exceptions := s1.exceptions + 1 } :=
              ⟨htok1, by show s.pos ≤ s1.pos; omega, fun _ => herr1,
                pInv_errs herr1, fun _ _ => herr1⟩
            exact okPost_trans hmid hrecspec
          | error e => exact hrecspec.elim
        | noFuel => exact hPSspec.elim
    · rw [if_neg hcond]
      simp only [ppureRun]
      exact okPost_refl s hP

theorem stepWhileBodyLoop (f : Nat) (ihS : specParseStatement f)
    (ihWB : specWhileBodyLoop f) : specWhileBodyLoop (f + 1) := by
  intro acc s hE hP hfuel
  rw [whileBodyLoop, pbindRun, currentTokenRun]
  rcases hct : s.tokens.get? s.pos with _ | t
  · simp only [ppureRun]
    exact okPost_refl s hP
  · simp only []
    have hlt := get_lt_of_some hct
    by_cases hcond : t.type ≠ TokenType.END
    · rw [if_pos hcond]
      simp only [pcatch, pbindRun]
      rcases hPS : parseStatement f s with ⟨rs1, s1⟩
      have hPSspec := ihS s hE hP ⟨t, hct⟩ (by omega)
      rw [hPS] at hPSspec
      cases rs1 with
      | ok st? =>
        obtain ⟨hok1, hsome, t1, ht1, hne1⟩ := hPSspec
        have hE1 : endsEOF s1.tokens = true := by rw [hok1.1]; exact hE
        have hlt1 : s1.pos + 1 < s1.tokens.length :=
          endsEOF_succ_lt hE1 ht1 hne1
        obtain ⟨t2, ht2⟩ := get_isSome_of_lt hlt1
        have hok2 : okPost s1 { s1 with pos := s1.pos + 1 } :=
          okPost_step ht2
        have hlen1 : s1.tokens.length = s.tokens.length := by
          rw [hok1.1]
        have hpos1 : s.pos ≤ s1.pos := hok1.2.1
        simp only [padvanceRun, pbindRun, ppureRun]
        rcases hrec : whileBodyLoop f (acc ++ [st?])
            { s1 with pos := s1.pos + 1 } with ⟨r2, s2⟩
        have hrecspec := ihWB (acc ++ [st?]) { s1 with pos := s1.pos + 1 }
          (by simp only []; rw [hok1.1]; exact hE) hok2.2.2.2.1
          (by simp only []; omega)
        rw [hrec] at hrecspec
        cases r2 with
        | ok l => exact okPost_trans (okPost_trans hok1 hok2) hrecspec
        | error e => exact hrecspec.elim
      | error e =>
        cases e with
        | raised =>
          obtain ⟨htok1, hpos1, herr1⟩ := hPSspec
          simp only [pmodifyRun, pbindRun, ppureRun]
          rcases hrec : whileBodyLoop f acc
              { s1 with exceptions := s1.exceptions + 1 } with ⟨r2, s2⟩
          have hrecspec := ihWB acc { s1 with exceptions :=
              s1.exceptions + 1 }
            (by simp only []; rw [htok1]; exact hE) (pInv_errs herr1)
            (by show 8 * (s1.tokens.length - s1.pos) + 30 ≤ f; rw [htok1]; omega)
          rw [hrec] at hrecspec
          cases r2 with
          | ok l =>
            have hmid : okPost s
                { s1 with exceptions := s1.exceptions + 1 } :=
              ⟨htok1, by show s.pos ≤ s1.pos; omega, fun _ => herr1,
                pInv_errs herr1, fun _ _ => herr1⟩
            exact okPost_trans hmid hrecspec
          | error e => exact hrecspec.elim
        | crash =>
          obtain ⟨hpp2, htok1, hpos1, hlen1, herr1⟩ := hPSspec
          simp only [pmodifyRun, pbindRun, ppureRun]
          rcases hrec : whileBodyLoop f acc
              { s1 with exceptions := s1.exceptions + 1 } with ⟨r2, s2⟩
          have hrecspec := ihWB acc { s1 with exceptions :=
              s1.exceptions + 1 }
            (by simp only []; rw [htok1]; exact hE) (pInv_errs herr1)
            (by show 8 * (s1.tokens.length - s1.pos) + 30 ≤ f; rw [htok1]; omega)
          rw [hrec] at hrecspec
          cases r2 with
          | ok l =>
            have hmid : okPost s
                { s1 with exceptions := s1.exceptions + 1 } :=
              ⟨htok1, by show s.pos ≤ s1.pos; omega, fun _ => herr1,
                pInv_errs herr1, fun _ _ => herr1⟩
            exact okPost_trans hmid hrecspec
          | error e => exact hrecspec.elim
        | noFuel => exact hPSspec.elim
    · rw [if_neg hcond]
      simp only [ppureRun]
      exact okPost_refl s hP

theorem stepFuncBodyLoop (f : Nat) (ihS : specParseStatement f)
    (ihFB : specFuncBodyLoop f) : specFuncBodyLoop (f + 1) := by
  intro acc s hE hP hfuel
  rw [funcBodyLoop, pbindRun, currentTokenRun]
  rcases hct : s.tokens.get? s.pos with _ | t
  · simp only [ppureRun]
    exact okPost_refl s hP
  · simp only []
    have hlt := get_lt_of_some hct
    by_cases hcond : t.type ≠ TokenType.END ∧ t.type ≠ TokenType.EOF
    · rw [if_pos hcond]
      simp only [pcatch, pbindRun]
      rcases hPS : parseStatement f s with ⟨rs1, s1⟩
      have hPSspec := ihS s hE hP ⟨t, hct⟩ (by omega)
      rw [hPS] at hPSspec
      cases rs1 with
      | ok st? =>
        obtain ⟨hok1, hsome, t1, ht1, hne1⟩ := hPSspec
        cases st? with
        | none => simp at hsome
        | some st =>
          have hE1 : endsEOF s1.tokens = true := by rw [hok1.1]; exact hE
          have hlt1 : s1.pos + 1 < s1.tokens.length :=
            endsEOF_succ_lt hE1 ht1 hne1
          obtain ⟨t2, ht2⟩ := get_isSome_of_lt hlt1
          have hok2 : okPost s1 { s1 with pos := s1.pos + 1 } :=
            okPost_step ht2
          have hlen1 : s1.tokens.length = s.tokens.length := by
            rw [hok1.1]
          have hpos1 : s.pos ≤ s1.pos := hok1.2.1
          simp only [padvanceRun, pbindRun, ppureRun]
          rcases hrec : funcBodyLoop f (acc ++ [st])
              { s1 with pos := s1.pos + 1 } with ⟨r2, s2⟩
          have hrecspec := ihFB (acc ++ [st]) { s1 with pos := s1.pos + 1 }
            (by simp only []; rw [hok1.1]; exact hE) hok2.2.2.2.1
            (by simp only []; omega)
          rw [hrec] at hrecspec
          cases r2 with
          | ok l => exact okPost_trans (okPost_trans hok1 hok2) hrecspec
          | error e => exact hrecspec.elim
      | error e =>
        cases e with
        | raised =>
          obtain ⟨htok1, hpos1, herr1⟩ := hPSspec
          simp only [pmodifyRun, pbindRun, ppureRun]
          rcases hrec : funcBodyLoop f acc
              { s1 with exceptions := s1.exceptions + 1 } with ⟨r2, s2⟩
          have hrecspec := ihFB acc { s1 with exceptions :=
              s1.exceptions + 1 }
            (by simp only []; rw [htok1]; exact hE) (pInv_errs herr1)
            (by show 8 * (s1.tokens.length - s1.pos) + 30 ≤ f;
                rw [htok1]; omega)
          rw [hrec] at hrecspec
          cases r2 with
          | ok l =>
            have hmid : okPost s
                { s1 with exceptions := s1.exceptions + 1 } :=
              ⟨htok1, by show s.pos ≤ s1.pos; omega, fun _ => herr1,
                pInv_errs herr1, fun _ _ => herr1⟩
            exact okPost_trans hmid hrecspec
          | error e => exact hrecspec.elim
        | crash =>
          obtain ⟨hpp2, htok1, hpos1, hlen1, herr1⟩ := hPSspec
          simp only [pmodifyRun, pbindRun, ppureRun]
          rcases hrec : funcBodyLoop f acc
              { s1 with exceptions := s1.exceptions + 1 } with ⟨r2, s2⟩
          have hrecspec := ihFB acc { s1 with exceptions :=
              s1.exceptions + 1 }
            (by simp only []; rw [htok1]; exact hE) (pInv_errs herr1)
            (by show 8 * (s1.tokens.length - s1.pos) + 30 ≤ f;
                rw [htok1]; omega)
          rw [hrec] at hrecspec
          cases r2 with
          | ok l =>
            have hmid : okPost s
                { s1 with exceptions := s1.exceptions + 1 } :=
              ⟨htok1, by show s.pos ≤ s1.pos; omega, fun _ => herr1,
                pInv_errs herr1, fun _ _ => herr1⟩
            exact okPost_trans hmid hrecspec
          | error e => exact hrecspec.elim
        | noFuel => exact hPSspec.elim
    · rw [if_neg hcond]
      simp only [ppureRun]
      exact okPost_refl s hP

theorem stepParseProgramLoop (f : Nat) (ihS : specParseStatement f)
    (ihPL : specParseProgramLoop f) : specParseProgramLoop (f + 1) := by
  intro acc s hE hP hfuel
  rw [parseProgramLoop, pbindRun, currentTokenRun]
  rcases hct : s.tokens.get? s.pos with _ | t
  · simp only [ppureRun]
    exact okPost_refl s hP
  · simp only []
    have hlt := get_lt_of_some hct
    by_cases heof : t.type = TokenType.EOF
    · rw [if_pos heof]
      simp only [ppureRun]
      exact okPost_refl s hP
    · rw [if_neg heof]
      simp only [pcatch, pbindRun]
      rcases hPS : parseStatement f s with ⟨rs1, s1⟩
      have hPSspec := ihS s hE hP ⟨t, hct⟩ (by omega)
      rw [hPS] at hPSspec
      cases rs1 with
      | ok st? =>
        obtain ⟨hok1, hsome, t1, ht1, hne1⟩ := hPSspec
        cases st? with
        | none => simp at hsome
        | some st =>
          have hE1 : endsEOF s1.tokens = true := by rw [hok1.1]; exact hE
          have hlt1 : s1.pos + 1 < s1.tokens.length :=
            endsEOF_succ_lt hE1 ht1 hne1
          obtain ⟨t2, ht2⟩ := get_isSome_of_lt hlt1
          have hok2 : okPost s1 { s1 with pos := s1.pos + 1 } :=
            okPost_step ht2
          have hlen1 : s1.tokens.length = s.tokens.length := by
            rw [hok1.1]
          have hpos1 : s.pos ≤ s1.pos := hok1.2.1
          simp only [ppureRun, pbindRun, padvanceRun]
          rcases hrec : parseProgramLoop f (acc ++ [st])
              { s1 with pos := s1.pos + 1 } with ⟨r2, s2⟩
          have hrecspec := ihPL (acc ++ [st]) { s1 with pos := s1.pos + 1 }
            (by simp only []; rw [hok1.1]; exact hE) hok2.2.2.2.1
            (by simp only []; omega)
          rw [hrec] at hrecspec
          cases r2 with
          | ok l => exact okPost_trans (okPost_trans hok1 hok2) hrecspec
          | error e => exact hrecspec.elim
      | error e =>
        cases e with
        | raised =>
          obtain ⟨htok1, hpos1, herr1⟩ := hPSspec
          simp only [pmodifyRun, pbindRun, ppureRun]
          rcases hrec : parseProgramLoop f acc
              { s1 with exceptions := s1.exceptions + 1 } with ⟨r2, s2⟩
          have hrecspec := ihPL acc { s1 with exceptions :=
              s1.exceptions + 1 }
            (by simp only []; rw [htok1]; exact hE) (pInv_errs herr1)
            (by show 8 * (s1.tokens.length - s1.pos) + 40 ≤ f;
                rw [htok1]; omega)
          rw [hrec] at hrecspec
          cases r2 with
          | ok l =>
            have hmid : okPost s
                { s1 with exceptions := s1.exceptions + 1 } :=
              ⟨htok1, by show s.pos ≤ s1.pos; omega, fun _ => herr1,
                pInv_errs herr1, fun _ _ => herr1⟩
            exact okPost_trans hmid hrecspec
          | error e => exact hrecspec.elim
        | crash =>
          obtain ⟨hpp2, htok1, hpos1, hlen1, herr1⟩ := hPSspec
          simp only [pmodifyRun, pbindRun, ppureRun]
          rcases hrec : parseProgramLoop f acc
              { s1 with exceptions := s1.exceptions + 1 } with ⟨r2, s2⟩
          have hrecspec := ihPL acc { s1 with exceptions :=
              s1.exceptions + 1 }
            (by simp only []; rw [htok1]; exact hE) (pInv_errs herr1)
            (by show 8 * (s1.tokens.length - s1.pos) + 40 ≤ f;
                rw [htok1]; omega)
          rw [hrec] at hrecspec
          cases r2 with
          | ok l =>
            have hmid : okPost s
                { s1 with exceptions := s1.exceptions + 1 } :=
              ⟨htok1, by show s.pos ≤ s1.pos; omega, fun _ => herr1,
                pInv_errs herr1, fun _ _ => herr1⟩
            exact okPost_trans hmid hrecspec
          | error e => exact hrecspec.elim
        | noFuel => exact hPSspec.elim

theorem stepParamLoop (f : Nat) (ihPL : specParamLoop f) :
    specParamLoop (f + 1) := by
  intro acc s hE hP hcur hfuel
  obtain ⟨t, hct, hne⟩ := hcur
  have hlt := get_lt_of_some hct
  have hlt2 : s.pos + 1 < s.tokens.length := endsEOF_succ_lt hE hct hne
  obtain ⟨pt, hpt⟩ := get_isSome_of_lt hlt2
  rw [paramLoop, pbindRun, peekTokenRun, hpt]
  simp only []
  by_cases hcomma : pt.type = TokenType.COMMA
  · rw [if_pos hcomma]
    have hnep : pt.type ≠ TokenType.EOF := by rw [hcomma]; decide
    have hok1 : okPost s { s with pos := s.pos + 1 } := okPost_step hpt
    have hlt3 : s.pos + 1 + 1 < s.tokens.length :=
      endsEOF_succ_lt hE hpt hnep
    simp only [pbindRun, padvanceRun]
    try simp only []
    rcases hX1 : expectToken f TokenType.IDENT true false true
        { s with pos := s.pos + 1 } with ⟨rb1, sb1⟩
    rcases expectToken_adv_spec f TokenType.IDENT true _ rb1 sb1
        hok1.2.2.2.1 (Or.inl rfl) (by simp only []; omega) hX1 with
      ⟨t1, hrb1, hsb1, hpk1, htt1⟩ | ⟨hrb1, hrp1, _, _⟩ |
      ⟨hrb1, hsb1, hlen1, _⟩
    · subst hrb1 hsb1
      simp only [iteNTT, iteNPT, pbindRun, currentBangRun]
      try simp only []
      try simp only [] at hpk1
      rw [hpk1]
      have hok2 : okPost s { s with pos := s.pos + 1 + 1 } :=
        okPost_trans hok1 (okPost_step hpk1)
      have hne1 : t1.type ≠ TokenType.EOF := by rw [htt1]; decide
      have hlt4 : s.pos + 1 + 1 + 1 < s.tokens.length :=
        endsEOF_succ_lt hE hpk1 hne1
      simp only [pbindRun]
      rcases hX2 : expectToken f TokenType.COLON true false true
          { s with pos := s.pos + 1 + 1 } with ⟨rb2, sb2⟩
      rcases expectToken_adv_spec f TokenType.COLON true _ rb2 sb2
          hok2.2.2.2.1 (Or.inl rfl) (by simp only []; omega) hX2 with
        ⟨t2, hrb2, hsb2, hpk2, htt2⟩ | ⟨hrb2, hrp2, _, _⟩ |
        ⟨hrb2, hsb2, hlen2, _⟩
      · subst hrb2 hsb2
        try simp only [iteNTT, iteNPT]
        try simp only []
        try simp only [] at hpk2
        have hok3 : okPost s { s with pos := s.pos + 1 + 1 + 1 } :=
          okPost_trans hok2 (okPost_step hpk2)
        have hne2 : t2.type ≠ TokenType.EOF := by rw [htt2]; decide
        have hlt5 : s.pos + 1 + 1 + 1 + 1 < s.tokens.length :=
          endsEOF_succ_lt hE hpk2 hne2
        simp only [pbindRun]
        rcases hX3 : expectToken f TokenType.TYPE true false true
            { s with pos := s.pos + 1 + 1 + 1 } with ⟨rb3, sb3⟩
        rcases expectToken_adv_spec f TokenType.TYPE true _ rb3 sb3
            hok3.2.2.2.1 (Or.inl rfl) (by simp only []; omega) hX3 with
          ⟨t3, hrb3, hsb3, hpk3, htt3⟩ | ⟨hrb3, hrp3, _, _⟩ |
          ⟨hrb3, hsb3, hlen3, _⟩
        · subst hrb3 hsb3
          simp only [iteNTT, iteNPT, pbindRun, currentBangRun]
          try simp only []
          try simp only [] at hpk3
          rw [hpk3]
          have hok4 : okPost s { s with pos := s.pos + 1 + 1 + 1 + 1 } :=
            okPost_trans hok3 (okPost_step hpk3)
          have hne3 : t3.type ≠ TokenType.EOF := by rw [htt3]; decide
          simp only []
          rcases hrec : paramLoop f
              (acc ++ [⟨litStr t1.lit, some (litStr t3.lit)⟩])
              { s with pos := s.pos + 1 + 1 + 1 + 1 } with ⟨r2, s2⟩
          have hrecspec := ihPL
            (acc ++ [⟨litStr t1.lit, some (litStr t3.lit)⟩])
            { s with pos := s.pos + 1 + 1 + 1 + 1 } hE hok4.2.2.2.1
            ⟨t3, hpk3, hne3⟩ (by simp only []; omega)
          rw [hrec] at hrecspec
          try rw [hrec]
          cases r2 with
          | ok l => exact ⟨okPost_trans hok4 hrecspec.1, hrecspec.2⟩
          | error e =>
            cases e with
            | raised => exact okPost_raised hok4 hrecspec
            | crash => exact hrecspec.elim
            | noFuel => exact hrecspec.elim
        · subst hrb3
          exact okPost_raised hok3 hrp3
        · exfalso
          simp only [] at hlen3
          omega
      · subst hrb2
        exact okPost_raised hok2 hrp2
      · exfalso
        simp only [] at hlen2
        omega
    · subst hrb1
      exact okPost_raised hok1 hrp1
    · exfalso
      simp only [] at hlen1
      omega
  · rw [if_neg hcomma]
    simp only [ppureRun]
    exact ⟨okPost_refl s hP, t, hct, hne⟩

theorem stepParseFunctionParameters (f : Nat) (ihPL : specParamLoop f) :
    specParseFunctionParameters (f + 1) := by
  intro s hE hP hcur hfuel
  obtain ⟨t, hct, hne⟩ := hcur
  have hlt := get_lt_of_some hct
  have hlt2 : s.pos + 1 < s.tokens.length := endsEOF_succ_lt hE hct hne
  obtain ⟨pt, hpt⟩ := get_isSome_of_lt hlt2
  rw [parseFunctionParameters, pbindRun, peekTokenRun, hpt]
  simp only []
  by_cases hrp : pt.type = TokenType.RPAREN
  · rw [if_pos hrp]
    simp only [pbindRun, padvanceRun, ppureRun]
    exact ⟨okPost_step hpt, pt, hpt, by rw [hrp]; decide⟩
  · rw [if_neg hrp]
    simp only [pbindRun]
    rcases hX1 : expectToken f TokenType.IDENT true false true s
      with ⟨rb1, sb1⟩
    rcases expectToken_adv_spec f TokenType.IDENT true s rb1 sb1 hP
        (Or.inl rfl) (by omega) hX1 with
      ⟨t1, hrb1, hsb1, hpk1, htt1⟩ | ⟨hrb1, hrp1, _, _⟩ |
      ⟨hrb1, hsb1, hlen1, _⟩
    · subst hrb1 hsb1
      simp only [iteNTT, iteNPT, pbindRun, currentBangRun]
      try simp only []
      rw [hpk1]
      have hok1 : okPost s { s with pos := s.pos + 1 } := okPost_step hpk1
      have hne1 : t1.type ≠ TokenType.EOF := by rw [htt1]; decide
      have hlt3 : s.pos + 1 + 1 < s.tokens.length :=
        endsEOF_succ_lt hE hpk1 hne1
      simp only [pbindRun]
      rcases hX2 : expectToken f TokenType.COLON true false true
          { s with pos := s.pos + 1 } with ⟨rb2, sb2⟩
      rcases expectToken_adv_spec f TokenType.COLON true _ rb2 sb2
          hok1.2.2.2.1 (Or.inl rfl) (by simp only []; omega) hX2 with
        ⟨t2, hrb2, hsb2, hpk2, htt2⟩ | ⟨hrb2, hrp2, _, _⟩ |
        ⟨hrb2, hsb2, hlen2, _⟩
      · subst hrb2 hsb2
        try simp only [iteNTT, iteNPT]
        try simp only []
        try simp only [] at hpk2
        have hok2 : okPost s { s with pos := s.pos + 1 + 1 } :=
          okPost_trans hok1 (okPost_step hpk2)
        have hne2 : t2.type ≠ TokenType.EOF := by rw [htt2]; decide
        have hlt4 : s.pos + 1 + 1 + 1 < s.tokens.length :=
          endsEOF_succ_lt hE hpk2 hne2
        simp only [pbindRun]
        rcases hX3 : expectToken f TokenType.TYPE true false true
            { s with pos := s.pos + 1 + 1 } with ⟨rb3, sb3⟩
        rcases expectToken_adv_spec f TokenType.TYPE true _ rb3 sb3
            hok2.2.2.2.1 (Or.inl rfl) (by simp only []; omega) hX3 with
          ⟨t3, hrb3, hsb3, hpk3, htt3⟩ | ⟨hrb3, hrp3, _, _⟩ |
          ⟨hrb3, hsb3, hlen3, _⟩
        · subst hrb3 hsb3
          simp only [iteNTT, iteNPT, pbindRun, currentBangRun]
          try simp only []
          try simp only [] at hpk3
          rw [hpk3]
          have hok3 : okPost s { s with pos := s.pos + 1 + 1 + 1 } :=
            okPost_trans hok2 (okPost_step hpk3)
          have hne3 : t3.type ≠ TokenType.EOF := by rw [htt3]; decide
          simp only [pbindRun]
          rcases hrec : paramLoop f [⟨litStr t1.lit, some (litStr t3.lit)⟩]
              { s with pos := s.pos + 1 + 1 + 1 } with ⟨r2, s2⟩
          have hrecspec := ihPL [⟨litStr t1.lit, some (litStr t3.lit)⟩]
            { s with pos := s.pos + 1 + 1 + 1 } hE hok3.2.2.2.1
            ⟨t3, hpk3, hne3⟩ (by simp only []; omega)
          rw [hrec] at hrecspec
          try rw [hrec]
          cases r2 with
          | error e =>
            cases e with
            | raised => exact okPost_raised hok3 hrecspec
            | crash => exact hrecspec.elim
            | noFuel => exact hrecspec.elim
          | ok params =>
            obtain ⟨hok4, t4, ht4, hne4⟩ := hrecspec
            have hokC := okPost_trans hok3 hok4
            have hE2 : endsEOF s2.tokens = true := by rw [hokC.1]; exact hE
            have hlene : s2.tokens.length = s.tokens.length := by
              rw [hokC.1]
            have hpos2 : s.pos ≤ s2.pos := hokC.2.1
            have hlt5 : s2.pos + 1 < s2.tokens.length :=
              endsEOF_succ_lt hE2 ht4 hne4
            simp only []
            by_cases hnil : params = []
            · rw [if_pos hnil]
              simp only [ppureRun]
              exact ⟨hokC, t4, ht4, hne4⟩
            · rw [if_neg hnil]
              simp only [pbindRun]
              rcases hX4 : expectToken f TokenType.RPAREN true false true
                  s2 with ⟨rb4, sb4⟩
              rcases expectToken_adv_spec f TokenType.RPAREN true s2 rb4
                  sb4 hokC.2.2.2.1 (Or.inl rfl) (by omega) hX4 with
                ⟨t5, hrb4, hsb4, hpk4, htt4⟩ | ⟨hrb4, hrp4, _, _⟩ |
                ⟨hrb4, hsb4, hlen4, _⟩
              · subst hrb4 hsb4
                simp only [iteNTT, iteNPT, ppureRun]
                exact ⟨okPost_trans hokC (okPost_step hpk4), t5, hpk4,
                  by rw [htt4]; decide⟩
              · subst hrb4
                exact okPost_raised hokC hrp4
              · exfalso
                omega
        · subst hrb3
          exact okPost_raised hok2 hrp3
        · exfalso
          simp only [] at hlen3
          omega
      · subst hrb2
        exact okPost_raised hok1 hrp2
      · exfalso
        simp only [] at hlen2
        omega
    · subst hrb1
      exact hrp1
    · exfalso
      omega

theorem endCheck_spec (f : Nat) (v : Option Stmt) (hv : v.isSome = true)
    (s sx : PState) (hok : okPost s sx)
    (hf : sx.tokens.length - sx.pos < f) :
    stmtOutcome s
      ((expectToken f TokenType.END false true false >>= fun b =>
        if ¬ b then pure none else pure v) sx) := by
  rw [pbindRun]
  rcases hXT : expectToken f TokenType.END false true false sx
    with ⟨rb, sb⟩
  rcases expectToken_end_spec f TokenType.END sx rb sb hok.2.2.2.1 hf hXT
    with ⟨t, hrb, hsb, hct, htt⟩ | ⟨hrb, hrp, _, _⟩ |
      ⟨hrb, hsb, hlen, herr⟩
  · subst hrb hsb
    simp only [iteNTT, iteNPT, ppureRun]
    exact ⟨hok, hv, t, hct, by rw [htt]; decide⟩
  · subst hrb
    exact okPost_raised hok hrp
  · subst hrb hsb
    refine ⟨hok.1, hok.2.1, ?_, herr⟩
    rw [← hok.1]
    omega

theorem stepParseWhileStatement (f : Nat) (ihE : specParseExpression f)
    (ihWB : specWhileBodyLoop f) : specParseWhileStatement (f + 1) := by
  intro s hE hP hcur hfuel
  obtain ⟨t, hct, hne⟩ := hcur
  have hlt := get_lt_of_some hct
  have hlt2 : s.pos + 1 < s.tokens.length := endsEOF_succ_lt hE hct hne
  obtain ⟨t1, ht1⟩ := get_isSome_of_lt hlt2
  have hok1 : okPost s { s with pos := s.pos + 1 } := okPost_step ht1
  rw [parseWhileStatement, pbindRun, padvanceRun]
  simp only [pbindRun]
  rcases hPE : parseExpression f 0 { s with pos := s.pos + 1 }
    with ⟨rg, sg⟩
  have hPEspec := ihE 0 { s with pos := s.pos + 1 } hE hok1.2.2.2.1
    ⟨t1, ht1⟩ (by simp only []; omega)
  rw [hPE] at hPEspec
  cases rg with
  | error e =>
    cases e with
    | raised => exact okPost_raised hok1 hPEspec
    | crash => exact hPEspec.elim
    | noFuel => exact hPEspec.elim
  | ok cond =>
    obtain ⟨hok2, t2, ht2, hne2⟩ := hPEspec
    have hokA := okPost_trans hok1 hok2
    have hE2 : endsEOF sg.tokens = true := by rw [hokA.1]; exact hE
    have hlene : sg.tokens.length = s.tokens.length := by rw [hokA.1]
    have hposA : s.pos ≤ sg.pos := hokA.2.1
    have hlt3 : sg.pos + 1 < sg.tokens.length :=
      endsEOF_succ_lt hE2 ht2 hne2
    simp only [pbindRun]
    rcases hX1 : expectToken f TokenType.COLON true false false sg
      with ⟨rb1, sb1⟩
    rcases expectToken_adv_spec f TokenType.COLON false sg rb1 sb1
        hokA.2.2.2.1 (Or.inr (Or.inl hlt3)) (by omega) hX1 with
      ⟨t3, hrb1, hsb1, hpk3, htt3⟩ | ⟨hrb1, hrp1, _, _⟩ |
      ⟨hrb1, hsb1, hlen1, _⟩
    · subst hrb1 hsb1
      simp only [iteNTT, iteNPT, pbindRun, padvanceRun]
      try simp only []
      have hok3 : okPost s { sg with pos := sg.pos + 1 } :=
        okPost_trans hokA (okPost_step hpk3)
      have hne3 : t3.type ≠ TokenType.EOF := by rw [htt3]; decide
      have hE3 : endsEOF sg.tokens = true := hE2
      have hlt4 : sg.pos + 1 + 1 < sg.tokens.length :=
        endsEOF_succ_lt hE2 hpk3 hne3
      obtain ⟨t4, ht4⟩ := get_isSome_of_lt hlt4
      have hok4 : okPost s { sg with pos := sg.pos + 1 + 1 } :=
        okPost_trans hok3 (okPost_step ht4)
      rcases hWB : whileBodyLoop f [] { sg with pos := sg.pos + 1 + 1 }
        with ⟨rw1, sw⟩
      have hWBspec := ihWB [] { sg with pos := sg.pos + 1 + 1 }
        (by simp only []; rw [hokA.1]; exact hE) hok4.2.2.2.1
        (by show 8 * (sg.tokens.length - (sg.pos + 1 + 1)) + 30 ≤ f;
            omega)
      rw [hWB] at hWBspec
      try rw [hWB]
      cases rw1 with
      | error e => exact hWBspec.elim
      | ok body =>
        have hokB := okPost_trans hok4 hWBspec
        have hlenw : sw.tokens.length = s.tokens.length := by
          rw [hokB.1]
        have hposw : s.pos ≤ sw.pos := hokB.2.1
        exact endCheck_spec f (some (Stmt.whileStatement cond body)) rfl
          s sw hokB (by omega)
    · subst hrb1
      exact okPost_raised hokA hrp1
    · exfalso
      omega

theorem stepParseIfStatement (f : Nat) (ihE : specParseExpression f)
    (ihIB : specIfBodyLoop f) (ihEB : specElseBodyLoop f)
    (ihIF : specParseIfStatement f) : specParseIfStatement (f + 1) := by
  intro s hE hP hcur hfuel
  obtain ⟨t, hct, hne⟩ := hcur
  have hlt := get_lt_of_some hct
  have hlt2 : s.pos + 1 < s.tokens.length := endsEOF_succ_lt hE hct hne
  obtain ⟨t1, ht1⟩ := get_isSome_of_lt hlt2
  have hok1 : okPost s { s with pos := s.pos + 1 } := okPost_step ht1
  rw [parseIfStatement, pbindRun, padvanceRun]
  simp only [pbindRun]
  rcases hPE : parseExpression f 0 { s with pos := s.pos + 1 }
    with ⟨rg, sg⟩
  have hPEspec := ihE 0 { s with pos := s.pos + 1 } hE hok1.2.2.2.1
    ⟨t1, ht1⟩ (by simp only []; omega)
  rw [hPE] at hPEspec
  cases rg with
  | error e =>
    cases e with
    | raised => exact okPost_raised hok1 hPEspec
    | crash => exact hPEspec.elim
    | noFuel => exact hPEspec.elim
  | ok cond =>
    obtain ⟨hok2, t2, ht2, hne2⟩ := hPEspec
    have hokA := okPost_trans hok1 hok2
    have hE2 : endsEOF sg.tokens = true := by rw [hokA.1]; exact hE
    have hlene : sg.tokens.length = s.tokens.length := by rw [hokA.1]
    have hposA : s.pos ≤ sg.pos := hokA.2.1
    have hlt3 : sg.pos + 1 < sg.tokens.length :=
      endsEOF_succ_lt hE2 ht2 hne2
    simp only [pbindRun]
    rcases hX1 : expectToken f TokenType.COLON true false false sg
      with ⟨rb1, sb1⟩
    rcases expectToken_adv_spec f TokenType.COLON false sg rb1 sb1
        hokA.2.2.2.1 (Or.inr (Or.inl hlt3)) (by omega) hX1 with
      ⟨t3, hrb1, hsb1, hpk3, htt3⟩ | ⟨hrb1, hrp1, _, _⟩ |
      ⟨hrb1, hsb1, hlen1, _⟩
    · subst hrb1 hsb1
      simp only [iteNTT, iteNPT, pbindRun, padvanceRun]
      try simp only []
      have hok3 : okPost s { sg with pos := sg.pos + 1 } :=
        okPost_trans hokA (okPost_step hpk3)
      have hne3 : t3.type ≠ TokenType.EOF := by rw [htt3]; decide
      have hlt4 : sg.pos + 1 + 1 < sg.tokens.length :=
        endsEOF_succ_lt hE2 hpk3 hne3
      obtain ⟨t4, ht4⟩ := get_isSome_of_lt hlt4
      have hok4 : okPost s { sg with pos := sg.pos + 1 + 1 } :=
        okPost_trans hok3 (okPost_step ht4)
      rcases hIB : ifBodyLoop f [] { sg with pos := sg.pos + 1 + 1 }
        with ⟨ri, s5⟩
      have hIBspec := ihIB [] { sg with pos := sg.pos + 1 + 1 }
        (by simp only []; rw [hokA.1]; exact hE) hok4.2.2.2.1
        (by show 8 * (sg.tokens.length - (sg.pos + 1 + 1)) + 30 ≤ f;
            omega)
      rw [hIB] at hIBspec
      try rw [hIB]
      cases ri with
      | error e => exact hIBspec.elim
      | ok body =>
        have hokB := okPost_trans hok4 hIBspec
        have hlen5 : s5.tokens.length = s.tokens.length := by
          rw [hokB.1]
        have hpos5 : s.pos ≤ s5.pos := hokB.2.1
        have hE5 : endsEOF s5.tokens = true := by rw [hokB.1]; exact hE
        simp only [pbindRun, currentTokenRun]
        rcases hct5 : s5.tokens.get? s5.pos with _ | t5
        · simp only [ppureRun]
          exact endCheck_spec f
            (some (Stmt.ifStatement cond body [])) rfl s s5 hokB
            (by omega)
        · simp only []
          by_cases hElif : t5.type = TokenType.ELIF
          · rw [if_pos hElif]
            simp only [pbindRun]
            have hpos52 : sg.pos + 1 + 1 ≤ s5.pos := hIBspec.2.1
            rcases hIF : parseIfStatement f s5 with ⟨r6, s6⟩
            have hIFspec := ihIF s5 hE5 hokB.2.2.2.1
              ⟨t5, hct5, by rw [hElif]; decide⟩ (by omega)
            rw [hIF] at hIFspec
            cases r6 with
            | error e =>
              cases e with
              | raised => exact okPost_raised hokB hIFspec
              | crash => exact okPost_crash hokB hIFspec
              | noFuel => exact hIFspec.elim
            | ok inner =>
              obtain ⟨hok6, _, t6, ht6, hne6⟩ := hIFspec
              simp only [ppureRun]
              exact endCheck_spec f
                (some (Stmt.ifStatement cond body [inner])) rfl s s6
                (okPost_trans hokB hok6)
                (by have h1 : s6.tokens.length = s.tokens.length := by
                      rw [hok6.1, hokB.1]
                    have h2 : s5.pos ≤ s6.pos := hok6.2.1
                    omega)
          · rw [if_neg hElif]
            by_cases hElse : t5.type = TokenType.ELSE
            · rw [if_pos hElse]
              simp only [pbindRun]
              have hlt6 : s5.pos + 1 < s5.tokens.length :=
                endsEOF_succ_lt hE5 hct5 (by rw [hElse]; decide)
              rcases hX2 : expectToken f TokenType.COLON true false false
                  s5 with ⟨rb2, sb2⟩
              rcases expectToken_adv_spec f TokenType.COLON false s5 rb2
                  sb2 hokB.2.2.2.1 (Or.inr (Or.inl hlt6)) (by omega) hX2
                with
                ⟨t6, hrb2, hsb2, hpk6, htt6⟩ | ⟨hrb2, hrp2, _, _⟩ |
                ⟨hrb2, hsb2, hlen2, _⟩
              · subst hrb2 hsb2
                simp only [iteNTT, iteNPT, pbindRun, padvanceRun]
                try simp only []
                have hok6 : okPost s { s5 with pos := s5.pos + 1 } :=
                  okPost_trans hokB (okPost_step hpk6)
                have hne6 : t6.type ≠ TokenType.EOF := by
                  rw [htt6]; decide
                have hlt7 : s5.pos + 1 + 1 < s5.tokens.length :=
                  endsEOF_succ_lt hE5 hpk6 hne6
                obtain ⟨t7, ht7⟩ := get_isSome_of_lt hlt7
                have hok7 : okPost s { s5 with pos := s5.pos + 1 + 1 } :=
                  okPost_trans hok6 (okPost_step ht7)
                rcases hEB : elseBodyLoop f []
                    { s5 with pos := s5.pos + 1 + 1 } with ⟨r8, s8⟩
                have hEBspec := ihEB [] { s5 with pos := s5.pos + 1 + 1 }
                  (by simp only []; rw [hokB.1]; exact hE) hok7.2.2.2.1
                  (by show 8 * (s5.tokens.length - (s5.pos + 1 + 1)) +
                        30 ≤ f
                      omega)
                rw [hEB] at hEBspec
                try rw [hEB]
                cases r8 with
                | error e => exact hEBspec.elim
                | ok elseb =>
                  have hokC := okPost_trans hok7 hEBspec
                  have hlen8 : s8.tokens.length = s.tokens.length := by
                    rw [hokC.1]
                  have hpos8 : s.pos ≤ s8.pos := hokC.2.1
                  exact endCheck_spec f
                    (some (Stmt.ifStatement cond body elseb)) rfl s s8
                    hokC (by omega)
              · subst hrb2
                exact okPost_raised hokB hrp2
              · exfalso
                omega
            · rw [if_neg hElse]
              simp only [ppureRun]
              exact endCheck_spec f
                (some (Stmt.ifStatement cond body [])) rfl s s5 hokB
                (by omega)
    · subst hrb1
      exact okPost_raised hokA hrp1
    · exfalso
      omega

theorem stepParseFunctionStatement (f : Nat)
    (ihFP : specParseFunctionParameters f) (ihFB : specFuncBodyLoop f) :
    specParseFunctionStatement (f + 1) := by
  intro s hE hP hcur hfuel
  obtain ⟨t, hct, hne⟩ := hcur
  have hlt := get_lt_of_some hct
  have hlt2 : s.pos + 1 < s.tokens.length := endsEOF_succ_lt hE hct hne
  rw [parseFunctionStatement, pbindRun]
  rcases hX1 : expectToken f TokenType.IDENT true false true s
    with ⟨rb1, sb1⟩
  rcases expectToken_adv_spec f TokenType.IDENT true s rb1 sb1 hP
      (Or.inl rfl) (by omega) hX1 with
    ⟨t1, hrb1, hsb1, hpk1, htt1⟩ | ⟨hrb1, hrp1, _, _⟩ |
    ⟨hrb1, hsb1, hlen1, _⟩
  · subst hrb1 hsb1
    simp only [iteNTT, iteNPT, pbindRun, currentBangRun]
    try simp only []
    rw [hpk1]
    have hok1 : okPost s { s with pos := s.pos + 1 } := okPost_step hpk1
    have hne1 : t1.type ≠ TokenType.EOF := by rw [htt1]; decide
    have hlt3 : s.pos + 1 + 1 < s.tokens.length :=
      endsEOF_succ_lt hE hpk1 hne1
    simp only [pbindRun]
    rcases hX2 : expectToken f TokenType.LPAREN true false true
        { s with pos := s.pos + 1 } with ⟨rb2, sb2⟩
    rcases expectToken_adv_spec f TokenType.LPAREN true _ rb2 sb2
        hok1.2.2.2.1 (Or.inl rfl)
        (by show s.tokens.length - (s.pos + 1) < f; omega) hX2 with
      ⟨t2, hrb2, hsb2, hpk2, htt2⟩ | ⟨hrb2, hrp2, _, _⟩ |
      ⟨hrb2, hsb2, hlen2, _⟩
    · subst hrb2 hsb2
      try simp only [iteNTT, iteNPT]
      try simp only []
      try simp only [] at hpk2
      have hok2 : okPost s { s with pos := s.pos + 1 + 1 } :=
        okPost_trans hok1 (okPost_step hpk2)
      have hne2 : t2.type ≠ TokenType.EOF := by rw [htt2]; decide
      simp only [pbindRun]
      rcases hFP : parseFunctionParameters f
          { s with pos := s.pos + 1 + 1 } with ⟨rp, s3⟩
      have hFPspec := ihFP { s with pos := s.pos + 1 + 1 } hE
        hok2.2.2.2.1 ⟨t2, hpk2, hne2⟩
        (by show 8 * (s.tokens.length - (s.pos + 1 + 1)) + 30 ≤ f
            omega)
      rw [hFP] at hFPspec
      try rw [hFP]
      cases rp with
      | error e =>
        cases e with
        | raised => exact okPost_raised hok2 hFPspec
        | crash => exact hFPspec.elim
        | noFuel => exact hFPspec.elim
      | ok params =>
        obtain ⟨hok3, t3, ht3, hne3⟩ := hFPspec
        have hokA := okPost_trans hok2 hok3
        have hE3 : endsEOF s3.tokens = true := by rw [hokA.1]; exact hE
        have hlene3 : s3.tokens.length = s.tokens.length := by
          rw [hokA.1]
        have hpos3 : s.pos + 1 + 1 ≤ s3.pos := hok3.2.1
        have hlt4 : s3.pos + 1 < s3.tokens.length :=
          endsEOF_succ_lt hE3 ht3 hne3
        simp only [pbindRun]
        rcases hX3 : expectToken f TokenType.ARROW true false true s3
          with ⟨rb3, sb3⟩
        rcases expectToken_adv_spec f TokenType.ARROW true s3 rb3 sb3
            hokA.2.2.2.1 (Or.inl rfl) (by omega) hX3 with
          ⟨t4, hrb3, hsb3, hpk4, htt4⟩ | ⟨hrb3, hrp3, _, _⟩ |
          ⟨hrb3, hsb3, hlen3, _⟩
        · subst hrb3 hsb3
          try simp only [iteNTT, iteNPT]
          try simp only []
          have hok4 : okPost s { s3 with pos := s3.pos + 1 } :=
            okPost_trans hokA (okPost_step hpk4)
          have hne4 : t4.type ≠ TokenType.EOF := by rw [htt4]; decide
          have hlt5 : s3.pos + 1 + 1 < s3.tokens.length :=
            endsEOF_succ_lt hE3 hpk4 hne4
          simp only [pbindRun]
          rcases hX4 : expectToken f TokenType.TYPE true false true
              { s3 with pos := s3.pos + 1 } with ⟨rb4, sb4⟩
          rcases expectToken_adv_spec f TokenType.TYPE true _ rb4 sb4
              hok4.2.2.2.1 (Or.inl rfl)
              (by show s3.tokens.length - (s3.pos + 1) < f; omega) hX4
            with
            ⟨t5, hrb4, hsb4, hpk5, htt5⟩ | ⟨hrb4, hrp4, _, _⟩ |
            ⟨hrb4, hsb4, hlen4, _⟩
          · subst hrb4 hsb4
            simp only [iteNTT, iteNPT, pbindRun, currentBangRun]
            try simp only []
            try simp only [] at hpk5
            rw [hpk5]
            have hok5 : okPost s { s3 with pos := s3.pos + 1 + 1 } :=
              okPost_trans hok4 (okPost_step hpk5)
            have hne5 : t5.type ≠ TokenType.EOF := by rw [htt5]; decide
            have hlt6 : s3.pos + 1 + 1 + 1 < s3.tokens.length :=
              endsEOF_succ_lt hE3 hpk5 hne5
            simp only [pbindRun]
            rcases hX5 : expectToken f TokenType.COLON true false true
                { s3 with pos := s3.pos + 1 + 1 } with ⟨rb5, sb5⟩
            rcases expectToken_adv_spec f TokenType.COLON true _ rb5 sb5
                hok5.2.2.2.1 (Or.inl rfl)
                (by show s3.tokens.length - (s3.pos + 1 + 1) < f; omega)
                hX5 with
              ⟨t6, hrb5, hsb5, hpk6, htt6⟩ | ⟨hrb5, hrp5, _, _⟩ |
              ⟨hrb5, hsb5, hlen5, _⟩
            · subst hrb5 hsb5
              simp only [iteNTT, iteNPT, pbindRun, padvanceRun]
              try simp only []
              try simp only [] at hpk6
              have hok6 : okPost s
                  { s3 with pos := s3.pos + 1 + 1 + 1 } :=
                okPost_trans hok5 (okPost_step hpk6)
              have hne6 : t6.type ≠ TokenType.EOF := by rw [htt6]; decide
              have hlt7 : s3.pos + 1 + 1 + 1 + 1 < s3.tokens.length :=
                endsEOF_succ_lt hE3 hpk6 hne6
              obtain ⟨t7, ht7⟩ := get_isSome_of_lt hlt7
              have hok7 : okPost s
                  { s3 with pos := s3.pos + 1 + 1 + 1 + 1 } :=
                okPost_trans hok6 (okPost_step ht7)
              rcases hFB : funcBodyLoop f []
                  { s3 with pos := s3.pos + 1 + 1 + 1 + 1 }
                with ⟨rfb, s8⟩
              have hFBspec := ihFB []
                { s3 with pos := s3.pos + 1 + 1 + 1 + 1 }
                (by simp only []; rw [hokA.1]; exact hE) hok7.2.2.2.1
                (by show 8 * (s3.tokens.length -
                      (s3.pos + 1 + 1 + 1 + 1)) + 30 ≤ f
                    omega)
              rw [hFB] at hFBspec
              try rw [hFB]
              cases rfb with
              | error e => exact hFBspec.elim
              | ok body =>
                have hokC := okPost_trans hok7 hFBspec
                have hlen8 : s8.tokens.length = s.tokens.length := by
                  rw [hokC.1]
                have hpos8 : s.pos ≤ s8.pos := hokC.2.1
                exact endCheck_spec f
                  (some (Stmt.functionStatement
                    (some (Expr.identifierLiteral (litStr t1.lit)))
                    params (some (litStr t5.lit)) body)) rfl s s8 hokC
                  (by omega)
            · subst hrb5
              exact okPost_raised hok5 hrp5
            · exact absurd
                (show s3.tokens.length ≤ s3.pos + 1 + 1 + 1 from hlen5)
                (by omega)
          · subst hrb4
            exact okPost_raised hok4 hrp4
          · exact absurd
              (show s3.tokens.length ≤ s3.pos + 1 + 1 from hlen4)
              (by omega)
        · subst hrb3
          exact okPost_raised hokA hrp3
        · exfalso
          omega
    · subst hrb2
      exact okPost_raised hok1 hrp2
    · exact absurd
        (show s.tokens.length ≤ s.pos + 1 + 1 from hlen2)
        (by omega)
  · subst hrb1
    exact hrp1
  · exfalso
    omega

theorem stepParseStatement (f : Nat)
    (ihA : specParseAssignmentStatement f) (ihV : specParseVarStatement f)
    (ihF : specParseFunctionStatement f) (ihR : specParseReturnStatement f)
    (ihIF : specParseIfStatement f) (ihW : specParseWhileStatement f)
    (ihB : specParseBreakStatement f) (ihC : specParseContinueStatement f)
    (ihIM : specParseImportStatement f)
    (ihES : specParseExpressionStatement f) :
    specParseStatement (f + 1) := by
  intro s hE hP hcur hfuel
  obtain ⟨t, hct⟩ := hcur
  have hlt := get_lt_of_some hct
  rw [parseStatement, pbindRun, currentBangRun, hct]
  simp only [pbindRun, peekTokenIsAssignmentRun]
  by_cases hA : t.type = TokenType.IDENT ∧
      (match s.tokens.get? (s.pos + 1) with
       | some pt => isAssignOp pt.type
       | none => false) = true
  · rw [if_pos hA]
    rcases hpk : s.tokens.get? (s.pos + 1) with _ | pt
    · rw [hpk] at hA
      exact absurd hA.2 (by simp)
    · rw [hpk] at hA
      rcases hrun : parseAssignmentStatement f s with ⟨r1, s1⟩
      have hspec := ihA s hE hP ⟨t, hct, by rw [hA.1]; decide⟩
        ⟨pt, hpk, isAssignOp_ne_eof hA.2⟩ (by omega)
      rw [hrun] at hspec
      cases r1 with
      | ok a => exact hspec
      | error e =>
        cases e with
        | raised => exact hspec
        | crash => exact hspec.elim
        | noFuel => exact hspec.elim
  · rw [if_neg hA]
    by_cases hV : t.type = TokenType.VAR
    · rw [if_pos hV]
      rcases hrun : parseVarStatement f s with ⟨r1, s1⟩
      have hspec := ihV s hE hP ⟨t, hct, by rw [hV]; decide⟩ (by omega)
      rw [hrun] at hspec
      cases r1 with
      | ok a => exact hspec
      | error e =>
        cases e with
        | raised => exact hspec
        | crash => exact hspec.elim
        | noFuel => exact hspec.elim
    · rw [if_neg hV]
      by_cases hD : t.type = TokenType.DEF
      · rw [if_pos hD]
        rcases hrun : parseFunctionStatement f s with ⟨r1, s1⟩
        have hspec := ihF s hE hP ⟨t, hct, by rw [hD]; decide⟩ (by omega)
        rw [hrun] at hspec
        cases r1 with
        | ok a => exact hspec
        | error e =>
          cases e with
          | raised => exact hspec
          | crash =>
            refine ⟨?_, hspec⟩
            have hx := endsEOF_succ_lt hE hct (by rw [hD]; decide)
            omega
          | noFuel => exact hspec.elim
      · rw [if_neg hD]
        by_cases hR : t.type = TokenType.RETURN
        · rw [if_pos hR]
          rcases hrun : parseReturnStatement f s with ⟨r1, s1⟩
          have hspec := ihR s hE hP ⟨t, hct, by rw [hR]; decide⟩
            (by omega)
          rw [hrun] at hspec
          cases r1 with
          | ok a => exact hspec
          | error e =>
            cases e with
            | raised => exact hspec
            | crash => exact hspec.elim
            | noFuel => exact hspec.elim
        · rw [if_neg hR]
          by_cases hIf2 : t.type = TokenType.IF
          · rw [if_pos hIf2]
            rcases hrun : parseIfStatement f s with ⟨r1, s1⟩
            have hspec := ihIF s hE hP ⟨t, hct, by rw [hIf2]; decide⟩
              (by omega)
            rw [hrun] at hspec
            cases r1 with
            | ok a => exact hspec
            | error e =>
              cases e with
              | raised => exact hspec
              | crash =>
                refine ⟨?_, hspec⟩
                have hx := endsEOF_succ_lt hE hct (by rw [hIf2]; decide)
                omega
              | noFuel => exact hspec.elim
          · rw [if_neg hIf2]
            by_cases hW : t.type = TokenType.WHILE
            · rw [if_pos hW]
              rcases hrun : parseWhileStatement f s with ⟨r1, s1⟩
              have hspec := ihW s hE hP ⟨t, hct, by rw [hW]; decide⟩
                (by omega)
              rw [hrun] at hspec
              cases r1 with
              | ok a => exact hspec
              | error e =>
                cases e with
                | raised => exact hspec
                | crash =>
                  refine ⟨?_, hspec⟩
                  have hx := endsEOF_succ_lt hE hct (by rw [hW]; decide)
                  omega
                | noFuel => exact hspec.elim
            · rw [if_neg hW]
              by_cases hBk : t.type = TokenType.BREAK
              · rw [if_pos hBk]
                rcases hrun : parseBreakStatement f s with ⟨r1, s1⟩
                have hspec := ihB s hE hP ⟨t, hct, by rw [hBk]; decide⟩
                  (by omega)
                rw [hrun] at hspec
                cases r1 with
                | ok a => exact hspec
                | error e =>
                  cases e with
                  | raised => exact hspec
                  | crash => exact hspec.elim
                  | noFuel => exact hspec.elim
              · rw [if_neg hBk]
                by_cases hCn : t.type = TokenType.CONTINUE
                · rw [if_pos hCn]
                  rcases hrun : parseContinueStatement f s with ⟨r1, s1⟩
                  have hspec := ihC s hE hP
                    ⟨t, hct, by rw [hCn]; decide⟩ (by omega)
                  rw [hrun] at hspec
                  cases r1 with
                  | ok a => exact hspec
                  | error e =>
                    cases e with
                    | raised => exact hspec
                    | crash => exact hspec.elim
                    | noFuel => exact hspec.elim
                · rw [if_neg hCn]
                  by_cases hIm : t.type = TokenType.IMPORT
                  · rw [if_pos hIm]
                    rcases hrun : parseImportStatement f s with ⟨r1, s1⟩
                    have hspec := ihIM s hE hP
                      ⟨t, hct, by rw [hIm]; decide⟩ (by omega)
                    rw [hrun] at hspec
                    cases r1 with
                    | ok a => exact hspec
                    | error e =>
                      cases e with
                      | raised => exact hspec
                      | crash => exact hspec.elim
                      | noFuel => exact hspec.elim
                  · rw [if_neg hIm]
                    rcases hrun : parseExpressionStatement f s
                      with ⟨r1, s1⟩
                    have hspec := ihES s hE hP ⟨t, hct⟩ (by omega)
                    rw [hrun] at hspec
                    cases r1 with
                    | ok a => exact hspec
                    | error e =>
                      cases e with
                      | raised => exact hspec
                      | crash => exact hspec.elim
                      | noFuel => exact hspec.elim

theorem parserSpecs_all : ∀ f, parserSpecs f := by
  intro f
  induction f with
  | zero =>
    refine ⟨?_, ?_, ?_, ?_, ?_, ?_, ?_, ?_, ?_, ?_, ?_, ?_, ?_, ?_, ?_,
      ?_, ?_, ?_, ?_, ?_, ?_, ?_, ?_, ?_, ?_, ?_⟩
    all_goals simp only [specParseExpression, specInfixLoop,
      specParseInfixExpression, specParsePrefixExpression,
      specParseGroupedExpression, specParseCallExpression,
      specParseExpressionList, specExprListLoop, specParseStatement,
      specParseAssignmentStatement, specParseVarStatement, specIfBodyLoop,
      specElseBodyLoop, specParseIfStatement, specWhileBodyLoop,
      specParseWhileStatement, specFuncBodyLoop, specParamLoop,
      specParseFunctionParameters, specParseFunctionStatement,
      specParseReturnStatement, specParseExpressionStatement,
      specParseBreakStatement, specParseContinueStatement,
      specParseImportStatement, specParseProgramLoop]
    all_goals intros
    all_goals exfalso
    all_goals omega
  | succ f IH =>
    obtain ⟨ihE, ihIL, ihI, ihPre, ihG, ihC, ihEL, ihLL, ihS, ihA, ihV,
      ihIB, ihEB, ihIF, ihWB, ihW, ihFB, ihPrm, ihFP, ihF, ihR, ihES,
      ihBK, ihCN, ihIM, ihPRG⟩ := IH
    exact ⟨stepParseExpression f ihIL ihG ihPre,
      stepInfixLoop f ihIL ihI ihC,
      stepParseInfixExpression f ihE,
      stepParsePrefixExpression f ihE,
      stepParseGroupedExpression f ihE,
      stepParseCallExpression f ihEL,
      stepParseExpressionList f ihE ihLL,
      stepExprListLoop f ihE ihLL,
      stepParseStatement f ihA ihV ihF ihR ihIF ihW ihBK ihCN ihIM ihES,
      stepParseAssignmentStatement f ihE,
      stepParseVarStatement f ihE,
      stepIfBodyLoop f ihS ihIB,
      stepElseBodyLoop f ihS ihEB,
      stepParseIfStatement f ihE ihIB ihEB ihIF,
      stepWhileBodyLoop f ihS ihWB,
      stepParseWhileStatement f ihE ihWB,
      stepFuncBodyLoop f ihS ihFB,
      stepParamLoop f ihPrm,
      stepParseFunctionParameters f ihPrm,
      stepParseFunctionStatement f ihFP ihFB,
      stepParseReturnStatement f ihE,
      stepParseExpressionStatement f ihE,
      stepParseBreakStatement f,
      stepParseContinueStatement f,
      stepParseImportStatement f,
      stepParseProgramLoop f ihS ihPRG⟩

/-- C7: parser totality.  For every finite token stream ending in `EOF`
(the shape the lexer always produces), `parse_program` terminates and
returns a `Program`: at the linear fuel bound `parserFuel` the model
never exhausts its fuel and no exception escapes the loop, so the
Python loop performs a bounded number of steps and returns normally.
Moreover the parser never fails silently: whenever a malformed
statement contributes no node to the `Program` — every exception the
loop catches and every `None` it would drop — at least one Syntax
Error diagnostic has been recorded in the error handler. -/
theorem parseProgram_total (ts : List Tok) (h : endsEOF ts = true) :
    ∃ prog st, runParseProgram ts = (.ok prog, st) ∧
      (st.exceptions + st.droppedNones ≠ 0 → st.errors ≠ []) := by
  obtain ⟨-, -, -, -, -, -, -, -, -, -, -, -, -, -, -, -, -, -, -, -, -,
    -, -, -, -, hPL⟩ := parserSpecs_all (parserFuel ts)
  have hlen := endsEOF_length h
  rcases hrun : parseProgramLoop (parserFuel ts) [] (initPState ts)
    with ⟨r, st⟩
  have hspec := hPL [] (initPState ts) h
    (fun hc => absurd (show ts.length ≤ 0 from hc) (by omega))
    (by show 8 * (ts.length - 0) + 40 ≤ parserFuel ts
        unfold parserFuel
        omega)
  rw [hrun] at hspec
  cases r with
  | error e => exact hspec.elim
  | ok l =>
    refine ⟨⟨l⟩, st, ?_, ?_⟩
    · show parseProgram (parserFuel ts) (initPState ts) = _
      rw [parseProgram, pbindRun, hrun]
      rfl
    · intro hsum
      have hq := hspec.2.2.2.2
      have hor : st.exceptions ≠ 0 ∨ st.droppedNones ≠ 0 := by omega
      exact hq (fun hx => by
        rcases hx with hx | hx <;>
          exact absurd (show (0 : Nat) ≠ 0 from hx) (by simp)) hor

/-- C7 witness: the two-token stream `5 EOF` (the expression statement
`5` missing its semicolon) parses to a `Program`, and its caught
exception comes with a recorded Syntax Error. -/
theorem parseProgram_total_witness :
    endsEOF [⟨.INT, .intL 5, ⟨0, 1, 1⟩, ⟨1, 1, 2⟩⟩,
      ⟨.EOF, .strL [], ⟨1, 1, 2⟩, ⟨1, 1, 2⟩⟩] = true ∧
    ∃ prog st, runParseProgram [⟨.INT, .intL 5, ⟨0, 1, 1⟩, ⟨1, 1, 2⟩⟩,
        ⟨.EOF, .strL [], ⟨1, 1, 2⟩, ⟨1, 1, 2⟩⟩] = (.ok prog, st) ∧
      (st.exceptions + st.droppedNones ≠ 0 → st.errors ≠ []) :=
  ⟨rfl, parseProgram_total _ rfl⟩

end Purrgram
